import Mathlib

/-!
Blogspace: post derivations and toggles.

A shallow embedding of the server side of the Blogspace blogging platform
(`server/models/Post.js`, `server/routes/posts.js`, `server/routes/comments.js`,
`server/middleware/validation.js`) and theorems about it.

Strings are lists of characters (`Str`), object ids are natural numbers, the
database is a record of lists of documents, and every asynchronous handler is a
pure function from the database and the request to the new database and the
response.
-/

namespace Blogspace

/-! ## Strings -/

/-- A JavaScript string, as the list of its characters. -/
abbrev Str := List Char

/-- A MongoDB object id. -/
abbrev ObjectId := Nat

/-- The character class `\s` of JavaScript regular expressions, which is also the set of
characters removed by `String.prototype.trim`. -/
def isWhitespace (c : Char) : Bool :=
  c == '\t' || c == '\n' || c.toNat == 0x0B || c.toNat == 0x0C || c == '\r' || c == ' ' ||
  c.toNat == 0xA0 || c.toNat == 0x1680 || (0x2000 ≤ c.toNat && c.toNat ≤ 0x200A) ||
  c.toNat == 0x2028 || c.toNat == 0x2029 || c.toNat == 0x202F || c.toNat == 0x205F ||
  c.toNat == 0x3000 || c.toNat == 0xFEFF

/-- Worker of `splitWhitespace`: `inRun` tells that the previous character belonged to a
separator match, `cur` is the piece being read, reversed. -/
def splitWhitespaceGo : Str → Bool → Str → List Str
  | [], _, cur => [cur.reverse]
  | c :: rest, inRun, cur =>
    if isWhitespace c then
      if inRun then splitWhitespaceGo rest true cur
      else cur.reverse :: splitWhitespaceGo rest true []
    else splitWhitespaceGo rest false (c :: cur)

/-- The array `s.split(/\s+/)`: the pieces of `s` between the maximal runs of whitespace,
the (possibly empty) pieces before the first run and after the last run included. -/
def splitWhitespace (s : Str) : List Str :=
  splitWhitespaceGo s false []

/-- Worker of `countWords`: `inWord` tells that the previous character was not whitespace. -/
def countWordsGo : Str → Bool → Nat
  | [], _ => 0
  | c :: rest, inWord =>
    if isWhitespace c then countWordsGo rest false
    else (if inWord then 0 else 1) + countWordsGo rest true

/-- The number of whitespace-delimited words of `s`, in the words of the specification: the
number of maximal runs of non-whitespace characters. -/
def countWords (s : Str) : Nat :=
  countWordsGo s false

/-! ## Reading time (`Post.js`, first pre-save hook) -/

/-- The value of `const wordCount = this.content.split(/\s+/).length`. -/
def wordCount (content : Str) : Nat :=
  (splitWhitespace content).length

/-- The value of `Math.ceil(wordCount / 200)`, by integer arithmetic: for the lengths a string
can have, the ceiling of the double-precision quotient is the ceiling of the exact quotient
(`readingTimeOf_eq_ceil`). -/
def readingTimeOf (wordCount : Nat) : Nat :=
  (wordCount + 199) / 200

/-- The reading time the hook stores for a content. -/
def computeReadingTime (content : Str) : Nat :=
  readingTimeOf (wordCount content)

/-! ## Slug generation (`Post.js`, first pre-save hook) -/

/-- The characters of the call's `remove: /[*+~.()'"!:@]/g` option. -/
def removeDenylist : Str :=
  ['*', '+', '~', '.', '(', ')', '\'', '"', '!', ':', '@']

/-- The character class `[A-Za-z0-9]`. -/
def isAsciiAlnum (c : Char) : Bool :=
  (65 ≤ c.toNat && c.toNat ≤ 90) || (97 ≤ c.toNat && c.toNat ≤ 122) ||
  (48 ≤ c.toNat && c.toNat ≤ 57)

/-- The result of `s.trim()`. -/
def trim (s : Str) : Str :=
  ((s.dropWhile isWhitespace).reverse.dropWhile isWhitespace).reverse

/-- Worker of `replaceWhitespaceRuns`: `inRun` tells that the previous character was
whitespace. -/
def replaceWhitespaceRunsGo : Str → Bool → Str
  | [], _ => []
  | c :: rest, inRun =>
    if isWhitespace c then
      if inRun then replaceWhitespaceRunsGo rest true
      else '-' :: replaceWhitespaceRunsGo rest true
    else c :: replaceWhitespaceRunsGo rest false

/-- The result of `s.replace(/\s+/g, '-')`. -/
def replaceWhitespaceRuns (s : Str) : Str :=
  replaceWhitespaceRunsGo s false

/-- The result of `s.toLowerCase()` on the strings the model lower-cases: ASCII letters are
folded, every other character is kept. -/
def toLowerCase (s : Str) : Str :=
  s.map Char.toLower

/-- Modelled from the spec: the data of the `slugify` package and of the JavaScript runtime
that `slugify(this.title, ...)` reads and that are not under src/: Unicode normalisation
(`String.prototype.normalize`) and the package's character map. Both leave ASCII letters and
digits alone. -/
structure SlugifyTables where
  /-- The result of `string.normalize()` -/
  normalize : Str → Str
  /-- The entry `charMap[ch]`, when there is one -/
  charMap : Char → Option Str
  /-- A string of ASCII letters and digits is its own normal form. -/
  normalize_alnum : ∀ s : Str, (∀ c ∈ s, isAsciiAlnum c = true) → normalize s = s
  /-- ASCII letters and digits have no entry in the character map. -/
  charMap_alnum : ∀ c : Char, isAsciiAlnum c = true → charMap c = none

/-- One step of the reduction inside `slugify`: the text appended for the character `ch`. The
character-map entry replaces the character, the replacement character `'-'` becomes a space,
and the matches of the `remove` option are deleted. -/
def slugifyChar (T : SlugifyTables) (ch : Char) : Str :=
  let appendChar := (T.charMap ch).getD [ch]
  let appendChar := if appendChar = ['-'] then [' '] else appendChar
  appendChar.filter (fun c => !removeDenylist.contains c)

/-- Modelled from the spec: the `slugify` package imported by `Post.js` is a dependency whose
source is not under src/. This is the package's transformation for the options of the call
site, `lower: true, strict: true, remove: /[*+~.()'"!:@]/g`: map every character, strip
everything but ASCII letters, digits and whitespace (`strict`), trim, turn each whitespace run
into one `'-'`, and lower-case. It produces the token of the specification (4.1): lowercase,
trimmed, ASCII-safe, the denylist stripped. -/
def slugify (T : SlugifyTables) (string : Str) : Str :=
  let slug := (T.normalize string).foldl (fun result ch => result ++ slugifyChar T ch) []
  let slug := slug.filter (fun c => isAsciiAlnum c || isWhitespace c)
  let slug := trim slug
  let slug := replaceWhitespaceRuns slug
  toLowerCase slug

/-- Tables with a few entries of the package's character map, for concrete evaluation. -/
def sampleTables : SlugifyTables where
  normalize := id
  charMap := fun c =>
    if c = '&' then some ['a', 'n', 'd']
    else if c = '%' then some ['p', 'e', 'r', 'c', 'e', 'n', 't']
    else if c = '$' then some ['d', 'o', 'l', 'l', 'a', 'r']
    else none
  normalize_alnum := fun _ _ => rfl
  charMap_alnum := by
    intro c hc
    have h1 : c ≠ '&' := by rintro rfl; exact absurd hc (by decide)
    have h2 : c ≠ '%' := by rintro rfl; exact absurd hc (by decide)
    have h3 : c ≠ '$' := by rintro rfl; exact absurd hc (by decide)
    simp [h1, h2, h3]

/-- The characters a slug is made of according to the specification: `a-z`, `0-9` and `'-'`. -/
def isSlugChar (c : Char) : Bool :=
  (97 ≤ c.toNat && c.toNat ≤ 122) || (48 ≤ c.toNat && c.toNat ≤ 57) || c == '-'

/-- No two consecutive characters of `s` are both `'-'`. -/
def NoDoubleHyphen (s : Str) : Prop :=
  s.Chain' (fun a b => ¬(a = '-' ∧ b = '-'))

instance (s : Str) : Decidable (NoDoubleHyphen s) := by
  unfold NoDoubleHyphen
  infer_instance

/-! ## Documents and the database -/

/-- The `status` enum of the post schema. -/
inductive PostStatus where
  | draft
  | published
  | archived
deriving DecidableEq, Repr

/-- The `status` enum of the comment schema. -/
inductive CommentStatus where
  | approved
  | pending
  | spam
deriving DecidableEq, Repr

/-- The `role` enum of the user schema. -/
inductive Role where
  | user
  | admin
deriving DecidableEq, Repr

/-- A document of the `Post` collection (`Post.js`, lines 4-69). `likes` is a JavaScript number
that the like handler decrements without a lower bound, hence an integer. -/
structure Post where
  _id : ObjectId
  title : Str
  slug : Str
  excerpt : Option Str
  content : Str
  image : Str
  author : ObjectId
  tags : List Str
  status : PostStatus
  likes : Int
  likedBy : List ObjectId
  views : Nat
  readingTime : Nat
  featured : Bool
  commentsEnabled : Bool
  createdAt : Nat
deriving DecidableEq, Repr

/-- A document of the `Comment` collection (`Comment.js`, lines 3-45). -/
structure Comment where
  _id : ObjectId
  content : Str
  author : ObjectId
  post : ObjectId
  parent : Option ObjectId
  likes : Int
  likedBy : List ObjectId
  status : CommentStatus
  isEdited : Bool
  editedAt : Option Nat
  createdAt : Nat
deriving DecidableEq, Repr

/-- A document of the `User` collection (`User.js`, lines 4-73), with the fields the post,
comment and user routes read or write. -/
structure User where
  _id : ObjectId
  username : Str
  email : Str
  role : Role
  bio : Option Str
  followers : List ObjectId
  following : List ObjectId
  bookmarks : List ObjectId
  isActive : Bool
  createdAt : Nat
deriving DecidableEq, Repr

/-- The three collections. -/
structure Db where
  posts : List Post
  comments : List Comment
  users : List User
deriving DecidableEq, Repr

/-- `Post.findById(id)`. -/
def findPostById (posts : List Post) (id : ObjectId) : Option Post :=
  posts.find? (fun q => q._id == id)

/-- `Comment.findById(id)`. -/
def findCommentById (comments : List Comment) (id : ObjectId) : Option Comment :=
  comments.find? (fun q => q._id == id)

/-- `User.findById(id)`. -/
def findUserById (users : List User) (id : ObjectId) : Option User :=
  users.find? (fun q => q._id == id)

/-- The write of a loaded post back to its collection: the stored document with the id of `p`
becomes `p`. -/
def replacePost (posts : List Post) (p : Post) : List Post :=
  posts.map (fun q => if q._id == p._id then p else q)

/-- The write of a loaded comment back to its collection. -/
def replaceComment (comments : List Comment) (c : Comment) : List Comment :=
  comments.map (fun q => if q._id == c._id then c else q)

/-- The write of a loaded user back to its collection. -/
def replaceUser (users : List User) (u : User) : List User :=
  users.map (fun q => if q._id == u._id then u else q)

/-- The length `s.length` of a JavaScript string, in UTF-16 code units. -/
def utf16Length (s : Str) : Nat :=
  (s.map (fun c => if c.toNat < 0x10000 then 1 else 2)).sum

/-! ## The pre-save hooks of `Post.js` -/

/-- The paths of a post that `isModified` reports and that the schema validates. -/
structure Modified where
  title : Bool
  content : Bool
  excerpt : Bool
deriving DecidableEq, Repr

/-- The assignment `this.slug = v`: the schema declares `lowercase: true` on `slug`. -/
def setSlug (p : Post) (v : Str) : Post :=
  { p with slug := toLowerCase v }

/-- The first hook (`Post.js`, lines 81-97): the slug is derived when the title is modified,
the reading time when the content is modified. -/
def preSaveDerive (T : SlugifyTables) (m : Modified) (p : Post) : Post :=
  let p := if m.title then setSlug p (slugify T p.title) else p
  if m.content then { p with readingTime := computeReadingTime p.content } else p

/-- The decimal digits of `n`, as the template literal `${counter}` renders a number. -/
def natToStr (n : Nat) : Str :=
  Nat.toDigits 10 n

/-- The query `findOne({ slug, _id: { $ne: id } })` finds a document. -/
def slugTaken (posts : List Post) (id : ObjectId) (slug : Str) : Bool :=
  posts.any (fun q => q.slug == slug && q._id != id)

/-- The loop of the second hook (`Post.js`, lines 103-109) started with the candidate `slug` and
the counter `counter`; `base` is `this.slug`. Each unit of fuel pays for one existence query;
`none` means that the fuel ran out. -/
def uniqueSlugLoop (posts : List Post) (id : ObjectId) (base : Str) : Nat → Str → Nat → Option Str
  | 0, _, _ => none
  | fuel + 1, slug, counter =>
    if slugTaken posts id slug then
      uniqueSlugLoop posts id base fuel (base ++ '-' :: natToStr counter) (counter + 1)
    else some slug

/-- The slug the loop ends with for the base slug `base`, with one unit of fuel more than there
are stored posts. -/
def uniqueSlug (posts : List Post) (id : ObjectId) (base : Str) : Option Str :=
  uniqueSlugLoop posts id base (posts.length + 1) base 1

/-- The second hook (`Post.js`, lines 100-113). -/
def preSaveUniqueSlug (posts : List Post) (m : Modified) (p : Post) : Option Post :=
  if !m.title then some p
  else (uniqueSlug posts p._id p.slug).map (setSlug p)

/-- What a handler passes to `next(error)`. -/
inductive ServerError where
  | validation
  | duplicateKey
  | documentNotFound
  | loopOutOfFuel
  | typeError
  | badValue
  | invalidRegex
  | upstream
deriving DecidableEq, Repr

/-- The schema validators of the modified paths of a post (`Post.js`, lines 5-23): the title is
required and has at most 200 code units, the content is required, the excerpt has at most 500
code units. Stored documents passed these validators when they were written. -/
def validatePostDoc (m : Modified) (p : Post) : Bool :=
  (!m.title || (p.title != [] && utf16Length p.title ≤ 200)) &&
  (!m.content || p.content != []) &&
  (!m.excerpt || match p.excerpt with
    | none => true
    | some e => utf16Length e ≤ 500)

/-- The call `post.save()` (or the save inside `Post.create`): validation, the two hooks,
then the write. A new document is inserted, which the unique indexes on `_id` and `slug` can
refuse; a loaded document replaces its stored version. -/
def savePost (T : SlugifyTables) (posts : List Post) (isNew : Bool) (m : Modified) (p : Post) :
    Except ServerError (List Post × Post) :=
  if !validatePostDoc m p then .error .validation
  else
    match preSaveUniqueSlug posts m (preSaveDerive T m p) with
    | none => .error .loopOutOfFuel
    | some p' =>
      if isNew then
        if posts.any (fun q => q._id == p'._id || q.slug == p'.slug) then .error .duplicateKey
        else .ok (posts ++ [p'], p')
      else if posts.any (fun q => q._id == p'._id) then .ok (replacePost posts p', p')
      else .error .documentNotFound

/-! ## Requests and responses -/

/-- A post of the list of `GET /posts`: the document, the populated `commentCount`, and the
flags added for an authenticated requester. -/
structure PostView where
  post : Post
  commentCount : Nat
  isLiked : Option Bool
  isBookmarked : Option Bool
deriving DecidableEq, Repr

/-- A top-level comment of `GET /comments/post/:postId` with its populated `replies`. -/
structure CommentView where
  comment : Comment
  replies : List Comment
deriving DecidableEq, Repr

/-- The object returned by `getStats` (`User.js`, lines 98-123). -/
structure UserStats where
  posts : Nat
  followers : Nat
  following : Nat
  likes : Int
  views : Nat
  comments : Nat
deriving DecidableEq, Repr

/-- The `data` object of `GET /admin/stats` (`admin.js`, lines 42-53). -/
structure AdminStats where
  totalUsers : Nat
  totalPosts : Nat
  totalComments : Nat
  totalViews : Nat
  newUsersThisMonth : Nat
  newPostsThisMonth : Nat
  newCommentsThisMonth : Nat
deriving DecidableEq, Repr

/-- A user of the list of `GET /admin/users`: the document and the number of the user's
posts. -/
structure UserView where
  user : User
  posts : Nat
deriving DecidableEq, Repr

/-- The `data` field of a response body. -/
inductive Payload where
  | post (p : Post)
  | likeState (likes : Int) (isLiked : Bool)
  | bookmarkState (isBookmarked : Bool)
  | comment (c : Comment)
  | posts (l : List PostView)
  | comments (l : List CommentView)
  | followState (isFollowing : Bool) (followersCount : Nat)
  | postDetail (v : PostView)
  | user (u : User)
  | profile (u : User) (stats : UserStats)
  | stats (s : AdminStats)
  | userViews (l : List UserView)
  | commentDocs (l : List Comment)
  | postDocs (l : List Post)
  | users (l : List User)
  | upload (url publicId : Str)
deriving DecidableEq, Repr

/-- A JavaScript number that holds an integer, an infinity or `NaN`: the values of `parseInt`
and of the arithmetic of the list endpoints on them. In a response body `JSON.stringify`
writes an infinity as `null`. -/
inductive JsNumber where
  | nan
  | finite (n : Int)
  | infinite (negative : Bool)
deriving DecidableEq, Repr

instance : NatCast JsNumber :=
  ⟨fun n => .finite n⟩

instance : IntCast JsNumber :=
  ⟨fun n => .finite n⟩

instance (n : Nat) : OfNat JsNumber n :=
  ⟨.finite n⟩

/-- The `pagination` field of a list response; `hasNext` and `hasPrev` are sent by `GET /posts`
only. -/
structure Pagination where
  page : JsNumber
  limit : JsNumber
  total : Nat
  totalPages : Int
  hasNext : Option Bool
  hasPrev : Option Bool
deriving DecidableEq, Repr

/-- A response sent with `res.status(status).json(body)`: the status and the fields of the
body, an absent field being `none`. -/
structure Response where
  status : Nat
  success : Bool
  message : Option Str
  data : Option Payload
  pagination : Option Pagination := none
deriving DecidableEq, Repr

/-- How a handler ends: it sends a response, or it passes an error to `next`. -/
inductive Outcome where
  | reply (r : Response)
  | forward (e : ServerError)
deriving DecidableEq, Repr

/-- An error response `{ success: false, message }`. -/
def failure (status : Nat) (message : String) : Outcome :=
  .reply { status := status, success := false, message := some message.toList, data := none }

/-- A success response `{ success: true, message, data }`. -/
def success (status : Nat) (message : String) (data : Payload) : Outcome :=
  .reply { status := status, success := true, message := some message.toList, data := some data }

/-- The body of a `POST /posts` or `PUT /posts/:id` request: the schema paths it may carry,
each one present or absent. -/
structure PostBody where
  title : Option Str
  content : Option Str
  excerpt : Option Str
  image : Option Str
  tags : Option (List Str)
  status : Option Str
  slug : Option Str
  readingTime : Option Nat
  author : Option ObjectId
  likes : Option Int
  likedBy : Option (List ObjectId)
  views : Option Nat
  featured : Option Bool
  commentsEnabled : Option Bool
deriving DecidableEq, Repr

/-- The middleware `validatePost` (`validation.js`, lines 42-59) followed by `validateRequest`:
`none` when the request is answered 400, otherwise the body as the sanitizers leave it. The
length check of the title runs on the submitted value, before `trim()`; lengths are counted
in code points. -/
def validatePost (body : PostBody) : Option PostBody :=
  let title := body.title.getD []
  let titleOk := 1 ≤ title.length && title.length ≤ 200
  let contentOk := body.content.getD [] != []
  let excerptOk := match body.excerpt with
    | none => true
    | some e => e.length ≤ 500
  if titleOk && contentOk && excerptOk then some { body with title := some (trim title) }
  else none

/-- The cast of a `status` string to the schema enum; `none` fails the enum validator. -/
def parsePostStatus (s : Str) : Option PostStatus :=
  if s = "draft".toList then some .draft
  else if s = "published".toList then some .published
  else if s = "archived".toList then some .archived
  else none

/-- The setters `lowercase: true, trim: true` of the elements of `tags`. -/
def setTag (t : Str) : Str :=
  trim (toLowerCase t)

/-- The default of the `image` path. -/
def defaultImage : Str :=
  "https://images.pexels.com/photos/261763/pexels-photo-261763.jpeg?auto=compress&cs=tinysrgb&w=800".toList

/-- The document `new Post({ ...req.body, author })` with the id `newId`: the body's paths go
through the schema setters, absent paths take the schema defaults, and `author` always is the
requester; `none` when the status is not in the enum. -/
def newPostDoc (body : PostBody) (author newId now : Nat) : Option Post :=
  match (match body.status with
    | none => some PostStatus.published
    | some s => parsePostStatus s) with
  | none => none
  | some status =>
    some {
      _id := newId
      title := trim (body.title.getD [])
      slug := toLowerCase (body.slug.getD [])
      excerpt := body.excerpt
      content := body.content.getD []
      image := body.image.getD defaultImage
      author := author
      tags := (body.tags.getD []).map setTag
      status := status
      likes := body.likes.getD 0
      likedBy := body.likedBy.getD []
      views := body.views.getD 0
      readingTime := body.readingTime.getD 1
      featured := body.featured.getD false
      commentsEnabled := body.commentsEnabled.getD true
      createdAt := now }

/-- Every validated path counts as modified on a new document. -/
def allModified : Modified :=
  { title := true, content := true, excerpt := true }

/-- No validated path is modified. -/
def noneModified : Modified :=
  { title := false, content := false, excerpt := false }

/-! ## Handlers of `routes/posts.js` -/

/-- The handler `POST /api/posts` (`posts.js`, lines 129-147) behind `protect` and
`validatePost`. `reqUser` is the authenticated user, `newId` the id of the new document and
`now` the clock. -/
def createPost (T : SlugifyTables) (db : Db) (reqUser : User) (body : PostBody)
    (newId now : Nat) : Db × Outcome :=
  match validatePost body with
  | none => (db, failure 400 "Validation failed")
  | some body =>
    match newPostDoc body reqUser._id newId now with
    | none => (db, .forward .validation)
    | some doc =>
      match savePost T db.posts true allModified doc with
      | .error e => (db, .forward e)
      | .ok (posts, post) =>
        ({ db with posts := posts }, success 201 "Post created successfully" (.post post))

/-- The update `findByIdAndUpdate(id, body, { new: true, runValidators: true })`: every path
the body carries is set on the stored document through its setter and checked by its
validators; the unique index on `slug` can refuse the write. No `save` hook runs. -/
def findByIdAndUpdate (posts : List Post) (id : ObjectId) (body : PostBody) :
    Except ServerError (List Post × Option Post) :=
  match findPostById posts id with
  | none => .ok (posts, none)
  | some old =>
    match (match body.status with
      | none => some old.status
      | some s => parsePostStatus s) with
    | none => .error .validation
    | some status =>
      let p : Post := {
        _id := old._id
        title := match body.title with
          | none => old.title
          | some t => trim t
        slug := match body.slug with
          | none => old.slug
          | some v => toLowerCase v
        excerpt := match body.excerpt with
          | none => old.excerpt
          | some e => some e
        content := body.content.getD old.content
        image := body.image.getD old.image
        author := body.author.getD old.author
        tags := match body.tags with
          | none => old.tags
          | some ts => ts.map setTag
        status := status
        likes := body.likes.getD old.likes
        likedBy := body.likedBy.getD old.likedBy
        views := body.views.getD old.views
        readingTime := body.readingTime.getD old.readingTime
        featured := body.featured.getD old.featured
        commentsEnabled := body.commentsEnabled.getD old.commentsEnabled
        createdAt := old.createdAt }
      let m : Modified := {
        title := body.title.isSome, content := body.content.isSome,
        excerpt := body.excerpt.isSome }
      if !validatePostDoc m p then .error .validation
      else if posts.any (fun q => q._id != id && q.slug == p.slug) && body.slug.isSome then
        .error .duplicateKey
      else .ok (replacePost posts p, some p)

/-- The handler `PUT /api/posts/:id` (`posts.js`, lines 152-185) behind `protect` and
`validatePost`. -/
def updatePost (db : Db) (reqUser : User) (id : ObjectId) (body : PostBody) : Db × Outcome :=
  match validatePost body with
  | none => (db, failure 400 "Validation failed")
  | some body =>
    match findPostById db.posts id with
    | none => (db, failure 404 "Post not found")
    | some post =>
      if post.author != reqUser._id && reqUser.role != Role.admin then
        (db, failure 403 "Not authorized to update this post")
      else
        match findByIdAndUpdate db.posts id body with
        | .error e => (db, .forward e)
        | .ok (posts, none) =>
          ({ db with posts := posts },
            .reply { status := 200, success := true,
                     message := some "Post updated successfully".toList, data := none })
        | .ok (posts, some post) =>
          ({ db with posts := posts }, success 200 "Post updated successfully" (.post post))

/-- The handler `POST /api/posts/:id/like` (`posts.js`, lines 232-268) behind `protect`. -/
def likePost (T : SlugifyTables) (db : Db) (reqUser : User) (id : ObjectId) : Db × Outcome :=
  match findPostById db.posts id with
  | none => (db, failure 404 "Post not found")
  | some post =>
    let isLiked := post.likedBy.contains reqUser._id
    let post :=
      if isLiked then
        { post with likedBy := post.likedBy.filter (fun u => u != reqUser._id),
                    likes := post.likes - 1 }
      else
        { post with likedBy := post.likedBy ++ [reqUser._id], likes := post.likes + 1 }
    match savePost T db.posts false noneModified post with
    | .error e => (db, .forward e)
    | .ok (posts, post) =>
      ({ db with posts := posts },
        success 200 (if isLiked then "Post unliked" else "Post liked")
          (.likeState post.likes (!isLiked)))

/-- The handler `POST /api/posts/:id/bookmark` (`posts.js`, lines 273-307) behind `protect`.
The user is loaded again by id; the save of the user runs no hook of interest, the password
being unmodified. -/
def bookmarkPost (db : Db) (reqUser : User) (id : ObjectId) : Db × Outcome :=
  match findPostById db.posts id with
  | none => (db, failure 404 "Post not found")
  | some post =>
    match findUserById db.users reqUser._id with
    | none => (db, .forward .typeError)
    | some user =>
      let isBookmarked := user.bookmarks.contains post._id
      let user :=
        if isBookmarked then
          { user with bookmarks := user.bookmarks.filter (fun b => b != post._id) }
        else { user with bookmarks := user.bookmarks ++ [post._id] }
      ({ db with users := replaceUser db.users user },
        success 200 (if isBookmarked then "Bookmark removed" else "Post bookmarked")
          (.bookmarkState (!isBookmarked)))

/-! ## Handlers of `routes/comments.js` -/

/-- The handler `POST /api/comments/:id/like` (`comments.js`, lines 190-226) behind `protect`.
The comment schema has no save hook. -/
def likeComment (db : Db) (reqUser : User) (id : ObjectId) : Db × Outcome :=
  match findCommentById db.comments id with
  | none => (db, failure 404 "Comment not found")
  | some comment =>
    let isLiked := comment.likedBy.contains reqUser._id
    let comment :=
      if isLiked then
        { comment with likedBy := comment.likedBy.filter (fun u => u != reqUser._id),
                       likes := comment.likes - 1 }
      else
        { comment with likedBy := comment.likedBy ++ [reqUser._id],
                       likes := comment.likes + 1 }
    ({ db with comments := replaceComment db.comments comment },
      success 200 (if isLiked then "Comment unliked" else "Comment liked")
        (.likeState comment.likes (!isLiked)))

/-! ## Query parameters of the list endpoints -/

/-- The value of a digit character in the radix `radix`, when it has one. -/
def digitValue (radix : Nat) (c : Char) : Option Nat :=
  let v :=
    if 48 ≤ c.toNat ∧ c.toNat ≤ 57 then c.toNat - 48
    else if 97 ≤ c.toNat ∧ c.toNat ≤ 122 then c.toNat - 87
    else if 65 ≤ c.toNat ∧ c.toNat ≤ 90 then c.toNat - 55
    else 36
  if v < radix then some v else none

/-- The number read from the longest prefix of digits of `s`, after the digits read so far:
`none` when no digit was read at all. -/
def parseDigits (radix : Nat) : Str → Option Nat → Option Nat
  | [], acc => acc
  | c :: rest, acc =>
    match digitValue radix c with
    | none => acc
    | some v => parseDigits radix rest (some (acc.getD 0 * radix + v))

/-- The sign `parseInt` reads at the start of the text, and the rest of the text. -/
def readSign (s : Str) : Bool × Str :=
  match s with
  | '-' :: rest => (true, rest)
  | '+' :: rest => (false, rest)
  | _ => (false, s)

/-- The radix `parseInt` chooses for the text after the sign, 16 after a `0x` prefix and 10
otherwise, and the text of the digits. -/
def readRadix (s : Str) : Nat × Str :=
  match s with
  | '0' :: 'x' :: rest => (16, rest)
  | '0' :: 'X' :: rest => (16, rest)
  | _ => (10, s)

/-- The number of binary digits a number loses when it is stored in the 53-bit significand of a
double: how many times `n` is halved until it is below `2^53`. -/
def dropBits : Nat → Nat → Nat
  | 0, _ => 0
  | fuel + 1, n => if n < 2 ^ 53 then 0 else dropBits fuel (n / 2) + 1

/-- The double nearest to the natural number `n`, a tie going to the even significand; `none`
is `Infinity`, the result from `2^1024 - 2^970` on. Numbers below `2^53` are doubles; a larger
one keeps a significand `q` of 53 bits and the exponent `e`, and `q * 2^e` is a double when it
is below `2^1024`, which is when `e < 971`, or `e = 971` and `q < 2^53`. -/
def roundToDouble (n : Nat) : Option Nat :=
  if n < 2 ^ 53 then some n
  else
    let e := dropBits n n
    let q := n / 2 ^ e
    let r := n % 2 ^ e
    let q := if 2 ^ e < 2 * r ∨ (2 * r = 2 ^ e ∧ q % 2 = 1) then q + 1 else q
    if e < 971 ∨ (e = 971 ∧ q < 2 ^ 53) then some (q * 2 ^ e) else none

/-- The double that holds the integer `n`, negated when `negative` is set. -/
def toDouble (negative : Bool) (n : Nat) : JsNumber :=
  match roundToDouble n with
  | none => .infinite negative
  | some m => .finite (if negative then -(m : Int) else (m : Int))

/-- The result of `parseInt(v)` for a query parameter `v`, absent (`none`) or a string. Leading
whitespace is skipped, a sign is read, a `0x` prefix selects radix 16, and the longest prefix
of digits is the value, which the result holds as a double: it is rounded to the nearest
double, and to an infinity beyond the doubles. Every digit is read; the language allows an
engine to read the decimal digits after the twentieth significant one as zeros, which the
engine of Node does not do. -/
def parseInt (v : Option Str) : JsNumber :=
  match v with
  | none => .nan
  | some s =>
    let signed := readSign (s.dropWhile isWhitespace)
    let digits := readRadix signed.2
    match parseDigits digits.1 digits.2 none with
    | none => .nan
    | some n => toDouble signed.1 n

/-- The value of `parseInt(v) || fallback`: `NaN` and `0` are falsy. -/
def parseIntOr (v : Option Str) (fallback : Int) : JsNumber :=
  match parseInt v with
  | .nan => .finite fallback
  | .finite n => if n = 0 then .finite fallback else .finite n
  | .infinite negative => .infinite negative

/-- The value of `const page = parseInt(req.query.page) || 1`. -/
def pageOf (v : Option Str) : JsNumber :=
  parseIntOr v 1

/-- The value of `const limit = parseInt(req.query.limit) || 10`. -/
def limitOf (v : Option Str) : JsNumber :=
  parseIntOr v 10

/-- The value of `const skip = (page - 1) * limit` for a finite page and limit, as the exact
product: it is the value of the expression when it is below `2^53`, and beyond that the
expression rounds it to a double, or to an infinity, which skips every document of a list of
fewer than `2^53` all the same. -/
def skipOf (page limit : Int) : Int :=
  (page - 1) * limit

/-- The value of `const skip = (page - 1) * limit`: with an infinite page or limit it is the
infinity that has the product of the signs, and `NaN` for `0 * Infinity`. -/
def skipNumber (page limit : JsNumber) : JsNumber :=
  match page, limit with
  | .finite p, .finite l => .finite (skipOf p l)
  | .nan, _ => .nan
  | _, .nan => .nan
  | .finite p, .infinite negative =>
    if p = 1 then .nan else .infinite (decide (p < 1) != negative)
  | .infinite negative, .finite l =>
    if l = 0 then .nan else .infinite (negative != decide (l < 0))
  | .infinite negative, .infinite negative' => .infinite (negative != negative')

/-- The value of `Math.ceil(total / limit)` for a count `total` and a non-zero `limit`, by
integer arithmetic. -/
def ceilDiv (total : Nat) (limit : Int) : Int :=
  if 0 < limit then ((total : Int) + limit - 1) / limit
  else -((total : Int) / (-limit))

/-- The documents a cursor with `.skip(skip).limit(limit)` returns from the sorted matches. A
negative `limit` asks for as many documents as its absolute value. -/
def window {α : Type} (l : List α) (skip limit : Int) : List α :=
  (l.drop skip.toNat).take limit.natAbs

/-- The documents a cursor with `.skip(skip).limit(limit)` returns from the sorted matches for
the numbers the handler computed; `none` when the database refuses the skip, which it does
when the skip is negative. The database reads a number that is not finite as a 64-bit
integer: `NaN` as 0, which as a limit is no limit, and an infinity as the largest or the
smallest integer. -/
def readPage {α : Type} (l : List α) (skip limit : JsNumber) : Option (List α) :=
  match skip, limit with
  | .finite s, .finite lm => if s < 0 then none else some (window l s lm)
  | .finite s, _ => if s < 0 then none else some (l.drop s.toNat)
  | .infinite true, _ => none
  | .infinite false, _ => some []
  | .nan, .finite lm => some (window l 0 lm)
  | .nan, _ => some l

/-- The value of `Math.ceil(total / limit)`: the quotient by an infinite limit is zero. -/
def totalPagesOf (total : Nat) (limit : JsNumber) : Int :=
  match limit with
  | .finite l => ceilDiv total l
  | _ => 0

/-- The value of `page < totalPages`. -/
def pageBefore (page : JsNumber) (totalPages : Int) : Bool :=
  match page with
  | .finite p => decide (p < totalPages)
  | .infinite negative => negative
  | .nan => false

/-- The value of `page > 1`. -/
def pageAfterFirst (page : JsNumber) : Bool :=
  match page with
  | .finite p => decide (p > 1)
  | .infinite negative => !negative
  | .nan => false

/-! ## Handlers of `routes/comments.js`: list, create, update, delete -/

/-- The order `.sort('-createdAt')` of comments: newest first, documents of equal date in
their stored order. -/
def sortCommentsNewestFirst (l : List Comment) : List Comment :=
  l.insertionSort (fun a b => b.createdAt ≤ a.createdAt)

/-- The filter `{ post: postId, parent: null, status: 'approved' }`. -/
def isTopLevelOf (postId : ObjectId) (c : Comment) : Bool :=
  c.post == postId && c.parent == none && c.status == CommentStatus.approved

/-- The populated virtual `replies` of a comment with `match: { status: 'approved' }`: the
approved comments whose `parent` is the comment, as the collection returns them; the populate
call passes no sort option. -/
def repliesOf (comments : List Comment) (c : Comment) : List Comment :=
  comments.filter (fun q => q.parent == some c._id && q.status == CommentStatus.approved)

/-- The handler `GET /api/comments/post/:postId` (`comments.js`, lines 12-57). The database
refuses a negative `skip`. -/
def getComments (db : Db) (postId : ObjectId) (pageQ limitQ : Option Str) : Outcome :=
  let page := pageOf pageQ
  let limit := limitOf limitQ
  let skip := skipNumber page limit
  let matching := db.comments.filter (isTopLevelOf postId)
  match readPage (sortCommentsNewestFirst matching) skip limit with
  | none => .forward .badValue
  | some comments =>
    let total := matching.length
    .reply {
      status := 200, success := true, message := none,
      data := some (.comments (comments.map (fun c => ⟨c, repliesOf db.comments c⟩))),
      pagination := some {
        page := page, limit := limit, total := total, totalPages := totalPagesOf total limit,
        hasNext := none, hasPrev := none } }

/-- The body of a `POST /comments` or `PUT /comments/:id` request; an empty or absent
`parentId` is `none`. -/
structure CommentBody where
  content : Option Str
  postId : Option ObjectId
  parentId : Option ObjectId
deriving DecidableEq, Repr

/-- The middleware `validateComment` (`validation.js`, lines 61-67) followed by
`validateRequest`: `none` when the request is answered 400, otherwise the body with the
content trimmed. The length check runs on the submitted value, before `trim()`. -/
def validateComment (body : CommentBody) : Option CommentBody :=
  let content := body.content.getD []
  if 1 ≤ content.length && content.length ≤ 1000 then
    some { body with content := some (trim content) }
  else none

/-- The schema validators of the content of a comment (`Comment.js`, lines 4-9): required, at
most 1000 code units. -/
def validateCommentDoc (c : Comment) : Bool :=
  c.content != [] && utf16Length c.content ≤ 1000

/-- The document `Comment.create({ content, author, post, parent })` builds: the content goes
through the `trim` setter, the other paths take the schema defaults. -/
def newCommentDoc (content : Str) (author post : ObjectId) (parent : Option ObjectId)
    (newId now : Nat) : Comment :=
  { _id := newId
    content := trim content
    author := author
    post := post
    parent := parent
    likes := 0
    likedBy := []
    status := .approved
    isEdited := false
    editedAt := none
    createdAt := now }

/-- The handler `POST /api/comments` (`comments.js`, lines 62-110) behind `protect` and
`validateComment`. -/
def createComment (db : Db) (reqUser : User) (body : CommentBody) (newId now : Nat) :
    Db × Outcome :=
  match validateComment body with
  | none => (db, failure 400 "Validation failed")
  | some body =>
    match body.postId.bind
        (fun postId => (findPostById db.posts postId).map (fun p => (postId, p))) with
    | none => (db, failure 404 "Post not found")
    | some (postId, post) =>
      if !post.commentsEnabled then (db, failure 400 "Comments are disabled for this post")
      else if (match body.parentId with
        | none => false
        | some parentId => (findCommentById db.comments parentId).isNone) then
        (db, failure 404 "Parent comment not found")
      else
        let comment :=
          newCommentDoc (body.content.getD []) reqUser._id postId body.parentId newId now
        if !validateCommentDoc comment then (db, .forward .validation)
        else if db.comments.any (fun q => q._id == newId) then (db, .forward .duplicateKey)
        else
          ({ db with comments := db.comments ++ [comment] },
            success 201 "Comment created successfully" (.comment comment))

/-- The assignments of the update handler (`comments.js`, lines 134-136): the content, through
the `trim` setter, the `isEdited` flag and the date of the edit. -/
def editedComment (comment : Comment) (content : Str) (now : Nat) : Comment :=
  { comment with content := trim content, isEdited := true, editedAt := some now }

/-- The handler `PUT /api/comments/:id` (`comments.js`, lines 115-149) behind `protect` and
`validateComment`. Only the author passes the ownership check. -/
def updateComment (db : Db) (reqUser : User) (id : ObjectId) (body : CommentBody) (now : Nat) :
    Db × Outcome :=
  match validateComment body with
  | none => (db, failure 400 "Validation failed")
  | some body =>
    match findCommentById db.comments id with
    | none => (db, failure 404 "Comment not found")
    | some comment =>
      if comment.author != reqUser._id then
        (db, failure 403 "Not authorized to update this comment")
      else
        let comment := editedComment comment (body.content.getD []) now
        if !validateCommentDoc comment then (db, .forward .validation)
        else
          ({ db with comments := replaceComment db.comments comment },
            success 200 "Comment updated successfully" (.comment comment))

/-- The two deletions of the comment handlers: `Comment.deleteMany({ parent: comment._id })`,
then `comment.deleteOne()`. -/
def deleteCommentCascade (comments : List Comment) (comment : Comment) : List Comment :=
  (comments.filter (fun q => q.parent != some comment._id)).filter
    (fun q => q._id != comment._id)

/-- A success response `{ success: true, message }` without data. -/
def successNoData (status : Nat) (message : String) : Outcome :=
  .reply { status := status, success := true, message := some message.toList, data := none }

/-- The handler `DELETE /api/comments/:id` (`comments.js`, lines 154-185) behind `protect`. -/
def deleteComment (db : Db) (reqUser : User) (id : ObjectId) : Db × Outcome :=
  match findCommentById db.comments id with
  | none => (db, failure 404 "Comment not found")
  | some comment =>
    if comment.author != reqUser._id && reqUser.role != Role.admin then
      (db, failure 403 "Not authorized to delete this comment")
    else
      ({ db with comments := deleteCommentCascade db.comments comment },
        successNoData 200 "Comment deleted successfully")

/-! ## Handlers of `routes/posts.js`: list and delete -/

/-- The query string of `GET /posts`; an absent parameter is `none`. -/
structure PostsQuery where
  page : Option Str
  limit : Option Str
  search : Option Str
  tag : Option Str
  author : Option Str
  status : Option Str
  sort : Option Str
deriving DecidableEq, Repr

/-- What the database layer supplies to the queries: the matcher of a `$regex` pattern with
`$options: 'i'` (`none` when the engine rejects the pattern), the order of a sort key other
than `-createdAt`, which permutes the documents, and `String.prototype.toLowerCase`, by which
mongoose casts the filter value of a path declared `lowercase: true`; on ASCII text it folds
the letters `A-Z`. -/
structure QueryEngine where
  regex : Str → Option (Str → Bool)
  sortPosts : Str → List Post → List Post
  sortPosts_perm : ∀ (key : Str) (l : List Post), (sortPosts key l).Perm l
  lower : Str → Str
  lower_ascii : ∀ s : Str, (∀ c ∈ s, c.toNat < 128) → lower s = toLowerCase s

/-- The name of a status in the database. -/
def statusName (s : PostStatus) : Str :=
  match s with
  | .draft => "draft".toList
  | .published => "published".toList
  | .archived => "archived".toList

/-- The order `.sort('-createdAt')` of posts: newest first, documents of equal date in their
stored order. -/
def sortPostsNewestFirst (l : List Post) : List Post :=
  l.insertionSort (fun a b => b.createdAt ≤ a.createdAt)

/-- The order `.sort(sort)`. -/
def sortPostsBy (E : QueryEngine) (key : Str) (l : List Post) : List Post :=
  if key = "-createdAt".toList then sortPostsNewestFirst l else E.sortPosts key l

/-- A query parameter that is present and not the empty string, as `if (param)` tests it. -/
def truthy (v : Option Str) : Option Str :=
  v.filter (fun s => s != [])

/-- `User.findOne({ username })`: mongoose casts the filter value by the setter `trim: true`
of the path (`User.js`, line 9). -/
def findUserByUsername (users : List User) (username : Str) : Option User :=
  users.find? (fun u => u.username == trim username)

/-- The filter value `{ tags: { $in: [tag] } }` as mongoose casts it, by the setters
`lowercase: true, trim: true` of the elements of `tags` (`Post.js`, lines 33-37), which are
the setters `setTag` applies to a stored tag; the lower-casing is the engine's. -/
def castTag (E : QueryEngine) (tag : Str) : Str :=
  trim (E.lower tag)

/-- The filter document built by `GET /posts` (`posts.js`, lines 27-47), as a predicate:
`status` always, `$or` over title, excerpt and content when `search` is given, `tags` when
`tag` is given, cast by the setters of the path, and `author` when `author` is given and names
a stored user. -/
def postsFilter (E : QueryEngine) (db : Db) (q : PostsQuery) (matcher : Str → Bool)
    (p : Post) : Bool :=
  statusName p.status == q.status.getD "published".toList &&
  (match truthy q.search with
    | none => true
    | some _ => matcher p.title || (match p.excerpt with
        | none => false
        | some e => matcher e) || matcher p.content) &&
  (match truthy q.tag with
    | none => true
    | some tag => p.tags.contains (castTag E tag)) &&
  (match (truthy q.author).bind (findUserByUsername db.users) with
    | none => true
    | some authorUser => p.author == authorUser._id)

/-- The matcher of the `search` parameter of a query: every text when there is no search,
the engine's matcher of the pattern otherwise; `none` when the engine rejects the pattern. -/
def searchMatcher (E : QueryEngine) (q : PostsQuery) : Option (Str → Bool) :=
  match truthy q.search with
  | none => some (fun _ => true)
  | some pattern => E.regex pattern

/-- The object sent for a post of the list (`posts.js`, lines 58-67): the document with its
populated `commentCount`, and `isLiked` and `isBookmarked` when the requester is
authenticated. -/
def postView (db : Db) (reqUser : Option User) (p : Post) : PostView :=
  { post := p
    commentCount := (db.comments.filter (fun c => c.post == p._id)).length
    isLiked := reqUser.map (fun u => p.likedBy.contains u._id)
    isBookmarked := reqUser.map (fun u => u.bookmarks.contains p._id) }

/-- The handler `GET /api/posts` (`posts.js`, lines 13-87) behind `optionalAuth`; `reqUser` is
the authenticated requester, if any. -/
def getPosts (E : QueryEngine) (db : Db) (reqUser : Option User) (q : PostsQuery) : Outcome :=
  let page := pageOf q.page
  let limit := limitOf q.limit
  let skip := skipNumber page limit
  match searchMatcher E q with
  | none => .forward .invalidRegex
  | some matcher =>
    let matching := db.posts.filter (postsFilter E db q matcher)
    match readPage (sortPostsBy E (q.sort.getD "-createdAt".toList) matching) skip limit with
    | none => .forward .badValue
    | some posts =>
      let total := matching.length
      let totalPages := totalPagesOf total limit
      .reply {
        status := 200, success := true, message := none,
        data := some (.posts (posts.map (postView db reqUser))),
        pagination := some {
          page := page, limit := limit, total := total, totalPages := totalPages,
          hasNext := some (pageBefore page totalPages),
          hasPrev := some (pageAfterFirst page) } }

/-- The three deletions of the post handlers: the comments of the post, the post in every
user's bookmarks (`$pull`), then the post itself. -/
def deletePostCascade (db : Db) (post : Post) : Db :=
  { posts := db.posts.filter (fun q => q._id != post._id)
    comments := db.comments.filter (fun c => c.post != post._id)
    users := db.users.map (fun u =>
      if u.bookmarks.contains post._id then
        { u with bookmarks := u.bookmarks.filter (fun b => b != post._id) }
      else u) }

/-- The handler `DELETE /api/posts/:id` (`posts.js`, lines 190-227) behind `protect`. -/
def deletePost (db : Db) (reqUser : User) (id : ObjectId) : Db × Outcome :=
  match findPostById db.posts id with
  | none => (db, failure 404 "Post not found")
  | some post =>
    if post.author != reqUser._id && reqUser.role != Role.admin then
      (db, failure 403 "Not authorized to delete this post")
    else (deletePostCascade db post, successNoData 200 "Post deleted successfully")

/-! ## Handlers of `routes/admin.js` -/

/-- The handler `DELETE /api/admin/posts/:id` (`admin.js`, lines 233-262), which runs behind
`protect` and `authorize('admin')`. -/
def adminDeletePost (db : Db) (id : ObjectId) : Db × Outcome :=
  match findPostById db.posts id with
  | none => (db, failure 404 "Post not found")
  | some post => (deletePostCascade db post, successNoData 200 "Post deleted successfully")

/-- The handler `DELETE /api/admin/comments/:id` (`admin.js`, lines 305-328), which runs
behind `protect` and `authorize('admin')`. -/
def adminDeleteComment (db : Db) (id : ObjectId) : Db × Outcome :=
  match findCommentById db.comments id with
  | none => (db, failure 404 "Comment not found")
  | some comment =>
    ({ db with comments := deleteCommentCascade db.comments comment },
      successNoData 200 "Comment deleted successfully")

/-! ## Handlers of `routes/users.js` -/

/-- The handler `POST /api/users/:id/follow` (`users.js`, lines 40-84) behind `protect`. The
two saves write two different documents. -/
def followUser (db : Db) (reqUser : User) (id : ObjectId) : Db × Outcome :=
  match findUserById db.users id with
  | none => (db, failure 404 "User not found")
  | some userToFollow =>
    if userToFollow._id == reqUser._id then (db, failure 400 "You cannot follow yourself")
    else
      match findUserById db.users reqUser._id with
      | none => (db, .forward .typeError)
      | some currentUser =>
        let isFollowing := currentUser.following.contains userToFollow._id
        let currentUser' :=
          if isFollowing then
            { currentUser with
              following := currentUser.following.filter (fun u => u != userToFollow._id) }
          else { currentUser with following := currentUser.following ++ [userToFollow._id] }
        let userToFollow' :=
          if isFollowing then
            { userToFollow with
              followers := userToFollow.followers.filter (fun u => u != currentUser._id) }
          else { userToFollow with followers := userToFollow.followers ++ [currentUser._id] }
        ({ db with users := replaceUser (replaceUser db.users currentUser') userToFollow' },
          success 200 (if isFollowing then "User unfollowed" else "User followed")
            (.followState (!isFollowing) userToFollow'.followers.length))

/-! ## Handler `GET /posts/:slug` of `routes/posts.js` -/

/-- `Post.findOne({ slug })`: mongoose casts the filter value by the setter `lowercase: true`
of the path (`Post.js`, lines 11-15). -/
def findPostBySlug (E : QueryEngine) (posts : List Post) (slug : Str) : Option Post :=
  posts.find? (fun q => q.slug == E.lower slug)

/-- The handler `GET /api/posts/:slug` (`posts.js`, lines 92-124) behind `optionalAuth`;
`reqUser` is the authenticated requester, if any. The save follows an assignment to `views`
only. -/
def getPostBySlug (T : SlugifyTables) (E : QueryEngine) (db : Db) (reqUser : Option User)
    (slug : Str) : Db × Outcome :=
  match findPostBySlug E db.posts slug with
  | none => (db, failure 404 "Post not found")
  | some post =>
    let post := { post with views := post.views + 1 }
    match savePost T db.posts false noneModified post with
    | .error e => (db, .forward e)
    | .ok (posts, post) =>
      ({ db with posts := posts },
        .reply { status := 200, success := true, message := none,
                 data := some (.postDetail (postView db reqUser post)) })

/-! ## Handlers of `routes/admin.js`: users -/

/-- The role named by the `role` field of a request body, when it is one of
`['user', 'admin']`. -/
def parseRole (role : Option Str) : Option Role :=
  match role with
  | none => none
  | some s =>
    if s = "user".toList then some Role.user
    else if s = "admin".toList then some Role.admin
    else none

/-- The handler `PUT /api/admin/users/:id/role` (`admin.js`, lines 113-145), which runs behind
`protect` and `authorize('admin')`. -/
def adminUpdateRole (db : Db) (id : ObjectId) (role : Option Str) : Db × Outcome :=
  match parseRole role with
  | none => (db, failure 400 "Invalid role")
  | some r =>
    match findUserById db.users id with
    | none => (db, failure 404 "User not found")
    | some user =>
      let user := { user with role := r }
      ({ db with users := replaceUser db.users user },
        success 200 "User role updated successfully" (.user user))

/-- `User.countDocuments({ role: 'admin' })`. -/
def adminCount (users : List User) : Nat :=
  (users.filter (fun u => u.role == Role.admin)).length

/-- The deletions of `DELETE /admin/users/:id`: the posts and the comments whose author is the
user, then the user. -/
def deleteUserCascade (db : Db) (user : User) : Db :=
  { posts := db.posts.filter (fun q => q.author != user._id)
    comments := db.comments.filter (fun c => c.author != user._id)
    users := db.users.filter (fun u => u._id != user._id) }

/-- The handler `DELETE /api/admin/users/:id` (`admin.js`, lines 150-187), which runs behind
`protect` and `authorize('admin')`. -/
def adminDeleteUser (db : Db) (id : ObjectId) : Db × Outcome :=
  match findUserById db.users id with
  | none => (db, failure 404 "User not found")
  | some user =>
    if user.role == Role.admin && adminCount db.users ≤ 1 then
      (db, failure 400 "Cannot delete the last admin user")
    else (deleteUserCascade db user, successNoData 200 "User deleted successfully")

/-! ## Handlers of `routes/admin.js`: statistics and lists -/

/-- The handler `GET /api/admin/stats` (`admin.js`, lines 16-57), which runs behind `protect`
and `authorize('admin')`; `monthStart` is the first day of the current month, read from the
clock. -/
def adminStats (db : Db) (monthStart : Nat) : Outcome :=
  .reply { status := 200, success := true, message := none,
           data := some (.stats {
             totalUsers := db.users.length
             totalPosts := db.posts.length
             totalComments := db.comments.length
             totalViews := (db.posts.map (fun p => p.views)).sum
             newUsersThisMonth := (db.users.filter (fun u => monthStart ≤ u.createdAt)).length
             newPostsThisMonth := (db.posts.filter (fun p => monthStart ≤ p.createdAt)).length
             newCommentsThisMonth :=
               (db.comments.filter (fun c => monthStart ≤ c.createdAt)).length }) }

/-- The matcher of `const search = req.query.search || ''` in the admin lists: every text when
there is no search, the engine's matcher of the pattern otherwise; `none` when the engine
rejects the pattern. -/
def adminSearchMatcher (E : QueryEngine) (search : Option Str) : Option (Str → Bool) :=
  match truthy search with
  | none => some (fun _ => true)
  | some pattern => E.regex pattern

/-- The order `.sort('-createdAt')` of users: newest first, documents of equal date in their
stored order. -/
def sortUsersNewestFirst (l : List User) : List User :=
  l.insertionSort (fun a b => b.createdAt ≤ a.createdAt)

/-- The pagination object of the admin lists and of the comments list: no `hasNext` and no
`hasPrev`. -/
def plainPagination (page limit : JsNumber) (total : Nat) : Pagination :=
  { page := page, limit := limit, total := total, totalPages := totalPagesOf total limit,
    hasNext := none, hasPrev := none }

/-- The handler `GET /api/admin/users` (`admin.js`, lines 62-108), which runs behind `protect`
and `authorize('admin')`. -/
def adminUsers (E : QueryEngine) (db : Db) (pageQ limitQ searchQ : Option Str) : Outcome :=
  let page := pageOf pageQ
  let limit := limitOf limitQ
  let skip := skipNumber page limit
  match adminSearchMatcher E searchQ with
  | none => .forward .invalidRegex
  | some matcher =>
    let matching := db.users.filter (fun u => matcher u.username || matcher u.email)
    match readPage (sortUsersNewestFirst matching) skip limit with
    | none => .forward .badValue
    | some users =>
      .reply {
        status := 200, success := true, message := none,
        data := some (.userViews (users.map (fun u =>
          ⟨u, (db.posts.filter (fun p => p.author == u._id)).length⟩))),
        pagination := some (plainPagination page limit matching.length) }

/-- The handler `GET /api/admin/posts` (`admin.js`, lines 192-228), which runs behind
`protect` and `authorize('admin')`. -/
def adminPosts (E : QueryEngine) (db : Db) (pageQ limitQ searchQ : Option Str) : Outcome :=
  let page := pageOf pageQ
  let limit := limitOf limitQ
  let skip := skipNumber page limit
  match adminSearchMatcher E searchQ with
  | none => .forward .invalidRegex
  | some matcher =>
    let matching := db.posts.filter (fun p => matcher p.title || matcher p.content)
    match readPage (sortPostsNewestFirst matching) skip limit with
    | none => .forward .badValue
    | some posts =>
      .reply {
        status := 200, success := true, message := none,
        data := some (.posts (posts.map (postView db none))),
        pagination := some (plainPagination page limit matching.length) }

/-- The handler `GET /api/admin/comments` (`admin.js`, lines 267-300), which runs behind
`protect` and `authorize('admin')`. -/
def adminComments (E : QueryEngine) (db : Db) (pageQ limitQ searchQ : Option Str) : Outcome :=
  let page := pageOf pageQ
  let limit := limitOf limitQ
  let skip := skipNumber page limit
  match adminSearchMatcher E searchQ with
  | none => .forward .invalidRegex
  | some matcher =>
    let matching := db.comments.filter (fun c => matcher c.content)
    match readPage (sortCommentsNewestFirst matching) skip limit with
    | none => .forward .badValue
    | some comments =>
      .reply {
        status := 200, success := true, message := none,
        data := some (.commentDocs comments),
        pagination := some (plainPagination page limit matching.length) }

/-! ## Lists without pagination -/

/-- The handler `GET /api/posts/user/:username` (`posts.js`, lines 312-339). -/
def getUserPosts (db : Db) (username : Str) : Outcome :=
  match findUserByUsername db.users username with
  | none => failure 404 "User not found"
  | some user =>
    let posts := sortPostsNewestFirst (db.posts.filter (fun p =>
      p.author == user._id && p.status == PostStatus.published))
    .reply { status := 200, success := true, message := none,
             data := some (.posts (posts.map (postView db none))) }

/-- The handler `GET /api/users/me/bookmarks` (`users.js`, lines 89-107) behind `protect`. The
populated `bookmarks` are the stored posts the array refers to, in its order; reading them off
a user who is no longer stored is a `TypeError`. -/
def getBookmarks (db : Db) (reqUser : User) : Outcome :=
  match findUserById db.users reqUser._id with
  | none => .forward .typeError
  | some user =>
    .reply { status := 200, success := true, message := none,
             data := some (.postDocs (user.bookmarks.filterMap (findPostById db.posts))) }

/-- The handler `GET /api/users/:id/followers` (`users.js`, lines 112-132). -/
def getFollowers (db : Db) (id : ObjectId) : Outcome :=
  match findUserById db.users id with
  | none => failure 404 "User not found"
  | some user =>
    .reply { status := 200, success := true, message := none,
             data := some (.users (user.followers.filterMap (findUserById db.users))) }

/-- The handler `GET /api/users/:id/following` (`users.js`, lines 137-157). -/
def getFollowing (db : Db) (id : ObjectId) : Outcome :=
  match findUserById db.users id with
  | none => failure 404 "User not found"
  | some user =>
    .reply { status := 200, success := true, message := none,
             data := some (.users (user.following.filterMap (findUserById db.users))) }

/-! ## Handlers of `routes/upload.js` -/

/-- The handler `POST /api/upload/image` (`upload.js`, lines 34-69) behind `protect` and the
multer middleware: `file` tells that `req.file` is set, and `uploaded` is what the Cloudinary
service, which is outside the repository, returns: the URL and the public id of the image,
or nothing when the upload fails. -/
def uploadImage (file : Bool) (uploaded : Option (Str × Str)) : Outcome :=
  if !file then failure 400 "No image file provided"
  else
    match uploaded with
    | none => .forward .upstream
    | some result => success 200 "Image uploaded successfully" (.upload result.1 result.2)

/-- The handler `DELETE /api/upload/image/:publicId` (`upload.js`, lines 74-87) behind
`protect`; `destroyed` tells that the call to the Cloudinary service returned. -/
def deleteImage (destroyed : Bool) : Outcome :=
  if destroyed then successNoData 200 "Image deleted successfully" else .forward .upstream

/-! ## The router of `routes/users.js` -/

/-- The request methods the routers register. -/
inductive Method where
  | get
  | post
  | put
  | delete
deriving DecidableEq, Repr

/-- A segment of a route path: a literal, or a parameter such as `:username`. -/
inductive Segment where
  | lit (s : Str)
  | param (name : Str)
deriving DecidableEq, Repr

/-- The handlers registered by `routes/users.js`. -/
inductive UsersHandler where
  | profile
  | follow
  | bookmarks
  | followers
  | following
  | search
deriving DecidableEq, Repr

/-- A registration `router.METHOD(path, handler)`. -/
structure Route where
  method : Method
  pattern : List Segment
  handler : UsersHandler
deriving DecidableEq, Repr

/-- The registrations of `routes/users.js` in the order of the file (lines 11, 40, 89, 112,
137 and 162). -/
def usersRoutes : List Route :=
  [ { method := .get, pattern := [.param "username".toList], handler := .profile },
    { method := .post, pattern := [.param "id".toList, .lit "follow".toList],
      handler := .follow },
    { method := .get, pattern := [.lit "me".toList, .lit "bookmarks".toList],
      handler := .bookmarks },
    { method := .get, pattern := [.param "id".toList, .lit "followers".toList],
      handler := .followers },
    { method := .get, pattern := [.param "id".toList, .lit "following".toList],
      handler := .following },
    { method := .get, pattern := [.lit "search".toList], handler := .search } ]

/-- A route path matches a request path, given as its segments: a literal matches the same
text whatever the case of its letters, the router not being case sensitive; a parameter
matches any segment that is not empty. -/
def matchPattern : List Segment → List Str → Bool
  | [], [] => true
  | .lit s :: pattern, segment :: path =>
    toLowerCase s == toLowerCase segment && matchPattern pattern path
  | .param _ :: pattern, segment :: path => segment != [] && matchPattern pattern path
  | _, _ => false

/-- The handler the users router runs for a request: the first registration, in order, whose
method and path match. None of the handlers passes the request on to a later one. -/
def dispatchUsers (method : Method) (path : List Str) : Option UsersHandler :=
  (usersRoutes.find? (fun r => r.method == method && matchPattern r.pattern path)).map
    (fun r => r.handler)

/-- The method `getStats` of a user (`User.js`, lines 98-123). -/
def getStats (db : Db) (user : User) : UserStats :=
  let posts := db.posts.filter (fun p => p.author == user._id)
  { posts := posts.length
    followers := user.followers.length
    following := user.following.length
    likes := (posts.map (fun p => p.likes)).sum
    views := (posts.map (fun p => p.views)).sum
    comments := (db.comments.filter (fun c => c.author == user._id)).length }

/-- The handler `GET /api/users/:username` (`users.js`, lines 11-35). -/
def getUserProfile (db : Db) (username : Str) : Outcome :=
  match findUserByUsername db.users username with
  | none => failure 404 "User not found"
  | some user =>
    .reply { status := 200, success := true, message := none,
             data := some (.profile user (getStats db user)) }

/-! ## The uniqueness loop with its counters -/

/-- The loop of the second hook (`Post.js`, lines 103-109) as `uniqueSlugLoop` runs it, which
also reports the value of `counter` when the loop ends and the number of `findOne` queries it
made; `queries` is the number of queries made before. -/
def uniqueSlugRun (posts : List Post) (id : ObjectId) (base : Str) :
    Nat → Str → Nat → Nat → Option (Str × Nat × Nat)
  | 0, _, _, _ => none
  | fuel + 1, slug, counter, queries =>
    if slugTaken posts id slug then
      uniqueSlugRun posts id base fuel (base ++ '-' :: natToStr counter) (counter + 1)
        (queries + 1)
    else some (slug, counter, queries + 1)

/-! ## Sample data -/

/-- The content made of `n` words `w` separated by single spaces. -/
def wordsContent (n : Nat) : Str :=
  ((List.replicate n ['w']).intersperse [' ']).flatten

/-- A post with the schema defaults. -/
def samplePost (id : ObjectId) (title slug content : String) : Post :=
  { _id := id, title := title.toList, slug := slug.toList, excerpt := none,
    content := content.toList, image := defaultImage, author := 1, tags := [],
    status := .published, likes := 0, likedBy := [], views := 0, readingTime := 1,
    featured := false, commentsEnabled := true, createdAt := 0 }

/-- A user with the schema defaults. -/
def sampleUser (id : ObjectId) (username : String) : User :=
  { _id := id, username := username.toList, email := (username ++ "@example.com").toList,
    role := .user, bio := none, followers := [], following := [], bookmarks := [],
    isActive := true, createdAt := 0 }

/-- A comment with the schema defaults. -/
def sampleComment (id post : ObjectId) (content : String) : Comment :=
  { _id := id, content := content.toList, author := 1, post := post, parent := none,
    likes := 0, likedBy := [], status := .approved, isEdited := false, editedAt := none,
    createdAt := 0 }

/-- A request body that carries a title and a content only. -/
def sampleBody (title content : String) : PostBody :=
  { title := some title.toList, content := some content.toList, excerpt := none,
    image := none, tags := none, status := none, slug := none, readingTime := none,
    author := none, likes := none, likedBy := none, views := none, featured := none,
    commentsEnabled := none }

/-- A query engine for concrete evaluation: the pattern matches the texts that contain it
literally, and other sort keys keep the stored order. -/
def sampleEngine : QueryEngine where
  regex := fun pattern => some (fun text => decide (pattern <:+: text))
  sortPosts := fun _ l => l
  sortPosts_perm := fun _ l => List.Perm.refl l
  lower := toLowerCase
  lower_ascii := fun _ _ => rfl

/-- A query string with no parameter. -/
def emptyQuery : PostsQuery :=
  { page := none, limit := none, search := none, tag := none, author := none, status := none,
    sort := none }

/-- A reply to the comment `parent` on the post `post`. -/
def sampleReply (id post parent : ObjectId) (content : String) (createdAt : Nat) : Comment :=
  { sampleComment id post content with parent := some parent, createdAt := createdAt }

/-! ## Definitions used in the statements -/

/-- The strings `slugify` hands to the whitespace replacement: ASCII letters, digits and
whitespace only. -/
def AlnumOrSpace (s : Str) : Prop :=
  ∀ c ∈ s, isAsciiAlnum c = true ∨ isWhitespace c = true

/-- The candidates the loop tries in turn: the base slug, then `base-1`, `base-2`, ... -/
def candidate (base : Str) (k : Nat) : Str :=
  if k = 0 then base else base ++ '-' :: natToStr k

/-- The post the two hooks leave for a modified title when the loop stops at the `k`-th
candidate. -/
def savedPost (T : SlugifyTables) (c e : Bool) (p : Post) (k : Nat) : Post :=
  { preSaveDerive T ⟨true, c, e⟩ p with slug := candidate (slugify T p.title) k }

/-- The slugs of the stored posts are pairwise distinct. -/
def SlugsDistinct (posts : List Post) : Prop :=
  posts.Pairwise (fun a b => a.slug ≠ b.slug)

/-- The ids of the stored posts are pairwise distinct, as the `_id` index guarantees. -/
def IdsDistinct (posts : List Post) : Prop :=
  posts.Pairwise (fun a b => a._id ≠ b._id)

instance (posts : List Post) : Decidable (SlugsDistinct posts) := by
  unfold SlugsDistinct
  infer_instance

instance (posts : List Post) : Decidable (IdsDistinct posts) := by
  unfold IdsDistinct
  infer_instance

/-- The post a like toggle of the user `u` leaves. -/
def toggledPost (post : Post) (u : ObjectId) : Post :=
  if post.likedBy.contains u then
    { post with likedBy := post.likedBy.filter (fun v => v != u), likes := post.likes - 1 }
  else { post with likedBy := post.likedBy ++ [u], likes := post.likes + 1 }

/-- The comment a like toggle of the user `u` leaves. -/
def toggledComment (comment : Comment) (u : ObjectId) : Comment :=
  if comment.likedBy.contains u then
    { comment with likedBy := comment.likedBy.filter (fun v => v != u),
                   likes := comment.likes - 1 }
  else { comment with likedBy := comment.likedBy ++ [u], likes := comment.likes + 1 }

/-- The user a bookmark toggle of the post `b` leaves. -/
def toggledUser (user : User) (b : ObjectId) : User :=
  if user.bookmarks.contains b then
    { user with bookmarks := user.bookmarks.filter (fun v => v != b) }
  else { user with bookmarks := user.bookmarks ++ [b] }

/-- The counter of likes agrees with the list of likers, which has no duplicate. -/
def LikesConsistent (likes : Int) (likedBy : List ObjectId) : Prop :=
  likedBy.Nodup ∧ likes = likedBy.length

/-- The database after the users of `users` have called `POST /posts/:id/like` in turn. -/
def likePostMany (T : SlugifyTables) (db : Db) (users : List User) (id : ObjectId) : Db :=
  users.foldl (fun d u => (likePost T d u id).1) db

/-- The database after the users of `users` have called `POST /comments/:id/like` in turn. -/
def likeCommentMany (db : Db) (users : List User) (id : ObjectId) : Db :=
  users.foldl (fun d u => (likeComment d u id).1) db

/-- The list a toggle of the member `u` leaves: all occurrences pulled when `u` is in the
list, `u` pushed otherwise. -/
def toggleMember (l : List ObjectId) (u : ObjectId) : List ObjectId :=
  if l.contains u then l.filter (fun v => v != u) else l ++ [u]

/-- A database with one post, one comment and two users. -/
def toggleDb : Db :=
  ⟨[samplePost 1 "Foo" "foo" "text"], [sampleComment 4 1 "nice"],
    [sampleUser 1 "ann", sampleUser 2 "bob"]⟩

/-- The ids of the stored comments are pairwise distinct, as the `_id` index guarantees. -/
def CommentIdsDistinct (comments : List Comment) : Prop :=
  comments.Pairwise (fun a b => a._id ≠ b._id)

instance (comments : List Comment) : Decidable (CommentIdsDistinct comments) := by
  unfold CommentIdsDistinct
  infer_instance

instance : IsTotal Post (fun a b => b.createdAt ≤ a.createdAt) :=
  ⟨fun a b => le_total b.createdAt a.createdAt⟩

instance : IsTrans Post (fun a b => b.createdAt ≤ a.createdAt) :=
  ⟨fun _ _ _ hab hbc => le_trans hbc hab⟩

instance : IsTotal Comment (fun a b => b.createdAt ≤ a.createdAt) :=
  ⟨fun a b => le_total b.createdAt a.createdAt⟩

instance : IsTrans Comment (fun a b => b.createdAt ≤ a.createdAt) :=
  ⟨fun _ _ _ hab hbc => le_trans hbc hab⟩

/-- The requester after a follow toggle on the user `id`. -/
def followedBy (a : User) (id : ObjectId) : User :=
  if a.following.contains id then
    { a with following := a.following.filter (fun u => u != id) }
  else { a with following := a.following ++ [id] }

/-- The user `b` after a follow toggle by the requester `a`. -/
def followedUser (a b : User) : User :=
  if a.following.contains b._id then
    { b with followers := b.followers.filter (fun u => u != a._id) }
  else { b with followers := b.followers ++ [a._id] }

/-- A database with one post and a thread on it: the comment 4, its replies 5 and 6, and the
reply 7 to the reply 5. -/
def threadDb : Db :=
  ⟨[samplePost 1 "Foo" "foo" "text"],
    [sampleComment 4 1 "top", sampleReply 5 1 4 "first" 1, sampleReply 6 1 4 "second" 2,
      sampleReply 7 1 5 "deeper" 3],
    [sampleUser 1 "ann", sampleUser 2 "bob"]⟩

/-- A database with two posts and a comment on the first one. -/
def twoPostsDb : Db :=
  ⟨[samplePost 1 "Foo" "foo" "text", samplePost 2 "Bar" "bar" "text"],
    [sampleComment 4 1 "nice"], [sampleUser 1 "ann", sampleUser 2 "bob"]⟩

/-- A comment body. -/
def sampleCommentBody (content : String) (postId : ObjectId) (parentId : Option ObjectId) :
    CommentBody :=
  { content := some content.toList, postId := some postId, parentId := parentId }

/-- The query string `?tag=lean&author=ann`. -/
def taggedQuery : PostsQuery :=
  { emptyQuery with tag := some "lean".toList, author := some "ann".toList }

/-- A database with 25 published posts. -/
def manyPostsDb : Db :=
  ⟨(List.range 25).map (fun i =>
      { samplePost (i + 1) "Foo" "foo" "text" with createdAt := i }), [],
    [sampleUser 1 "ann"]⟩

/-- A database with two posts, a comment on each, and a user who bookmarked both. -/
def bookmarkedDb : Db :=
  ⟨[samplePost 1 "Foo" "foo" "text", samplePost 2 "Bar" "bar" "text"],
    [sampleComment 4 1 "nice", sampleComment 5 2 "good"],
    [sampleUser 1 "ann", { sampleUser 2 "bob" with bookmarks := [1, 2] }]⟩

/-- The ids of the stored users are pairwise distinct, as the `_id` index guarantees. -/
def UserIdsDistinct (users : List User) : Prop :=
  users.Pairwise (fun a b => a._id ≠ b._id)

instance (users : List User) : Decidable (UserIdsDistinct users) := by
  unfold UserIdsDistinct
  infer_instance

/-- An administrator with the schema defaults. -/
def sampleAdmin (id : ObjectId) (username : String) : User :=
  { sampleUser id username with role := .admin }

/-- A database whose only administrator is the user 1, the author of its post and of its
comment. -/
def oneAdminDb : Db :=
  ⟨[samplePost 1 "Foo" "foo" "text"], [sampleComment 4 1 "nice"],
    [sampleAdmin 1 "root", sampleUser 2 "bob"]⟩

/-- A database with two administrators; the user 1 is the author of its post and of its
comment. -/
def twoAdminsDb : Db :=
  ⟨[samplePost 1 "Foo" "foo" "text"], [sampleComment 4 1 "nice"],
    [sampleAdmin 1 "root", sampleAdmin 2 "bob"]⟩

/-- The posts in the `data` field of an outcome; none when the outcome carries no list of
posts. -/
def postsOf (o : Outcome) : List PostView :=
  match o with
  | .reply r =>
    match r.data with
    | some (.posts l) => l
    | _ => []
  | .forward _ => []

/-- The `pagination` field of an outcome. -/
def paginationOf (o : Outcome) : Option Pagination :=
  match o with
  | .reply r => r.pagination
  | .forward _ => none

/-- The query `q` with `page=p` in its query string. -/
def atPage (q : PostsQuery) (p : Nat) : PostsQuery :=
  { q with page := some (natToStr p) }

/-- The hyphen a run of separators leaves in the slug: one `'-'` when the run holds a
whitespace character or a `'-'`, nothing otherwise. -/
def hyphenFor (sep : Str) : Str :=
  if sep.any (fun c => isWhitespace c || c == '-') then ['-'] else []

/-- The title made of the block `a` followed by the pairs of `blocks`, each one a run of
separators and the block after it. -/
def titleOfBlocks (a : Str) : List (Str × Str) → Str
  | [] => a
  | (sep, b) :: rest => a ++ sep ++ titleOfBlocks b rest

/-- The blocks of a title joined by the hyphens their separators leave. -/
def joinBlocks (a : Str) : List (Str × Str) → Str
  | [] => a
  | (sep, b) :: rest => a ++ hyphenFor sep ++ joinBlocks b rest

/-- An error body: `success` is false and the body carries a message. -/
def IsErrorBody (r : Response) : Prop :=
  r.success = false ∧ r.message.isSome = true

/-- A success body with a `data` field. -/
def IsDataBody (r : Response) : Prop :=
  r.success = true ∧ r.data.isSome = true

/-- A success body with a message and without a `data` field. -/
def IsMessageBody (r : Response) : Prop :=
  r.success = true ∧ r.message.isSome = true ∧ r.data = none

instance (r : Response) : Decidable (IsErrorBody r) := by
  unfold IsErrorBody
  infer_instance

instance (r : Response) : Decidable (IsDataBody r) := by
  unfold IsDataBody
  infer_instance

instance (r : Response) : Decidable (IsMessageBody r) := by
  unfold IsMessageBody
  infer_instance

/-- The response of a handler, when it sends one, is an error body or a success body with
data. -/
def TwoShapes (o : Outcome) : Prop :=
  match o with
  | .reply r => IsErrorBody r ∨ IsDataBody r
  | .forward _ => True

/-- The response of a list handler, when it sends one, is an error body or a success body
with data and pagination. -/
def ListShapes (o : Outcome) : Prop :=
  match o with
  | .reply r => IsErrorBody r ∨ (IsDataBody r ∧ r.pagination.isSome = true)
  | .forward _ => True

/-- The response of a delete handler, when it sends one, is an error body or a success body
with a message only. -/
def DeleteShapes (o : Outcome) : Prop :=
  match o with
  | .reply r => IsErrorBody r ∨ IsMessageBody r
  | .forward _ => True

instance (o : Outcome) : Decidable (TwoShapes o) := by
  unfold TwoShapes
  split <;> infer_instance

instance (o : Outcome) : Decidable (ListShapes o) := by
  unfold ListShapes
  split <;> infer_instance

instance (o : Outcome) : Decidable (DeleteShapes o) := by
  unfold DeleteShapes
  split <;> infer_instance

/-- A database with one post and no comment. -/
def onlyPostDb : Db :=
  ⟨[samplePost 1 "Foo" "foo" "text"], [], [sampleUser 1 "ann", sampleUser 2 "bob"]⟩

/-- A database with one comment and no post. -/
def onlyCommentDb : Db :=
  ⟨[], [sampleComment 4 1 "nice"], [sampleUser 1 "ann", sampleUser 2 "bob"]⟩

/-- A database with a post of `ann` tagged `lean` and a post of `bob` with the same tag. -/
def taggedDb : Db :=
  ⟨[{ samplePost 1 "Foo" "foo" "text" with tags := ["lean".toList] },
      { samplePost 2 "Bar" "bar" "text" with tags := ["lean".toList], author := 2 }], [],
    [sampleUser 1 "ann", sampleUser 2 "bob"]⟩

/-- The query string `?tag=LEAN&author=%20ann%20`. -/
def shoutedQuery : PostsQuery :=
  { emptyQuery with tag := some "LEAN".toList, author := some " ann ".toList }

/-- The response of a list handler that sends no pagination, when it sends one, is an error
body or a success body with data and without `pagination`. -/
def PlainListShapes (o : Outcome) : Prop :=
  match o with
  | .reply r => IsErrorBody r ∨ (IsDataBody r ∧ r.pagination = none)
  | .forward _ => True

instance (o : Outcome) : Decidable (PlainListShapes o) := by
  unfold PlainListShapes
  split <;> infer_instance

/-! ## Reading time: lemmas -/

/-- The integer formula of `readingTimeOf` is the ceiling of the exact quotient. -/
theorem readingTimeOf_eq_ceil (n : Nat) : readingTimeOf n = ⌈(n : ℚ) / 200⌉₊ := by
  unfold readingTimeOf
  apply le_antisymm
  · rcases Nat.eq_zero_or_pos ((n + 199) / 200) with h0 | hpos
    · rw [h0]; exact Nat.zero_le _
    · obtain ⟨m, hm⟩ : ∃ m, (n + 199) / 200 = m + 1 := ⟨(n + 199) / 200 - 1, by omega⟩
      rw [hm, Nat.succ_le_iff, Nat.lt_ceil, lt_div_iff₀ (by norm_num)]
      have h : m * 200 < n := by omega
      exact_mod_cast h
  · rw [Nat.ceil_le, div_le_iff₀ (by norm_num)]
    have h : n ≤ (n + 199) / 200 * 200 := by omega
    exact_mod_cast h

theorem splitWhitespaceGo_length_pos (s : Str) (inRun : Bool) (cur : Str) :
    1 ≤ (splitWhitespaceGo s inRun cur).length := by
  induction s generalizing inRun cur with
  | nil => simp [splitWhitespaceGo]
  | cons c rest ih =>
    simp only [splitWhitespaceGo]
    split
    · split
      · exact ih _ _
      · simp
    · exact ih _ _

theorem wordCount_pos (content : Str) : 1 ≤ wordCount content :=
  splitWhitespaceGo_length_pos content false []

theorem computeReadingTime_pos (content : Str) : 1 ≤ computeReadingTime content := by
  have h := wordCount_pos content
  unfold computeReadingTime readingTimeOf
  omega

theorem getLast?_cons_state (c : Char) (r : Str) (st : Bool) :
    (((c :: r).getLast?).map isWhitespace).getD st
      = ((r.getLast?).map isWhitespace).getD (isWhitespace c) := by
  cases r with
  | nil => rfl
  | cons d ds =>
    rw [List.getLast?_cons_cons]
    obtain ⟨x, hx⟩ : ∃ x, (d :: ds).getLast? = some x :=
      ⟨_, List.getLast?_eq_getLast _ (List.cons_ne_nil d ds)⟩
    rw [hx]
    rfl

/-- The pieces of the split against the words, from either state of the scan: a piece more
than words is counted where the text ends inside a whitespace run. -/
theorem splitWhitespaceGo_length (s : Str) :
    (∀ cur, (splitWhitespaceGo s true cur).length
        = countWordsGo s false + (if ((s.getLast?).map isWhitespace).getD true then 1 else 0))
      ∧ (∀ cur, (splitWhitespaceGo s false cur).length
        = 1 + countWordsGo s true
          + (if ((s.getLast?).map isWhitespace).getD false then 1 else 0)) := by
  induction s with
  | nil => constructor <;> intro cur <;> simp [splitWhitespaceGo, countWordsGo]
  | cons c r ih =>
    obtain ⟨iha, ihb⟩ := ih
    by_cases hc : isWhitespace c = true
    · constructor
      · intro cur
        rw [getLast?_cons_state]
        simp only [splitWhitespaceGo, countWordsGo, hc, if_true]
        exact iha cur
      · intro cur
        rw [getLast?_cons_state]
        simp only [splitWhitespaceGo, countWordsGo, hc, if_true, Bool.false_eq_true, if_false,
          List.length_cons]
        rw [iha []]
        omega
    · have hc' : isWhitespace c = false := by simpa using hc
      constructor
      · intro cur
        rw [getLast?_cons_state]
        simp only [splitWhitespaceGo, countWordsGo, hc', Bool.false_eq_true, if_false]
        rw [ihb (c :: cur)]
      · intro cur
        rw [getLast?_cons_state]
        simp only [splitWhitespaceGo, countWordsGo, hc', Bool.false_eq_true, if_false, if_true]
        rw [ihb (c :: cur)]
        omega

/-- The count the hook takes against the number of words: one more when the content is empty
or begins with whitespace, and one more when it ends with whitespace. -/
theorem wordCount_eq_countWords (content : Str) :
    wordCount content
      = countWords content
        + (if ((content.head?).map isWhitespace).getD true then 1 else 0)
        + (if ((content.getLast?).map isWhitespace).getD false then 1 else 0) := by
  unfold wordCount splitWhitespace countWords
  rw [(splitWhitespaceGo_length content).2 []]
  cases content with
  | nil => simp [countWordsGo]
  | cons c r =>
    by_cases hc : isWhitespace c = true
    · simp only [countWordsGo, hc, if_true, List.head?_cons, Option.map_some', Option.getD_some]
      omega
    · have hc' : isWhitespace c = false := by simpa using hc
      simp only [countWordsGo, hc', Bool.false_eq_true, if_false, if_true, List.head?_cons,
        Option.map_some', Option.getD_some]
      omega

theorem preSaveDerive_readingTime (T : SlugifyTables) (t e : Bool) (p : Post) :
    (preSaveDerive T ⟨t, true, e⟩ p).readingTime = computeReadingTime p.content := by
  cases t <;> simp [preSaveDerive, setSlug]

/-! ## Reading time: claims -/

set_option maxRecDepth 200000 in
/-- C1: when the content is modified the first pre-save hook stores
`max(1, ceil(n / 200))`, where `n` is the number of pieces of `content.split(/\s+/)`; the stored
value is at least 1 for every content, and contents of 199, 201, 400 and 401 pieces get 1, 2,
2 and 3. -/
theorem reading_time_is_ceil_of_pieces (T : SlugifyTables) (t e : Bool) (p : Post) :
    (preSaveDerive T ⟨t, true, e⟩ p).readingTime
        = max 1 ⌈((splitWhitespace p.content).length : ℚ) / 200⌉₊
      ∧ 1 ≤ (preSaveDerive T ⟨t, true, e⟩ p).readingTime
      ∧ ((splitWhitespace (wordsContent 199)).length = 199
          ∧ computeReadingTime (wordsContent 199) = 1)
      ∧ ((splitWhitespace (wordsContent 201)).length = 201
          ∧ computeReadingTime (wordsContent 201) = 2)
      ∧ ((splitWhitespace (wordsContent 400)).length = 400
          ∧ computeReadingTime (wordsContent 400) = 2)
      ∧ ((splitWhitespace (wordsContent 401)).length = 401
          ∧ computeReadingTime (wordsContent 401) = 3) := by
  have hpos := computeReadingTime_pos p.content
  refine ⟨?_, ?_, by decide, by decide, by decide, by decide⟩
  · rw [preSaveDerive_readingTime, max_eq_right]
    · exact readingTimeOf_eq_ceil _
    · rw [← readingTimeOf_eq_ceil]
      exact hpos
  · rw [preSaveDerive_readingTime]
    exact hpos

set_option maxRecDepth 200000 in
/-- C2 (the code at the failing input): a content of exactly 200 words after one leading space
has 201 pieces, so the hook stores reading time 2 where the word count gives 1. -/
theorem leading_space_adds_a_word :
    countWords (' ' :: wordsContent 200) = 200
      ∧ wordCount (' ' :: wordsContent 200) = 201
      ∧ computeReadingTime (' ' :: wordsContent 200) = 2
      ∧ readingTimeOf (countWords (' ' :: wordsContent 200)) = 1 := by
  decide

/-! ## Characters: lemmas -/

theorem toNat_ofNat_small (n : Nat) (h : n < 0xd800) : (Char.ofNat n).toNat = n := by
  unfold Char.ofNat
  have hv : n.isValidChar := Or.inl h
  simp [hv, Char.ofNatAux, Char.toNat, UInt32.toNat]

theorem toLower_toNat (c : Char) :
    c.toLower.toNat = if 65 ≤ c.toNat ∧ c.toNat ≤ 90 then c.toNat + 32 else c.toNat := by
  unfold Char.toLower
  simp only [ge_iff_le]
  split
  · rename_i h
    exact toNat_ofNat_small _ (by omega)
  · rfl

theorem toLower_of_not_upper (c : Char) (h : ¬(65 ≤ c.toNat ∧ c.toNat ≤ 90)) :
    c.toLower = c := by
  unfold Char.toLower
  simp only [ge_iff_le, h, if_false]

theorem toLower_idem (c : Char) : c.toLower.toLower = c.toLower := by
  have h := toLower_toNat c
  apply toLower_of_not_upper
  split at h <;> omega

theorem hyphen_toNat : '-'.toNat = 45 := by decide

theorem toLower_eq_hyphen (c : Char) : c.toLower = '-' ↔ c = '-' := by
  by_cases hc : 65 ≤ c.toNat ∧ c.toNat ≤ 90
  · have h := toLower_toNat c
    rw [if_pos hc] at h
    constructor
    · intro h'
      rw [h', hyphen_toNat] at h
      omega
    · intro h'
      rw [h', hyphen_toNat] at hc
      omega
  · rw [toLower_of_not_upper c hc]

theorem isAsciiAlnum_ne_hyphen {c : Char} (h : isAsciiAlnum c = true) : c ≠ '-' := by
  rintro rfl
  exact absurd h (by decide)

theorem isSlugChar_toLower {c : Char} (h : isAsciiAlnum c = true ∨ c = '-') :
    isSlugChar c.toLower = true := by
  rcases h with h | rfl
  · have ht := toLower_toNat c
    simp only [isAsciiAlnum, Bool.or_eq_true, Bool.and_eq_true, decide_eq_true_eq] at h
    simp only [isSlugChar, Bool.or_eq_true, Bool.and_eq_true, decide_eq_true_eq]
    left
    split at ht <;> omega
  · decide

theorem toLowerCase_idem (s : Str) : toLowerCase (toLowerCase s) = toLowerCase s := by
  simp [toLowerCase, List.map_map, Function.comp_def, toLower_idem]

theorem toLowerCase_append (s t : Str) :
    toLowerCase (s ++ t) = toLowerCase s ++ toLowerCase t := by
  simp [toLowerCase]

/-! ## The counter as text: lemmas -/

theorem digitChar_toNat {d : Nat} (h : d < 10) : (Nat.digitChar d).toNat = d + 48 := by
  interval_cases d <;> rfl

theorem toDigitsCore_eq_digits : ∀ (fuel n : Nat) (ds : Str), n < fuel → 0 < n →
    Nat.toDigitsCore 10 fuel n ds = ((Nat.digits 10 n).map Nat.digitChar).reverse ++ ds := by
  intro fuel
  induction fuel with
  | zero => intro n ds h; omega
  | succ fuel ih =>
    intro n ds hlt hpos
    rw [Nat.digits_def' (by norm_num) hpos]
    simp only [Nat.toDigitsCore]
    by_cases h0 : n / 10 = 0
    · simp [h0]
    · rw [if_neg h0, ih (n / 10) _ (by omega) (by omega)]
      simp

/-- The digits of a number, least significant first, are the reverse of its decimal text. -/
theorem natToStr_eq (n : Nat) :
    natToStr n = if n = 0 then ['0'] else ((Nat.digits 10 n).map Nat.digitChar).reverse := by
  unfold natToStr Nat.toDigits
  split
  · rename_i h
    subst h
    rfl
  · rename_i h
    rw [toDigitsCore_eq_digits (n + 1) n [] (by omega) (by omega)]
    simp

theorem natToStr_ne_nil (n : Nat) : natToStr n ≠ [] := by
  rw [natToStr_eq]
  split
  · simp
  · rename_i h
    simp [Nat.digits_ne_nil_iff_ne_zero, h]

theorem mem_natToStr {n : Nat} {c : Char} (h : c ∈ natToStr n) :
    48 ≤ c.toNat ∧ c.toNat ≤ 57 := by
  rw [natToStr_eq] at h
  split at h
  · simp at h
    subst h
    decide
  · simp only [List.mem_reverse, List.mem_map] at h
    obtain ⟨d, hd, rfl⟩ := h
    have hlt := Nat.digits_lt_base (by norm_num : 1 < 10) hd
    rw [digitChar_toNat hlt]
    omega

theorem natToStr_injective {j k : Nat} (h : natToStr j = natToStr k) : j = k := by
  have key : ∀ n : Nat, (natToStr n).reverse.map (fun c => c.toNat - 48) = Nat.digits 10 n
      ∨ (n = 0 ∧ natToStr n = ['0']) := by
    intro n
    by_cases hn : n = 0
    · right
      exact ⟨hn, by simp [natToStr_eq, hn]⟩
    · left
      simp only [natToStr_eq, hn, if_false, List.reverse_reverse, List.map_map]
      conv_rhs => rw [← List.map_id (Nat.digits 10 n)]
      apply List.map_congr_left
      intro d hd
      have hlt := Nat.digits_lt_base (by norm_num : 1 < 10) hd
      simp [digitChar_toNat hlt]
  have zero_case : ∀ n : Nat, natToStr n = ['0'] → n = 0 := by
    intro n hn
    by_contra hne
    rcases key n with hk | ⟨h0, _⟩
    · rw [hn] at hk
      have h1 : Nat.digits 10 n = [0] := by rw [← hk]; rfl
      have h2 := Nat.getLast_digit_ne_zero 10 hne
      simp [h1] at h2
    · exact hne h0
  rcases key j with hj | ⟨hj0, hj1⟩
  · rcases key k with hk | ⟨hk0, hk1⟩
    · rw [h] at hj
      exact Nat.digits.injective 10 (hj.symm.trans hk)
    · rw [zero_case j (h.trans hk1), hk0]
  · rw [hj0, zero_case k (h.symm.trans hj1)]

theorem toLowerCase_natToStr (n : Nat) : toLowerCase (natToStr n) = natToStr n := by
  unfold toLowerCase
  conv_rhs => rw [← List.map_id (natToStr n)]
  apply List.map_congr_left
  intro c hc
  have := mem_natToStr hc
  exact toLower_of_not_upper c (by omega)

/-! ## The shape of `slugify`'s result: lemmas -/

theorem trim_head (s : Str) (c : Char) (h : (trim s).head? = some c) :
    isWhitespace c = false := by
  unfold trim at h
  have hpre : ((s.dropWhile isWhitespace).reverse.dropWhile isWhitespace).reverse
      <+: s.dropWhile isWhitespace := by
    rw [← List.reverse_suffix, List.reverse_reverse]
    exact List.dropWhile_suffix _
  obtain ⟨t, ht⟩ := hpre
  have hd := List.head?_dropWhile_not isWhitespace s
  rw [← ht] at hd
  cases hr : ((s.dropWhile isWhitespace).reverse.dropWhile isWhitespace).reverse with
  | nil => rw [hr] at h; simp at h
  | cons x xs =>
    rw [hr] at h hd
    simp only [List.head?_cons, Option.some.injEq] at h
    subst h
    simpa using hd

theorem trim_getLast (s : Str) (c : Char) (h : (trim s).getLast? = some c) :
    isWhitespace c = false := by
  unfold trim at h
  rw [List.getLast?_reverse] at h
  have hd := List.head?_dropWhile_not isWhitespace (s.dropWhile isWhitespace).reverse
  rw [h] at hd
  exact hd

theorem mem_trim {s : Str} {c : Char} (h : c ∈ trim s) : c ∈ s := by
  unfold trim at h
  rw [List.mem_reverse] at h
  have h1 := (List.dropWhile_sublist isWhitespace).subset h
  rw [List.mem_reverse] at h1
  exact (List.dropWhile_sublist isWhitespace).subset h1

theorem mem_replaceWhitespaceRunsGo {s : Str} {inRun : Bool} {c : Char}
    (h : c ∈ replaceWhitespaceRunsGo s inRun) :
    c = '-' ∨ (c ∈ s ∧ isWhitespace c = false) := by
  induction s generalizing inRun with
  | nil => simp [replaceWhitespaceRunsGo] at h
  | cons x rest ih =>
    simp only [replaceWhitespaceRunsGo] at h
    by_cases hx : isWhitespace x = true
    · rw [if_pos hx] at h
      cases inRun with
      | true =>
        simp only [if_true] at h
        rcases ih h with h1 | ⟨h1, h2⟩
        · exact Or.inl h1
        · exact Or.inr ⟨List.mem_cons_of_mem _ h1, h2⟩
      | false =>
        simp only [Bool.false_eq_true, if_false, List.mem_cons] at h
        rcases h with h | h
        · exact Or.inl h
        · rcases ih h with h1 | ⟨h1, h2⟩
          · exact Or.inl h1
          · exact Or.inr ⟨List.mem_cons_of_mem _ h1, h2⟩
    · rw [if_neg hx] at h
      simp only [List.mem_cons] at h
      rcases h with h | h
      · subst h
        exact Or.inr ⟨List.mem_cons_self _ _, by simpa using hx⟩
      · rcases ih h with h1 | ⟨h1, h2⟩
        · exact Or.inl h1
        · exact Or.inr ⟨List.mem_cons_of_mem _ h1, h2⟩

theorem replaceWhitespaceRunsGo_head_inRun {s : Str} (hs : AlnumOrSpace s) :
    (replaceWhitespaceRunsGo s true).head? ≠ some '-' := by
  induction s with
  | nil => simp [replaceWhitespaceRunsGo]
  | cons x rest ih =>
    have hrest : AlnumOrSpace rest := fun c hc => hs c (List.mem_cons_of_mem _ hc)
    simp only [replaceWhitespaceRunsGo]
    by_cases hx : isWhitespace x = true
    · simp only [hx, if_true]
      exact ih hrest
    · simp only [hx, if_false, List.head?_cons, ne_eq, Option.some.injEq, Bool.false_eq_true]
      rcases hs x (List.mem_cons_self _ _) with h | h
      · exact isAsciiAlnum_ne_hyphen h
      · exact absurd h hx

theorem replaceWhitespaceRunsGo_head {s : Str} (hs : AlnumOrSpace s)
    (hhead : ∀ c, s.head? = some c → isWhitespace c = false) :
    (replaceWhitespaceRunsGo s false).head? ≠ some '-' := by
  cases s with
  | nil => simp [replaceWhitespaceRunsGo]
  | cons x rest =>
    have hx : isWhitespace x = false := hhead x rfl
    simp only [replaceWhitespaceRunsGo, hx, Bool.false_eq_true, if_false, List.head?_cons,
      ne_eq, Option.some.injEq]
    rcases hs x (List.mem_cons_self _ _) with h | h
    · exact isAsciiAlnum_ne_hyphen h
    · rw [hx] at h
      exact absurd h (by decide)

theorem replaceWhitespaceRunsGo_chain {s : Str} (hs : AlnumOrSpace s) (inRun : Bool) :
    NoDoubleHyphen (replaceWhitespaceRunsGo s inRun) := by
  unfold NoDoubleHyphen
  induction s generalizing inRun with
  | nil => simp [replaceWhitespaceRunsGo]
  | cons x rest ih =>
    have hrest : AlnumOrSpace rest := fun c hc => hs c (List.mem_cons_of_mem _ hc)
    simp only [replaceWhitespaceRunsGo]
    by_cases hx : isWhitespace x = true
    · cases inRun with
      | true =>
        simp only [hx, if_true]
        exact ih hrest true
      | false =>
        simp only [hx, if_true, Bool.false_eq_true, if_false]
        rw [List.chain'_cons']
        refine ⟨?_, ih hrest true⟩
        intro y hy
        have := replaceWhitespaceRunsGo_head_inRun hrest
        rintro ⟨-, rfl⟩
        exact this (by simpa using hy)
    · simp only [hx, if_false, Bool.false_eq_true]
      rw [List.chain'_cons']
      refine ⟨?_, ih hrest false⟩
      intro y _
      rintro ⟨rfl, -⟩
      rcases hs _ (List.mem_cons_self _ _) with h | h
      · exact absurd h (by decide)
      · exact hx h

theorem replaceWhitespaceRunsGo_ne_nil {s : Str} (inRun : Bool)
    (h : ∃ c ∈ s, isWhitespace c = false) : replaceWhitespaceRunsGo s inRun ≠ [] := by
  induction s generalizing inRun with
  | nil => simp at h
  | cons x rest ih =>
    simp only [replaceWhitespaceRunsGo]
    by_cases hx : isWhitespace x = true
    · have hrest : ∃ c ∈ rest, isWhitespace c = false := by
        obtain ⟨c, hc, hw⟩ := h
        rcases List.mem_cons.mp hc with rfl | hc
        · rw [hx] at hw
          exact absurd hw (by decide)
        · exact ⟨c, hc, hw⟩
      cases inRun with
      | true =>
        simp only [hx, if_true]
        exact ih true hrest
      | false => simp [hx]
    · simp [hx]

theorem replaceWhitespaceRunsGo_getLast {s : Str} (hs : AlnumOrSpace s) (inRun : Bool)
    (hlast : ∀ c, s.getLast? = some c → isWhitespace c = false) :
    (replaceWhitespaceRunsGo s inRun).getLast? ≠ some '-' := by
  induction s generalizing inRun with
  | nil => simp [replaceWhitespaceRunsGo]
  | cons x rest ih =>
    have hrest : AlnumOrSpace rest := fun c hc => hs c (List.mem_cons_of_mem _ hc)
    cases hr : rest with
    | nil =>
      subst hr
      have hx : isWhitespace x = false := hlast x rfl
      simp only [replaceWhitespaceRunsGo, hx, Bool.false_eq_true, if_false,
        List.getLast?_singleton, ne_eq, Option.some.injEq]
      rcases hs x (List.mem_cons_self _ _) with h | h
      · exact isAsciiAlnum_ne_hyphen h
      · rw [hx] at h
        exact absurd h (by decide)
    | cons y ys =>
      rw [← hr]
      have hlast' : ∀ c, rest.getLast? = some c → isWhitespace c = false := by
        intro c hc
        apply hlast c
        rw [hr] at hc ⊢
        simpa [List.getLast?_cons_cons] using hc
      have hne : ∀ b, replaceWhitespaceRunsGo rest b ≠ [] := by
        intro b
        apply replaceWhitespaceRunsGo_ne_nil
        have hrne : rest ≠ [] := by rw [hr]; simp
        refine ⟨rest.getLast hrne, List.getLast_mem hrne, hlast' _ ?_⟩
        exact List.getLast?_eq_getLast _ hrne
      have step : ∀ (a : Char) (b : Bool),
          (a :: replaceWhitespaceRunsGo rest b).getLast?
            = (replaceWhitespaceRunsGo rest b).getLast? := by
        intro a b
        obtain ⟨z, zs, hz⟩ := List.exists_cons_of_ne_nil (hne b)
        rw [hz, List.getLast?_cons_cons]
      simp only [replaceWhitespaceRunsGo]
      by_cases hx : isWhitespace x = true
      · cases inRun with
        | true =>
          simp only [hx, if_true]
          exact ih hrest true hlast'
        | false =>
          simp only [hx, if_true, Bool.false_eq_true, if_false]
          rw [step]
          exact ih hrest true hlast'
      · simp only [hx, if_false, Bool.false_eq_true]
        rw [step]
        exact ih hrest false hlast'

theorem slugify_filter_alnumOrSpace (s : Str) :
    AlnumOrSpace (trim (s.filter (fun c => isAsciiAlnum c || isWhitespace c))) := by
  intro c hc
  have h := List.of_mem_filter (mem_trim hc)
  simpa using h

/-- The text `slugify` lower-cases: letters, digits and single hyphens between them. -/
theorem slugify_core_shape (s : Str) :
    let r := replaceWhitespaceRuns (trim (s.filter (fun c => isAsciiAlnum c || isWhitespace c)))
    (∀ c ∈ r, isAsciiAlnum c = true ∨ c = '-') ∧ r.head? ≠ some '-' ∧ r.getLast? ≠ some '-'
      ∧ NoDoubleHyphen r := by
  intro r
  have hs := slugify_filter_alnumOrSpace s
  refine ⟨?_, ?_, ?_, ?_⟩
  · intro c hc
    rcases mem_replaceWhitespaceRunsGo hc with h | ⟨h1, h2⟩
    · exact Or.inr h
    · rcases hs c h1 with h | h
      · exact Or.inl h
      · rw [h2] at h
        exact absurd h (by decide)
  · exact replaceWhitespaceRunsGo_head hs (trim_head _)
  · exact replaceWhitespaceRunsGo_getLast hs false (trim_getLast _)
  · exact replaceWhitespaceRunsGo_chain hs false

theorem toLowerCase_head_ne_hyphen {r : Str} (h : r.head? ≠ some '-') :
    (toLowerCase r).head? ≠ some '-' := by
  cases r with
  | nil => simp [toLowerCase]
  | cons x xs =>
    simp only [List.head?_cons, ne_eq, Option.some.injEq] at h
    simpa [toLowerCase, toLower_eq_hyphen] using h

theorem toLowerCase_getLast_ne_hyphen {r : Str} (h : r.getLast? ≠ some '-') :
    (toLowerCase r).getLast? ≠ some '-' := by
  unfold toLowerCase
  rw [List.getLast?_map]
  cases hl : r.getLast? with
  | none => simp
  | some x =>
    rw [hl] at h
    simp only [ne_eq, Option.some.injEq] at h
    simpa [toLower_eq_hyphen] using h

theorem toLowerCase_noDoubleHyphen {r : Str} (h : NoDoubleHyphen r) :
    NoDoubleHyphen (toLowerCase r) := by
  unfold NoDoubleHyphen toLowerCase at *
  rw [List.chain'_map]
  refine h.imp ?_
  intro a b hab
  simpa [toLower_eq_hyphen] using hab

/-- The slug of the first hook: only `a-z`, `0-9` and `'-'`, no hyphen at either end, no two
hyphens in a row. -/
theorem slugify_shape (T : SlugifyTables) (title : Str) :
    (∀ c ∈ slugify T title, isSlugChar c = true) ∧ (slugify T title).head? ≠ some '-'
      ∧ (slugify T title).getLast? ≠ some '-' ∧ NoDoubleHyphen (slugify T title) := by
  obtain ⟨h1, h2, h3, h4⟩ := slugify_core_shape
    ((T.normalize title).foldl (fun result ch => result ++ slugifyChar T ch) [])
  refine ⟨?_, toLowerCase_head_ne_hyphen h2, toLowerCase_getLast_ne_hyphen h3,
    toLowerCase_noDoubleHyphen h4⟩
  intro c hc
  simp only [slugify, toLowerCase, List.mem_map] at hc
  obtain ⟨d, hd, rfl⟩ := hc
  exact isSlugChar_toLower (h1 d hd)

theorem toLowerCase_slugify (T : SlugifyTables) (title : Str) :
    toLowerCase (slugify T title) = slugify T title := by
  simp only [slugify]
  exact toLowerCase_idem _

/-! ## The uniqueness loop: lemmas -/

theorem candidate_injective (base : Str) {j k : Nat}
    (h : candidate base j = candidate base k) : j = k := by
  unfold candidate at h
  by_cases hj : j = 0 <;> by_cases hk : k = 0
  · rw [hj, hk]
  · simp only [hj, hk, if_true, if_false] at h
    have := congrArg List.length h
    simp at this
  · simp only [hj, hk, if_true, if_false] at h
    have := congrArg List.length h
    simp at this
  · simp only [hj, hk, if_false, List.append_cancel_left_eq, List.cons.injEq, true_and] at h
    exact natToStr_injective h

theorem mem_of_slugTaken {posts : List Post} {id : ObjectId} {slug : Str}
    (h : slugTaken posts id slug = true) : slug ∈ posts.map (fun q => q.slug) := by
  simp only [slugTaken, List.any_eq_true, Bool.and_eq_true, beq_iff_eq] at h
  obtain ⟨q, hq, hs, -⟩ := h
  exact List.mem_map.mpr ⟨q, hq, hs⟩

/-- Among the first `posts.length + 1` candidates one is free. -/
theorem exists_free_candidate (posts : List Post) (id : ObjectId) (base : Str) :
    ∃ k, k ≤ posts.length ∧ slugTaken posts id (candidate base k) = false := by
  by_contra hcon
  push_neg at hcon
  have hsub : (List.range (posts.length + 1)).map (candidate base)
      ⊆ posts.map (fun q => q.slug) := by
    intro x hx
    obtain ⟨k, hk, rfl⟩ := List.mem_map.mp hx
    have hk' : k ≤ posts.length := by
      have := List.mem_range.mp hk
      omega
    have := hcon k hk'
    exact mem_of_slugTaken (by simpa using this)
  have hnd : ((List.range (posts.length + 1)).map (candidate base)).Nodup :=
    (List.nodup_range _).map (fun _ _ h => candidate_injective base h)
  have hlen := (List.subperm_of_subset hnd hsub).length_le
  simp at hlen

/-- The loop started at the `j`-th candidate stops at the first free candidate from `j` on,
when the fuel reaches that far. -/
theorem uniqueSlugLoop_spec (posts : List Post) (id : ObjectId) (base : Str) :
    ∀ (fuel j : Nat),
      (∃ k, j ≤ k ∧ k < j + fuel ∧ slugTaken posts id (candidate base k) = false) →
      ∃ k, j ≤ k ∧ k < j + fuel
        ∧ uniqueSlugLoop posts id base fuel (candidate base j) (j + 1) = some (candidate base k)
        ∧ slugTaken posts id (candidate base k) = false
        ∧ ∀ i, j ≤ i → i < k → slugTaken posts id (candidate base i) = true := by
  intro fuel
  induction fuel with
  | zero =>
    rintro j ⟨k, h1, h2, -⟩
    omega
  | succ fuel ih =>
    rintro j ⟨k, h1, h2, h3⟩
    by_cases ht : slugTaken posts id (candidate base j) = true
    · have hkj : k ≠ j := by
        rintro rfl
        rw [ht] at h3
        exact absurd h3 (by decide)
      obtain ⟨k', g1, g2, g3, g4, g5⟩ := ih (j + 1) ⟨k, by omega, by omega, h3⟩
      refine ⟨k', by omega, by omega, ?_, g4, ?_⟩
      · rw [uniqueSlugLoop, if_pos ht]
        have hc : base ++ '-' :: natToStr (j + 1) = candidate base (j + 1) := by
          simp [candidate]
        rw [hc]
        exact g3
      · intro i hi1 hi2
        by_cases hij : i = j
        · rw [hij]; exact ht
        · exact g5 i (by omega) hi2
    · refine ⟨j, le_refl _, by omega, ?_, by simpa using ht, ?_⟩
      · rw [uniqueSlugLoop, if_neg ht]
      · intro i hi1 hi2
        omega

/-- The second hook's loop ends: it returns the first free candidate, which is among the
first `posts.length + 1`. -/
theorem uniqueSlug_spec (posts : List Post) (id : ObjectId) (base : Str) :
    ∃ k, k ≤ posts.length
      ∧ uniqueSlug posts id base = some (candidate base k)
      ∧ slugTaken posts id (candidate base k) = false
      ∧ ∀ i, i < k → slugTaken posts id (candidate base i) = true := by
  obtain ⟨k, hk, hfree⟩ := exists_free_candidate posts id base
  obtain ⟨k', -, g2, g3, g4, g5⟩ :=
    uniqueSlugLoop_spec posts id base (posts.length + 1) 0 ⟨k, Nat.zero_le _, by omega, hfree⟩
  refine ⟨k', by omega, ?_, g4, fun i hi => g5 i (Nat.zero_le _) hi⟩
  unfold uniqueSlug
  simpa [candidate] using g3

theorem toLowerCase_candidate {base : Str} (h : toLowerCase base = base) (k : Nat) :
    toLowerCase (candidate base k) = candidate base k := by
  unfold candidate
  split
  · exact h
  · rw [toLowerCase_append, h]
    have : toLowerCase ('-' :: natToStr k) = '-' :: natToStr k := by
      have hd := toLowerCase_natToStr k
      unfold toLowerCase at hd ⊢
      rw [List.map_cons, hd]
      rfl
    rw [this]

theorem noDoubleHyphen_of_no_hyphen {s : Str} (h : ∀ c ∈ s, c ≠ '-') : NoDoubleHyphen s := by
  unfold NoDoubleHyphen
  induction s with
  | nil => exact List.chain'_nil
  | cons x xs ih =>
    rw [List.chain'_cons']
    refine ⟨?_, ih (fun c hc => h c (List.mem_cons_of_mem _ hc))⟩
    intro y _
    rintro ⟨rfl, -⟩
    exact h _ (List.mem_cons_self _ _) rfl

theorem natToStr_no_hyphen (k : Nat) : ∀ c ∈ natToStr k, c ≠ '-' := by
  intro c hc
  have := mem_natToStr hc
  rintro rfl
  rw [hyphen_toNat] at this
  omega

/-- A candidate of the loop keeps the shape of the base slug, except that the candidates of
the empty base begin with the hyphen of the suffix. -/
theorem candidate_shape {base : Str} (hchars : ∀ c ∈ base, isSlugChar c = true)
    (hhead : base.head? ≠ some '-') (hlast : base.getLast? ≠ some '-')
    (hchain : NoDoubleHyphen base) (k : Nat) :
    (∀ c ∈ candidate base k, isSlugChar c = true)
      ∧ (candidate base k).getLast? ≠ some '-'
      ∧ NoDoubleHyphen (candidate base k)
      ∧ (base ≠ [] → (candidate base k).head? ≠ some '-') := by
  unfold candidate
  split
  · exact ⟨hchars, hlast, hchain, fun _ => hhead⟩
  · refine ⟨?_, ?_, ?_, ?_⟩
    · intro c hc
      rcases List.mem_append.mp hc with h | h
      · exact hchars c h
      · rcases List.mem_cons.mp h with rfl | h
        · decide
        · have := mem_natToStr h
          simp only [isSlugChar, Bool.or_eq_true, Bool.and_eq_true, decide_eq_true_eq]
          left; right
          exact this
    · obtain ⟨d, ds, hd⟩ := List.exists_cons_of_ne_nil (natToStr_ne_nil k)
      have hne : ('-' :: natToStr k) ≠ [] := by simp
      rw [List.getLast?_append_of_ne_nil _ hne, hd, List.getLast?_cons_cons]
      intro hcon
      have hmem : '-' ∈ natToStr k := by
        rw [hd]
        exact List.mem_of_mem_getLast? hcon
      exact natToStr_no_hyphen k _ hmem rfl
    · unfold NoDoubleHyphen at *
      rw [List.chain'_append]
      refine ⟨hchain, ?_, ?_⟩
      · rw [List.chain'_cons']
        refine ⟨?_, noDoubleHyphen_of_no_hyphen (natToStr_no_hyphen k)⟩
        intro y hy
        rintro ⟨-, rfl⟩
        exact natToStr_no_hyphen k _ (List.mem_of_mem_head? hy) rfl
      · intro x hx y _
        rintro ⟨rfl, -⟩
        exact hlast (by simpa using hx)
    · intro hne
      obtain ⟨b, bs, hb⟩ := List.exists_cons_of_ne_nil hne
      rw [hb] at hhead ⊢
      simpa using hhead

theorem preSaveDerive_id (T : SlugifyTables) (m : Modified) (p : Post) :
    (preSaveDerive T m p)._id = p._id := by
  unfold preSaveDerive setSlug
  cases m.title <;> cases m.content <;> rfl

theorem preSaveDerive_slug (T : SlugifyTables) (c e : Bool) (p : Post) :
    (preSaveDerive T ⟨true, c, e⟩ p).slug = slugify T p.title := by
  unfold preSaveDerive setSlug
  cases c <;> simp [toLowerCase_slugify]

theorem savedPost_id (T : SlugifyTables) (c e : Bool) (p : Post) (k : Nat) :
    (savedPost T c e p k)._id = p._id :=
  preSaveDerive_id T _ p

theorem savedPost_slug (T : SlugifyTables) (c e : Bool) (p : Post) (k : Nat) :
    (savedPost T c e p k).slug = candidate (slugify T p.title) k :=
  rfl

/-- The two hooks on a modified title: the loop ends, and the stored slug is the first free
candidate of the slug derived from the title. -/
theorem preSave_title_modified (T : SlugifyTables) (posts : List Post) (c e : Bool) (p : Post) :
    ∃ k, k ≤ posts.length
      ∧ preSaveUniqueSlug posts ⟨true, c, e⟩ (preSaveDerive T ⟨true, c, e⟩ p)
          = some (savedPost T c e p k)
      ∧ slugTaken posts p._id (candidate (slugify T p.title) k) = false
      ∧ (∀ i, i < k → slugTaken posts p._id (candidate (slugify T p.title) i) = true)
      ∧ uniqueSlug posts p._id (slugify T p.title) = some (candidate (slugify T p.title) k) := by
  obtain ⟨k, hk, hu, hfree, hmin⟩ := uniqueSlug_spec posts p._id (slugify T p.title)
  refine ⟨k, hk, ?_, hfree, hmin, hu⟩
  simp only [preSaveUniqueSlug, Bool.not_true, Bool.false_eq_true, if_false,
    preSaveDerive_id, preSaveDerive_slug, hu, Option.map_some', setSlug, savedPost,
    toLowerCase_candidate (toLowerCase_slugify T p.title)]

theorem slug_ne_of_not_taken {posts : List Post} {id : ObjectId} {slug : Str}
    (h : slugTaken posts id slug = false) :
    ∀ q ∈ posts, q._id ≠ id → q.slug ≠ slug := by
  intro q hq hid hs
  have : slugTaken posts id slug = true := by
    simp only [slugTaken, List.any_eq_true, Bool.and_eq_true, beq_iff_eq, bne_iff_ne]
    exact ⟨q, hq, hs, hid⟩
  rw [h] at this
  exact absurd this (by decide)

/-! ## The stored slug: claims -/

set_option maxRecDepth 100000 in
/-- C3 (counterexample): the title `!` has the empty base slug; once a post with that slug
is stored, the next post titled `!` is stored with the slug `-1`, which begins with a
hyphen. -/
theorem punctuation_title_slug_begins_with_hyphen :
    (createPost sampleTables ⟨[], [], []⟩ (sampleUser 1 "ann") (sampleBody "!" "text") 1 0).1
        = ⟨[samplePost 1 "!" "" "text"], [], []⟩
      ∧ (createPost sampleTables ⟨[samplePost 1 "!" "" "text"], [], []⟩ (sampleUser 1 "ann")
          (sampleBody "!" "text") 2 0).2
        = success 201 "Post created successfully" (.post (samplePost 2 "!" "-1" "text"))
      ∧ (samplePost 2 "!" "-1" "text").slug.head? = some '-' := by
  decide

/-- C3 (amended): for every title, the slug the two pre-save hooks store contains only `a-z`,
`0-9` and `'-'`, does not end with `'-'` and has no two consecutive `'-'`; it does not begin
with `'-'` when the slug derived from the title is not empty. -/
theorem stored_slug_shape (T : SlugifyTables) (posts : List Post) (c e : Bool) (p : Post) :
    ∃ p', preSaveUniqueSlug posts ⟨true, c, e⟩ (preSaveDerive T ⟨true, c, e⟩ p) = some p'
      ∧ (∀ ch ∈ p'.slug, isSlugChar ch = true)
      ∧ p'.slug.getLast? ≠ some '-'
      ∧ NoDoubleHyphen p'.slug
      ∧ (slugify T p.title ≠ [] → p'.slug.head? ≠ some '-') := by
  obtain ⟨k, -, hk, -, -, -⟩ := preSave_title_modified T posts c e p
  obtain ⟨h1, h2, h3, h4⟩ := slugify_shape T p.title
  exact ⟨_, hk, candidate_shape h1 h2 h3 h4 k⟩

/-- C3 (amended), at a stored post with the slug `foo` and a new post titled `Foo`. -/
theorem stored_slug_shape_witness :
    ∃ p', preSaveUniqueSlug [samplePost 1 "Foo" "foo" "text"] ⟨true, true, true⟩
          (preSaveDerive sampleTables ⟨true, true, true⟩ (samplePost 2 "Foo" "" "text")) = some p'
      ∧ (∀ ch ∈ p'.slug, isSlugChar ch = true)
      ∧ p'.slug.getLast? ≠ some '-'
      ∧ NoDoubleHyphen p'.slug
      ∧ (slugify sampleTables (samplePost 2 "Foo" "" "text").title ≠ []
          → p'.slug.head? ≠ some '-') :=
  stored_slug_shape sampleTables [samplePost 1 "Foo" "foo" "text"] true true
    (samplePost 2 "Foo" "" "text")

theorem slugsDistinct_append_singleton {posts : List Post} {p : Post}
    (h : SlugsDistinct posts) (hp : ∀ q ∈ posts, q.slug ≠ p.slug) :
    SlugsDistinct (posts ++ [p]) := by
  unfold SlugsDistinct at *
  rw [List.pairwise_append]
  refine ⟨h, List.pairwise_singleton _ _, ?_⟩
  intro a ha b hb
  rw [List.mem_singleton] at hb
  subst hb
  exact hp a ha

theorem slugsDistinct_replacePost {posts : List Post} {p : Post}
    (hids : IdsDistinct posts) (h : SlugsDistinct posts)
    (hp : ∀ q ∈ posts, q._id ≠ p._id → q.slug ≠ p.slug) :
    SlugsDistinct (replacePost posts p) := by
  unfold SlugsDistinct IdsDistinct replacePost at *
  rw [List.pairwise_map]
  refine (hids.and h).imp_of_mem ?_
  intro a b ha hb hab
  obtain ⟨hid, hslug⟩ := hab
  by_cases h1 : a._id = p._id
  · have h2 : b._id ≠ p._id := fun h2 => hid (h1.trans h2.symm)
    simp only [h1, beq_self_eq_true, if_true, beq_iff_eq, h2, if_false]
    exact fun hcon => hp b hb h2 hcon.symm
  · by_cases h2 : b._id = p._id
    · simp only [beq_iff_eq, h1, if_false, h2, if_true]
      exact hp a ha h1
    · simp only [beq_iff_eq, h1, if_false, h2]
      exact hslug

/-- The save of a post with a modified title, when the schema validators pass. -/
theorem savePost_title_modified (T : SlugifyTables) (posts : List Post) (isNew c e : Bool)
    (p : Post) (hvalid : validatePostDoc ⟨true, c, e⟩ p = true)
    (hnew : isNew = true ↔ ∀ q ∈ posts, q._id ≠ p._id) :
    ∃ k, k ≤ posts.length
      ∧ slugTaken posts p._id (candidate (slugify T p.title) k) = false
      ∧ (∀ i, i < k → slugTaken posts p._id (candidate (slugify T p.title) i) = true)
      ∧ savePost T posts isNew ⟨true, c, e⟩ p
        = .ok (if isNew then posts ++ [savedPost T c e p k]
              else replacePost posts (savedPost T c e p k), savedPost T c e p k)
      ∧ uniqueSlug posts p._id (slugify T p.title) = some (candidate (slugify T p.title) k) := by
  obtain ⟨k, hk, hhook, hfree, hmin, hu⟩ := preSave_title_modified T posts c e p
  refine ⟨k, hk, hfree, hmin, ?_, hu⟩
  have hne := slug_ne_of_not_taken hfree
  unfold savePost
  rw [hvalid, hhook]
  cases isNew with
  | true =>
    have hfresh := hnew.mp rfl
    have hno : posts.any (fun q => q._id == (savedPost T c e p k)._id
        || q.slug == (savedPost T c e p k).slug) = false := by
      rw [List.any_eq_false]
      intro q hq
      simp only [savedPost_id, savedPost_slug, Bool.or_eq_true, beq_iff_eq, not_or]
      exact ⟨hfresh q hq, hne q hq (hfresh q hq)⟩
    simp only [Bool.not_true, Bool.false_eq_true, if_false, if_true, hno]
  | false =>
    have hex : ¬ ∀ q ∈ posts, q._id ≠ p._id := fun h => by
      have := hnew.mpr h
      exact absurd this (by decide)
    push_neg at hex
    obtain ⟨q, hq, hqid⟩ := hex
    have hany : posts.any (fun q => q._id == (savedPost T c e p k)._id) = true := by
      rw [List.any_eq_true]
      exact ⟨q, hq, by simpa [savedPost_id] using hqid⟩
    simp only [Bool.not_true, Bool.false_eq_true, if_false, if_true, hany]

/-- C4: with a modified title the uniqueness hook ends and assigns a slug that differs from
the slug of every stored post with another id; hence a save (of a new post, or of a stored
one) whose validators pass keeps pairwise distinct slugs pairwise distinct. -/
theorem saved_slug_differs_from_others (T : SlugifyTables) (posts : List Post)
    (isNew c e : Bool) (p : Post)
    (hvalid : validatePostDoc ⟨true, c, e⟩ p = true)
    (hids : IdsDistinct posts)
    (hnew : isNew = true ↔ ∀ q ∈ posts, q._id ≠ p._id) :
    (∃ p', preSaveUniqueSlug posts ⟨true, c, e⟩ (preSaveDerive T ⟨true, c, e⟩ p) = some p'
        ∧ ∀ q ∈ posts, q._id ≠ p._id → q.slug ≠ p'.slug)
      ∧ (SlugsDistinct posts →
          ∃ posts' p', savePost T posts isNew ⟨true, c, e⟩ p = .ok (posts', p')
            ∧ (∀ q ∈ posts, q._id ≠ p._id → q.slug ≠ p'.slug)
            ∧ SlugsDistinct posts') := by
  constructor
  · obtain ⟨k, -, hhook, hfree, -, -⟩ := preSave_title_modified T posts c e p
    exact ⟨_, hhook, slug_ne_of_not_taken hfree⟩
  · intro hslugs
    obtain ⟨k, -, hfree, -, hsave, -⟩ := savePost_title_modified T posts isNew c e p hvalid hnew
    have hne := slug_ne_of_not_taken hfree
    refine ⟨_, _, hsave, hne, ?_⟩
    cases isNew with
    | true =>
      have hfresh := hnew.mp rfl
      simp only [if_true]
      exact slugsDistinct_append_singleton hslugs (fun q hq => hne q hq (hfresh q hq))
    | false =>
      simp only [Bool.false_eq_true, if_false]
      apply slugsDistinct_replacePost hids hslugs
      intro q hq hid
      exact hne q hq (by simpa [savedPost_id] using hid)

set_option maxRecDepth 100000 in
/-- C4, at two stored posts with the slugs `foo` and `bar` and the post `bar` retitled
`Foo`. -/
theorem saved_slug_differs_from_others_witness :
    (∃ p', preSaveUniqueSlug [samplePost 1 "Foo" "foo" "text", samplePost 2 "Bar" "bar" "text"]
          ⟨true, false, false⟩
          (preSaveDerive sampleTables ⟨true, false, false⟩ (samplePost 2 "Foo" "bar" "text"))
        = some p'
        ∧ ∀ q ∈ [samplePost 1 "Foo" "foo" "text", samplePost 2 "Bar" "bar" "text"],
            q._id ≠ (samplePost 2 "Foo" "bar" "text")._id → q.slug ≠ p'.slug)
      ∧ (SlugsDistinct [samplePost 1 "Foo" "foo" "text", samplePost 2 "Bar" "bar" "text"] →
          ∃ posts' p',
            savePost sampleTables
                [samplePost 1 "Foo" "foo" "text", samplePost 2 "Bar" "bar" "text"] false
                ⟨true, false, false⟩ (samplePost 2 "Foo" "bar" "text") = .ok (posts', p')
            ∧ (∀ q ∈ [samplePost 1 "Foo" "foo" "text", samplePost 2 "Bar" "bar" "text"],
                q._id ≠ (samplePost 2 "Foo" "bar" "text")._id → q.slug ≠ p'.slug)
            ∧ SlugsDistinct posts') :=
  saved_slug_differs_from_others sampleTables
    [samplePost 1 "Foo" "foo" "text", samplePost 2 "Bar" "bar" "text"] false false false
    (samplePost 2 "Foo" "bar" "text") (by decide) (by decide) (by decide)

theorem slugify_Foo (T : SlugifyTables) : slugify T "Foo".toList = "foo".toList := by
  have hn : T.normalize "Foo".toList = "Foo".toList :=
    T.normalize_alnum _ (by decide)
  have hF : T.charMap 'F' = none := T.charMap_alnum _ (by decide)
  have ho : T.charMap 'o' = none := T.charMap_alnum _ (by decide)
  have h1 : slugifyChar T 'F' = ['F'] := by
    simp only [slugifyChar, hF]
    decide
  have h2 : slugifyChar T 'o' = ['o'] := by
    simp only [slugifyChar, ho]
    decide
  unfold slugify
  rw [hn]
  simp only [String.toList, List.foldl_cons, List.foldl_nil, h1, h2]
  decide

theorem slugTaken_of_mem {posts : List Post} {id : ObjectId} {q : Post} (hq : q ∈ posts)
    (hid : q._id ≠ id) : slugTaken posts id q.slug = true := by
  simp only [slugTaken, List.any_eq_true, Bool.and_eq_true, beq_iff_eq, bne_iff_ne]
  exact ⟨q, hq, rfl, hid⟩

theorem slugTaken_eq_false {posts : List Post} {id : ObjectId} {slug : Str}
    (h : ∀ q ∈ posts, q.slug ≠ slug) : slugTaken posts id slug = false := by
  cases ht : slugTaken posts id slug with
  | false => rfl
  | true =>
    simp only [slugTaken, List.any_eq_true, Bool.and_eq_true, beq_iff_eq] at ht
    obtain ⟨q, hq, hs, -⟩ := ht
    exact absurd hs (h q hq)

set_option maxRecDepth 100000 in
/-- C5 (counterexample): with the slugs `foo` and `foo-1` stored, a new post titled `Foo` is
stored with the slug `foo-2`, not `foo-1`. -/
theorem foo_with_suffix_one_taken :
    (createPost sampleTables
        ⟨[samplePost 1 "Foo" "foo" "text", samplePost 2 "Foo" "foo-1" "text"], [], []⟩
        (sampleUser 1 "ann") (sampleBody "Foo" "text") 3 0).2
      = success 201 "Post created successfully" (.post (samplePost 3 "Foo" "foo-2" "text"))
      ∧ (samplePost 3 "Foo" "foo-2" "text").slug ≠ "foo-1".toList := by
  decide

/-- C5 (amended): when another post has the slug `foo` and no post has the slug `foo-1`,
saving a new post titled `Foo` stores the slug `foo-1`; when moreover no post has the slug
`foo-2`, saving a third post titled `Foo` after that stores `foo-2`. -/
theorem foo_collision_suffixes (T : SlugifyTables) (posts : List Post) (p2 p3 : Post)
    (ht2 : p2.title = "Foo".toList) (ht3 : p3.title = "Foo".toList)
    (hv2 : validatePostDoc allModified p2 = true) (hv3 : validatePostDoc allModified p3 = true)
    (hfresh2 : ∀ q ∈ posts, q._id ≠ p2._id) (hfresh3 : ∀ q ∈ posts, q._id ≠ p3._id)
    (h23 : p2._id ≠ p3._id)
    (hfoo : ∃ q ∈ posts, q.slug = "foo".toList)
    (hfoo1 : ∀ q ∈ posts, q.slug ≠ "foo-1".toList) :
    ∃ posts' p2', savePost T posts true allModified p2 = .ok (posts', p2')
      ∧ p2'.slug = "foo-1".toList
      ∧ ((∀ q ∈ posts, q.slug ≠ "foo-2".toList) →
          ∃ posts'' p3', savePost T posts' true allModified p3 = .ok (posts'', p3')
            ∧ p3'.slug = "foo-2".toList) := by
  obtain ⟨q0, hq0, hq0s⟩ := hfoo
  have hc0 : candidate "foo".toList 0 = "foo".toList := by decide
  have hc1 : candidate "foo".toList 1 = "foo-1".toList := by decide
  have hc2 : candidate "foo".toList 2 = "foo-2".toList := by decide
  obtain ⟨k, -, hfree, hmin, hsave, -⟩ :=
    savePost_title_modified T posts true true true p2 hv2 ⟨fun _ => hfresh2, fun _ => rfl⟩
  rw [ht2, slugify_Foo] at hfree hmin
  have hk : k = 1 := by
    have h0 : k ≠ 0 := by
      rintro rfl
      rw [hc0, ← hq0s, slugTaken_of_mem hq0 (hfresh2 q0 hq0)] at hfree
      exact absurd hfree (by decide)
    by_contra hne
    have h1 := hmin 1 (by omega)
    rw [hc1, slugTaken_eq_false hfoo1] at h1
    exact absurd h1 (by decide)
  subst hk
  have hslug2 : (savedPost T true true p2 1).slug = "foo-1".toList := by
    rw [savedPost_slug, ht2, slugify_Foo, hc1]
  refine ⟨posts ++ [savedPost T true true p2 1], savedPost T true true p2 1, hsave, hslug2, ?_⟩
  intro hfoo2
  have hmem : savedPost T true true p2 1 ∈ posts ++ [savedPost T true true p2 1] :=
    List.mem_append_right _ (List.mem_singleton.mpr rfl)
  have hfresh3' : ∀ q ∈ posts ++ [savedPost T true true p2 1], q._id ≠ p3._id := by
    intro q hq
    rcases List.mem_append.mp hq with h | h
    · exact hfresh3 q h
    · rw [List.mem_singleton] at h
      rw [h, savedPost_id]
      exact h23
  obtain ⟨k', -, hfree', hmin', hsave', -⟩ :=
    savePost_title_modified T (posts ++ [savedPost T true true p2 1]) true true true p3 hv3
      ⟨fun _ => hfresh3', fun _ => rfl⟩
  rw [ht3, slugify_Foo] at hfree' hmin'
  have hk' : k' = 2 := by
    have h0 : k' ≠ 0 := by
      rintro rfl
      rw [hc0, ← hq0s, slugTaken_of_mem (List.mem_append_left _ hq0) (hfresh3 q0 hq0)]
        at hfree'
      exact absurd hfree' (by decide)
    have h1 : k' ≠ 1 := by
      rintro rfl
      have := slugTaken_of_mem hmem (hfresh3' _ hmem)
      rw [hslug2, ← hc1, hfree'] at this
      exact absurd this (by decide)
    by_contra hne
    have h2 := hmin' 2 (by omega)
    rw [hc2, slugTaken_eq_false] at h2
    · exact absurd h2 (by decide)
    · intro q hq
      rcases List.mem_append.mp hq with h | h
      · exact hfoo2 q h
      · rw [List.mem_singleton] at h
        rw [h, hslug2]
        decide
  subst hk'
  refine ⟨_, _, hsave', ?_⟩
  rw [savedPost_slug, ht3, slugify_Foo, hc2]

set_option maxRecDepth 100000 in
/-- C5 (amended), at a store that holds one post with the slug `foo`. -/
theorem foo_collision_suffixes_witness :
    ∃ posts' p2', savePost sampleTables [samplePost 1 "Foo" "foo" "text"] true allModified
          (samplePost 2 "Foo" "" "text") = .ok (posts', p2')
      ∧ p2'.slug = "foo-1".toList
      ∧ ((∀ q ∈ [samplePost 1 "Foo" "foo" "text"], q.slug ≠ "foo-2".toList) →
          ∃ posts'' p3', savePost sampleTables posts' true allModified
                (samplePost 3 "Foo" "" "text") = .ok (posts'', p3')
            ∧ p3'.slug = "foo-2".toList) :=
  foo_collision_suffixes sampleTables [samplePost 1 "Foo" "foo" "text"]
    (samplePost 2 "Foo" "" "text") (samplePost 3 "Foo" "" "text") rfl rfl (by decide)
    (by decide) (by decide) (by decide) (by decide)
    ⟨samplePost 1 "Foo" "foo" "text", by decide, by decide⟩ (by decide)

/-! ## Create and update: claims -/

theorem dropWhile_of_head {l : Str} (h : ∀ c, l.head? = some c → isWhitespace c = false) :
    l.dropWhile isWhitespace = l := by
  cases l with
  | nil => rfl
  | cons x xs => simp [List.dropWhile, h x rfl]

theorem trim_idem (s : Str) : trim (trim s) = trim s := by
  have h1 := trim_head s
  have h2 := trim_getLast s
  generalize trim s = t at h1 h2
  unfold trim
  rw [dropWhile_of_head h1, dropWhile_of_head, List.reverse_reverse]
  intro c hc
  rw [List.head?_reverse] at hc
  exact h2 c hc

set_option maxRecDepth 200000 in
/-- C6 (the code at the failing input): a `PUT` that retitles the post `Foo` to `Bar` and
replaces its content by 201 words answers 200 with the title and content updated and the
slug `foo` and reading time 1 unchanged, where the hooks of `save` derive `bar` and 2. -/
theorem update_keeps_stale_slug_and_reading_time :
    updatePost ⟨[samplePost 1 "Foo" "foo" "text"], [], []⟩ (sampleUser 1 "ann") 1
        { sampleBody "Bar" "" with content := some (wordsContent 201) }
      = (⟨[{ samplePost 1 "Bar" "foo" "" with content := wordsContent 201 }], [], []⟩,
          success 200 "Post updated successfully"
            (.post { samplePost 1 "Bar" "foo" "" with content := wordsContent 201 }))
      ∧ ({ samplePost 1 "Bar" "foo" "" with content := wordsContent 201 } : Post).readingTime = 1
      ∧ uniqueSlug [samplePost 1 "Foo" "foo" "text"] 1 (slugify sampleTables "Bar".toList)
          = some "bar".toList
      ∧ computeReadingTime (wordsContent 201) = 2
      ∧ (savePost sampleTables [samplePost 1 "Foo" "foo" "text"] false ⟨true, true, false⟩
            { samplePost 1 "Bar" "foo" "" with content := wordsContent 201 }).toOption.map
          (fun r => (r.2.slug, r.2.readingTime)) = some ("bar".toList, 2) := by
  decide

/-- C7: for a `POST /posts` request that passes the middleware and the schema validators, the
created post has the unique slug derived from the submitted title (trimmed), the reading
time of the submitted content and the requester as author; none of them depends on the
`slug`, `readingTime` or `author` the body carries. -/
theorem created_post_is_derived (T : SlugifyTables) (db : Db) (reqUser : User)
    (body vbody : PostBody) (doc : Post) (newId now : Nat)
    (hv : validatePost body = some vbody)
    (hd : newPostDoc vbody reqUser._id newId now = some doc)
    (hs : validatePostDoc allModified doc = true)
    (hfresh : ∀ q ∈ db.posts, q._id ≠ newId) :
    ∃ title content slug post,
      body.title = some title ∧ body.content = some content
        ∧ uniqueSlug db.posts newId (slugify T (trim title)) = some slug
        ∧ createPost T db reqUser body newId now
            = ({ db with posts := db.posts ++ [post] },
                success 201 "Post created successfully" (.post post))
        ∧ post.slug = slug
        ∧ post.readingTime = computeReadingTime content
        ∧ post.author = reqUser._id
        ∧ post._id = newId ∧ post.title = trim title ∧ post.content = content := by
  -- the middleware passed: title and content are present, the title gets trimmed
  obtain ⟨title, htitle⟩ : ∃ title, body.title = some title := by
    cases hb : body.title with
    | some t => exact ⟨t, rfl⟩
    | none => simp [validatePost, hb] at hv
  obtain ⟨content, hcontent⟩ : ∃ content, body.content = some content := by
    cases hb : body.content with
    | some t => exact ⟨t, rfl⟩
    | none => simp [validatePost, hb] at hv
  have hvb : vbody = { body with title := some (trim title) } := by
    unfold validatePost at hv
    simp only [htitle, Option.getD_some] at hv
    split at hv
    · exact (Option.some.inj hv).symm
    · exact absurd hv (by simp)
  -- the document built from the body
  have hdoc : doc._id = newId ∧ doc.title = trim title ∧ doc.content = content
      ∧ doc.author = reqUser._id := by
    unfold newPostDoc at hd
    split at hd
    · exact absurd hd (by simp)
    · have hd' := (Option.some.inj hd).symm
      subst hd'
      subst hvb
      simp [hcontent, trim_idem]
  obtain ⟨hid, hdt, hdc, hda⟩ := hdoc
  obtain ⟨k, -, -, -, hsave, hu⟩ :=
    savePost_title_modified T db.posts true true true doc hs
      ⟨fun _ => by rw [hid]; exact hfresh, fun _ => rfl⟩
  refine ⟨title, content, candidate (slugify T (trim title)) k, savedPost T true true doc k,
    htitle, hcontent, ?_, ?_, ?_, ?_, ?_, ?_, ?_, ?_⟩
  · rw [← hdt, ← hid]
    exact hu
  · unfold createPost
    rw [hv]
    simp only [hd]
    have : savePost T db.posts true allModified doc
        = .ok (db.posts ++ [savedPost T true true doc k], savedPost T true true doc k) := hsave
    rw [this]
  · rw [savedPost_slug, hdt]
  · unfold savedPost
    simp only [preSaveDerive_readingTime, hdc]
  · unfold savedPost preSaveDerive setSlug
    simpa using hda
  · rw [savedPost_id, hid]
  · unfold savedPost preSaveDerive setSlug
    simpa using hdt
  · unfold savedPost preSaveDerive setSlug
    simpa using hdc

set_option maxRecDepth 100000 in
/-- C7, at a request whose body carries a slug, a reading time and an author of its own. -/
theorem created_post_is_derived_witness :
    ∃ title content slug post,
      ({ sampleBody " Foo " "one two" with
          slug := some "custom".toList, readingTime := some 9, author := some 5 } : PostBody).title
          = some title
        ∧ ({ sampleBody " Foo " "one two" with
          slug := some "custom".toList, readingTime := some 9, author := some 5 } : PostBody).content
          = some content
        ∧ uniqueSlug (⟨[samplePost 1 "Foo" "foo" "text"], [], []⟩ : Db).posts 2
            (slugify sampleTables (trim title)) = some slug
        ∧ createPost sampleTables ⟨[samplePost 1 "Foo" "foo" "text"], [], []⟩ (sampleUser 1 "ann")
            { sampleBody " Foo " "one two" with
              slug := some "custom".toList, readingTime := some 9, author := some 5 } 2 0
            = ({ (⟨[samplePost 1 "Foo" "foo" "text"], [], []⟩ : Db) with
                  posts := (⟨[samplePost 1 "Foo" "foo" "text"], [], []⟩ : Db).posts ++ [post] },
                success 201 "Post created successfully" (.post post))
        ∧ post.slug = slug
        ∧ post.readingTime = computeReadingTime content
        ∧ post.author = (sampleUser 1 "ann")._id
        ∧ post._id = 2 ∧ post.title = trim title ∧ post.content = content :=
  created_post_is_derived sampleTables ⟨[samplePost 1 "Foo" "foo" "text"], [], []⟩
    (sampleUser 1 "ann")
    { sampleBody " Foo " "one two" with
      slug := some "custom".toList, readingTime := some 9, author := some 5 }
    { sampleBody "Foo" "one two" with
      slug := some "custom".toList, readingTime := some 9, author := some 5 }
    { samplePost 2 "Foo" "custom" "one two" with readingTime := 9 } 2 0
    (by decide) (by decide) (by decide) (by decide)

/-! ## Toggles: lemmas -/

theorem findPostById_id {posts : List Post} {id : ObjectId} {p : Post}
    (h : findPostById posts id = some p) : p._id = id := by
  have := List.find?_some h
  simpa using this

theorem findPostById_replacePost {posts : List Post} {id : ObjectId} {p p' : Post}
    (h : findPostById posts id = some p) (hid : p'._id = id) :
    findPostById (replacePost posts p') id = some p' := by
  subst hid
  unfold findPostById replacePost at *
  induction posts with
  | nil => simp at h
  | cons q qs ih =>
    by_cases hq : q._id = p'._id
    · simp [List.find?, hq]
    · have hq' : (q._id == p'._id) = false := by simpa using hq
      rw [List.find?_cons, hq'] at h
      simp only [List.map_cons, hq', Bool.false_eq_true, if_false, List.find?_cons]
      exact ih h

theorem findCommentById_id {comments : List Comment} {id : ObjectId} {c : Comment}
    (h : findCommentById comments id = some c) : c._id = id := by
  have := List.find?_some h
  simpa using this

theorem findCommentById_replaceComment {comments : List Comment} {id : ObjectId}
    {c c' : Comment} (h : findCommentById comments id = some c) (hid : c'._id = id) :
    findCommentById (replaceComment comments c') id = some c' := by
  subst hid
  unfold findCommentById replaceComment at *
  induction comments with
  | nil => simp at h
  | cons q qs ih =>
    by_cases hq : q._id = c'._id
    · simp [List.find?, hq]
    · have hq' : (q._id == c'._id) = false := by simpa using hq
      rw [List.find?_cons, hq'] at h
      simp only [List.map_cons, hq', Bool.false_eq_true, if_false, List.find?_cons]
      exact ih h

theorem findUserById_id {users : List User} {id : ObjectId} {u : User}
    (h : findUserById users id = some u) : u._id = id := by
  have := List.find?_some h
  simpa using this

theorem findUserById_replaceUser {users : List User} {id : ObjectId} {u u' : User}
    (h : findUserById users id = some u) (hid : u'._id = id) :
    findUserById (replaceUser users u') id = some u' := by
  subst hid
  unfold findUserById replaceUser at *
  induction users with
  | nil => simp at h
  | cons q qs ih =>
    by_cases hq : q._id = u'._id
    · simp [List.find?, hq]
    · have hq' : (q._id == u'._id) = false := by simpa using hq
      rw [List.find?_cons, hq'] at h
      simp only [List.map_cons, hq', Bool.false_eq_true, if_false, List.find?_cons]
      exact ih h

/-- The save of a loaded post none of whose validated paths is modified writes it back
unchanged. -/
theorem savePost_noneModified (T : SlugifyTables) {posts : List Post} {id : ObjectId}
    {p0 : Post} (p : Post) (h : findPostById posts id = some p0) (hid : p._id = id) :
    savePost T posts false noneModified p = .ok (replacePost posts p, p) := by
  have hmem : p0 ∈ posts := List.mem_of_find?_eq_some h
  have hany : posts.any (fun q => q._id == p._id) = true := by
    rw [List.any_eq_true]
    exact ⟨p0, hmem, by simp [findPostById_id h, hid]⟩
  simp [savePost, validatePostDoc, noneModified, preSaveDerive, preSaveUniqueSlug, hany]

theorem toggledPost_id (post : Post) (u : ObjectId) : (toggledPost post u)._id = post._id := by
  unfold toggledPost
  split <;> rfl

theorem toggledComment_id (comment : Comment) (u : ObjectId) :
    (toggledComment comment u)._id = comment._id := by
  unfold toggledComment
  split <;> rfl

theorem toggledUser_id (user : User) (b : ObjectId) : (toggledUser user b)._id = user._id := by
  unfold toggledUser
  split <;> rfl

/-- What `POST /posts/:id/like` does to a stored post. -/
theorem likePost_of_found (T : SlugifyTables) {db : Db} (reqUser : User) {id : ObjectId}
    {post : Post} (h : findPostById db.posts id = some post) :
    likePost T db reqUser id
      = ({ db with posts := replacePost db.posts (toggledPost post reqUser._id) },
          success 200 (if post.likedBy.contains reqUser._id then "Post unliked" else "Post liked")
            (.likeState (toggledPost post reqUser._id).likes
              (!post.likedBy.contains reqUser._id))) := by
  have hid := findPostById_id h
  unfold likePost
  simp only [h]
  have hsave := savePost_noneModified T (toggledPost post reqUser._id) h
    (by rw [toggledPost_id]; exact hid)
  unfold toggledPost at hsave ⊢
  rw [hsave]

/-- What `POST /comments/:id/like` does to a stored comment. -/
theorem likeComment_of_found {db : Db} (reqUser : User) {id : ObjectId} {comment : Comment}
    (h : findCommentById db.comments id = some comment) :
    likeComment db reqUser id
      = ({ db with comments := replaceComment db.comments (toggledComment comment reqUser._id) },
          success 200
            (if comment.likedBy.contains reqUser._id then "Comment unliked" else "Comment liked")
            (.likeState (toggledComment comment reqUser._id).likes
              (!comment.likedBy.contains reqUser._id))) := by
  unfold likeComment toggledComment
  simp only [h]

/-- What `POST /posts/:id/bookmark` does to the stored requester. -/
theorem bookmarkPost_of_found {db : Db} (reqUser : User) {id : ObjectId} {post : Post}
    {user : User} (h : findPostById db.posts id = some post)
    (hu : findUserById db.users reqUser._id = some user) :
    bookmarkPost db reqUser id
      = ({ db with users := replaceUser db.users (toggledUser user id) },
          success 200 (if user.bookmarks.contains id then "Bookmark removed" else "Post bookmarked")
            (.bookmarkState (!user.bookmarks.contains id))) := by
  have hid := findPostById_id h
  unfold bookmarkPost toggledUser
  simp only [h, hu, hid]

theorem likesConsistent_toggle {likes : Int} {likedBy : List ObjectId} (u : ObjectId)
    (h : LikesConsistent likes likedBy) :
    (likedBy.contains u = true →
        LikesConsistent (likes - 1) (likedBy.filter (fun v => v != u)))
      ∧ (likedBy.contains u = false → LikesConsistent (likes + 1) (likedBy ++ [u])) := by
  obtain ⟨hnd, hl⟩ := h
  constructor
  · intro hu
    have hmem : u ∈ likedBy := by simpa using hu
    refine ⟨hnd.filter _, ?_⟩
    rw [← hnd.erase_eq_filter u, List.length_erase_of_mem hmem, hl]
    have : 1 ≤ likedBy.length := List.length_pos_of_mem hmem
    omega
  · intro hu
    have hmem : u ∉ likedBy := by simpa using hu
    refine ⟨?_, ?_⟩
    · rw [List.nodup_append]
      refine ⟨hnd, List.nodup_singleton u, ?_⟩
      intro a ha hb
      rw [List.mem_singleton] at hb
      subst hb
      exact hmem ha
    · rw [List.length_append, hl]
      simp

theorem toggledPost_consistent {post : Post} (u : ObjectId)
    (h : LikesConsistent post.likes post.likedBy) :
    LikesConsistent (toggledPost post u).likes (toggledPost post u).likedBy := by
  obtain ⟨h1, h2⟩ := likesConsistent_toggle u h
  unfold toggledPost
  cases hc : post.likedBy.contains u with
  | true => simpa using h1 hc
  | false => simpa using h2 hc

theorem toggledComment_consistent {comment : Comment} (u : ObjectId)
    (h : LikesConsistent comment.likes comment.likedBy) :
    LikesConsistent (toggledComment comment u).likes (toggledComment comment u).likedBy := by
  obtain ⟨h1, h2⟩ := likesConsistent_toggle u h
  unfold toggledComment
  cases hc : comment.likedBy.contains u with
  | true => simpa using h1 hc
  | false => simpa using h2 hc

theorem likePostMany_consistent (T : SlugifyTables) (users : List User) (id : ObjectId) :
    ∀ (db : Db) (post : Post), findPostById db.posts id = some post →
      LikesConsistent post.likes post.likedBy →
      ∃ post', findPostById (likePostMany T db users id).posts id = some post'
        ∧ LikesConsistent post'.likes post'.likedBy := by
  induction users with
  | nil => intro db post h hc; exact ⟨post, h, hc⟩
  | cons u us ih =>
    intro db post h hc
    have hstep : findPostById (likePost T db u id).1.posts id = some (toggledPost post u._id) := by
      rw [likePost_of_found T u h]
      exact findPostById_replacePost h (by rw [toggledPost_id]; exact findPostById_id h)
    exact ih _ _ hstep (toggledPost_consistent _ hc)

theorem likeCommentMany_consistent (users : List User) (id : ObjectId) :
    ∀ (db : Db) (comment : Comment), findCommentById db.comments id = some comment →
      LikesConsistent comment.likes comment.likedBy →
      ∃ comment', findCommentById (likeCommentMany db users id).comments id = some comment'
        ∧ LikesConsistent comment'.likes comment'.likedBy := by
  induction users with
  | nil => intro db comment h hc; exact ⟨comment, h, hc⟩
  | cons u us ih =>
    intro db comment h hc
    have hstep : findCommentById (likeComment db u id).1.comments id
        = some (toggledComment comment u._id) := by
      rw [likeComment_of_found u h]
      exact findCommentById_replaceComment h
        (by rw [toggledComment_id]; exact findCommentById_id h)
    exact ih _ _ hstep (toggledComment_consistent _ hc)

theorem toggledPost_likedBy (post : Post) (u : ObjectId) :
    (toggledPost post u).likedBy = toggleMember post.likedBy u := by
  unfold toggledPost toggleMember
  split <;> rfl

theorem toggledPost_likes (post : Post) (u : ObjectId) :
    (toggledPost post u).likes
      = if post.likedBy.contains u then post.likes - 1 else post.likes + 1 := by
  unfold toggledPost
  split <;> rfl

theorem toggledUser_bookmarks (user : User) (b : ObjectId) :
    (toggledUser user b).bookmarks = toggleMember user.bookmarks b := by
  unfold toggledUser toggleMember
  split <;> rfl

theorem toggleMember_contains (l : List ObjectId) (u : ObjectId) :
    (toggleMember l u).contains u = !l.contains u := by
  unfold toggleMember
  cases h : l.contains u with
  | true => simp
  | false => simp

theorem toggleMember_of_mem {l : List ObjectId} {u : ObjectId} (h : l.contains u = true) :
    toggleMember l u = l.filter (fun w => w != u) := by
  unfold toggleMember
  rw [if_pos h]

theorem toggleMember_of_not_mem {l : List ObjectId} {u : ObjectId}
    (h : l.contains u = false) : toggleMember l u = l ++ [u] := by
  unfold toggleMember
  rw [h]
  rfl

theorem mem_toggleMember_twice (l : List ObjectId) (u v : ObjectId) :
    v ∈ toggleMember (toggleMember l u) u ↔ v ∈ l := by
  have hc := toggleMember_contains l u
  by_cases h : u ∈ l
  · have h1 : l.contains u = true := by simpa using h
    rw [h1] at hc
    rw [toggleMember_of_not_mem (by simpa using hc), toggleMember_of_mem h1]
    simp only [List.mem_append, List.mem_filter, bne_iff_ne, ne_eq, List.mem_singleton]
    constructor
    · rintro (⟨hv, -⟩ | rfl)
      · exact hv
      · exact h
    · intro hv
      by_cases hvu : v = u
      · exact Or.inr hvu
      · exact Or.inl ⟨hv, hvu⟩
  · have h1 : l.contains u = false := by simpa using h
    rw [h1] at hc
    rw [toggleMember_of_mem (by simpa using hc), toggleMember_of_not_mem h1]
    simp only [List.mem_filter, List.mem_append, List.mem_singleton, bne_iff_ne, ne_eq]
    constructor
    · rintro ⟨hv | hv, hne⟩
      · exact hv
      · exact absurd hv hne
    · intro hv
      exact ⟨Or.inl hv, fun hvu => h (hvu ▸ hv)⟩

theorem toggledPost_twice_likes (post : Post) (u : ObjectId) :
    (toggledPost (toggledPost post u) u).likes = post.likes := by
  rw [toggledPost_likes, toggledPost_likedBy, toggleMember_contains, toggledPost_likes]
  cases post.likedBy.contains u <;> simp

/-! ## Toggles: claims -/

/-- C8: when the counter of likes of a stored post equals the length of its duplicate-free
list of likers, one like toggle by any user keeps both, and so does any sequence of sequential
toggles, in particular from the counter 0 and the empty list of a new post; the same holds,
independently, of every stored comment. -/
theorem like_toggle_keeps_counter (T : SlugifyTables) (db : Db) (reqUser : User)
    (users : List User) :
    (∀ (pid : ObjectId) (post : Post), findPostById db.posts pid = some post →
      post.likedBy.Nodup → post.likes = post.likedBy.length →
      (∃ post', findPostById (likePost T db reqUser pid).1.posts pid = some post'
        ∧ post'.likes = post'.likedBy.length ∧ post'.likedBy.Nodup)
      ∧ (∃ post', findPostById (likePostMany T db users pid).posts pid = some post'
        ∧ post'.likes = post'.likedBy.length ∧ post'.likedBy.Nodup))
    ∧ (∀ (cid : ObjectId) (comment : Comment), findCommentById db.comments cid = some comment →
      comment.likedBy.Nodup → comment.likes = comment.likedBy.length →
      (∃ comment', findCommentById (likeComment db reqUser cid).1.comments cid = some comment'
        ∧ comment'.likes = comment'.likedBy.length ∧ comment'.likedBy.Nodup)
      ∧ (∃ comment', findCommentById (likeCommentMany db users cid).comments cid = some comment'
        ∧ comment'.likes = comment'.likedBy.length ∧ comment'.likedBy.Nodup)) := by
  constructor
  · intro pid post hp hnodup hlikes
    constructor
    · obtain ⟨p', h1, h2, h3⟩ :=
        likePostMany_consistent T [reqUser] pid db post hp ⟨hnodup, hlikes⟩
      exact ⟨p', h1, h3, h2⟩
    · obtain ⟨p', h1, h2, h3⟩ := likePostMany_consistent T users pid db post hp ⟨hnodup, hlikes⟩
      exact ⟨p', h1, h3, h2⟩
  · intro cid comment hc hnodup hlikes
    constructor
    · obtain ⟨c', h1, h2, h3⟩ :=
        likeCommentMany_consistent [reqUser] cid db comment hc ⟨hnodup, hlikes⟩
      exact ⟨c', h1, h3, h2⟩
    · obtain ⟨c', h1, h2, h3⟩ :=
        likeCommentMany_consistent users cid db comment hc ⟨hnodup, hlikes⟩
      exact ⟨c', h1, h3, h2⟩

set_option maxRecDepth 100000 in
/-- C8, at a new post in a store without comments, and at a new comment in a store without
posts, each toggled by `ann`, `bob` and `ann` again. -/
theorem like_toggle_keeps_counter_witness :
    ((∃ post', findPostById
          (likePost sampleTables onlyPostDb (sampleUser 1 "ann") 1).1.posts 1 = some post'
        ∧ post'.likes = post'.likedBy.length ∧ post'.likedBy.Nodup)
      ∧ (∃ post', findPostById (likePostMany sampleTables onlyPostDb
            [sampleUser 1 "ann", sampleUser 2 "bob", sampleUser 1 "ann"] 1).posts 1 = some post'
        ∧ post'.likes = post'.likedBy.length ∧ post'.likedBy.Nodup))
    ∧ ((∃ comment', findCommentById
          (likeComment onlyCommentDb (sampleUser 1 "ann") 4).1.comments 4 = some comment'
        ∧ comment'.likes = comment'.likedBy.length ∧ comment'.likedBy.Nodup)
      ∧ (∃ comment', findCommentById (likeCommentMany onlyCommentDb
            [sampleUser 1 "ann", sampleUser 2 "bob", sampleUser 1 "ann"] 4).comments 4
          = some comment'
        ∧ comment'.likes = comment'.likedBy.length ∧ comment'.likedBy.Nodup)) :=
  ⟨(like_toggle_keeps_counter sampleTables onlyPostDb (sampleUser 1 "ann")
      [sampleUser 1 "ann", sampleUser 2 "bob", sampleUser 1 "ann"]).1 1
      (samplePost 1 "Foo" "foo" "text") (by decide) (by decide) (by decide),
    (like_toggle_keeps_counter sampleTables onlyCommentDb (sampleUser 1 "ann")
      [sampleUser 1 "ann", sampleUser 2 "bob", sampleUser 1 "ann"]).2 4
      (sampleComment 4 1 "nice") (by decide) (by decide) (by decide)⟩

/-- C9: on a post whose counter equals the length of its list of likers, three sequential
toggle calls by a user who is not in the list (like, unlike, like) end with the counter equal
to the length of the list, the last response reporting `isLiked: true`, and the user in the
list. -/
theorem three_toggles_end_liked (T : SlugifyTables) (db : Db) (reqUser : User) (id : ObjectId)
    (post : Post) (hp : findPostById db.posts id = some post)
    (hl : post.likes = post.likedBy.length) (hn : reqUser._id ∉ post.likedBy) :
    ∃ post',
      findPostById
          (likePost T (likePost T (likePost T db reqUser id).1 reqUser id).1 reqUser id).1.posts id
        = some post'
      ∧ post'.likes = post'.likedBy.length
      ∧ (likePost T (likePost T (likePost T db reqUser id).1 reqUser id).1 reqUser id).2
        = success 200 "Post liked" (.likeState post'.likes true)
      ∧ reqUser._id ∈ post'.likedBy := by
  have hid := findPostById_id hp
  -- first call
  have e1 := likePost_of_found T reqUser hp
  have f1 : findPostById (likePost T db reqUser id).1.posts id
      = some (toggledPost post reqUser._id) := by
    rw [e1]
    exact findPostById_replacePost hp (by rw [toggledPost_id]; exact hid)
  -- second call
  have e2 := likePost_of_found T reqUser f1
  have f2 : findPostById (likePost T (likePost T db reqUser id).1 reqUser id).1.posts id
      = some (toggledPost (toggledPost post reqUser._id) reqUser._id) := by
    rw [e2]
    exact findPostById_replacePost f1 (by rw [toggledPost_id, toggledPost_id]; exact hid)
  -- third call
  have e3 := likePost_of_found T reqUser f2
  have f3 : findPostById
      (likePost T (likePost T (likePost T db reqUser id).1 reqUser id).1 reqUser id).1.posts id
      = some (toggledPost (toggledPost (toggledPost post reqUser._id) reqUser._id)
          reqUser._id) := by
    rw [e3]
    exact findPostById_replacePost f2
      (by rw [toggledPost_id, toggledPost_id, toggledPost_id]; exact hid)
  -- the lists and counters along the way
  have c0 : post.likedBy.contains reqUser._id = false := by simpa using hn
  have l1 : (toggledPost post reqUser._id).likedBy = post.likedBy ++ [reqUser._id] := by
    rw [toggledPost_likedBy, toggleMember, c0]
    rfl
  have c1 : (toggledPost post reqUser._id).likedBy.contains reqUser._id = true := by
    rw [toggledPost_likedBy, toggleMember_contains, c0]
    rfl
  have l2 : (toggledPost (toggledPost post reqUser._id) reqUser._id).likedBy = post.likedBy := by
    rw [toggledPost_likedBy, toggleMember, c1, l1]
    simp only [if_true, List.filter_append]
    have hself : post.likedBy.filter (fun v => v != reqUser._id) = post.likedBy := by
      rw [List.filter_eq_self]
      intro a ha
      have hne : a ≠ reqUser._id := fun h => hn (h ▸ ha)
      simpa using hne
    rw [hself]
    simp
  have c2 : (toggledPost (toggledPost post reqUser._id) reqUser._id).likedBy.contains
      reqUser._id = false := by
    rw [l2]
    exact c0
  have l3 : (toggledPost (toggledPost (toggledPost post reqUser._id) reqUser._id)
      reqUser._id).likedBy = post.likedBy ++ [reqUser._id] := by
    rw [toggledPost_likedBy, toggleMember, c2, l2]
    rfl
  have k3 : (toggledPost (toggledPost (toggledPost post reqUser._id) reqUser._id)
      reqUser._id).likes = post.likes + 1 := by
    rw [toggledPost_likes, c2, toggledPost_twice_likes]
    rfl
  refine ⟨_, f3, ?_, ?_, ?_⟩
  · rw [k3, l3, hl]
    simp
  · rw [e3, c2]
    rfl
  · rw [l3]
    simp

set_option maxRecDepth 100000 in
/-- C9, at a new post toggled three times by `ann`. -/
theorem three_toggles_end_liked_witness :
    ∃ post',
      findPostById
          (likePost sampleTables
            (likePost sampleTables (likePost sampleTables toggleDb (sampleUser 1 "ann") 1).1
              (sampleUser 1 "ann") 1).1 (sampleUser 1 "ann") 1).1.posts 1
        = some post'
      ∧ post'.likes = post'.likedBy.length
      ∧ (likePost sampleTables
            (likePost sampleTables (likePost sampleTables toggleDb (sampleUser 1 "ann") 1).1
              (sampleUser 1 "ann") 1).1 (sampleUser 1 "ann") 1).2
        = success 200 "Post liked" (.likeState post'.likes true)
      ∧ (sampleUser 1 "ann")._id ∈ post'.likedBy :=
  three_toggles_end_liked sampleTables toggleDb (sampleUser 1 "ann") 1
    (samplePost 1 "Foo" "foo" "text") (by decide) (by decide) (by decide)

/-- C10: two consecutive like toggles by a user restore the counter of likes of the post and
the membership of every user in its list of likers; two consecutive bookmark toggles restore
the membership of every post in the bookmarks of the user; and after a single call the flag of
the response is the membership of the user (of the post) in the stored list. -/
theorem double_toggle_restores (T : SlugifyTables) (db : Db) (reqUser : User) (id : ObjectId)
    (post : Post) (user : User) (hp : findPostById db.posts id = some post)
    (hu : findUserById db.users reqUser._id = some user) :
    (∃ post1 message, findPostById (likePost T db reqUser id).1.posts id = some post1
        ∧ (likePost T db reqUser id).2
          = success 200 message
              (.likeState post1.likes (post1.likedBy.contains reqUser._id)))
      ∧ (∃ post2, findPostById (likePost T (likePost T db reqUser id).1 reqUser id).1.posts id
          = some post2
        ∧ post2.likes = post.likes ∧ ∀ v, v ∈ post2.likedBy ↔ v ∈ post.likedBy)
      ∧ (∃ user1 message,
          findUserById (bookmarkPost db reqUser id).1.users reqUser._id = some user1
        ∧ (bookmarkPost db reqUser id).2
          = success 200 message (.bookmarkState (user1.bookmarks.contains id)))
      ∧ (∃ user2,
          findUserById (bookmarkPost (bookmarkPost db reqUser id).1 reqUser id).1.users
            reqUser._id = some user2
        ∧ ∀ b, b ∈ user2.bookmarks ↔ b ∈ user.bookmarks) := by
  have hid := findPostById_id hp
  have huid := findUserById_id hu
  have e1 := likePost_of_found T reqUser hp
  have f1 : findPostById (likePost T db reqUser id).1.posts id
      = some (toggledPost post reqUser._id) := by
    rw [e1]
    exact findPostById_replacePost hp (by rw [toggledPost_id]; exact hid)
  have e2 := likePost_of_found T reqUser f1
  have f2 : findPostById (likePost T (likePost T db reqUser id).1 reqUser id).1.posts id
      = some (toggledPost (toggledPost post reqUser._id) reqUser._id) := by
    rw [e2]
    exact findPostById_replacePost f1 (by rw [toggledPost_id, toggledPost_id]; exact hid)
  have b1 := bookmarkPost_of_found reqUser hp hu
  have g1 : findUserById (bookmarkPost db reqUser id).1.users reqUser._id
      = some (toggledUser user id) := by
    rw [b1]
    exact findUserById_replaceUser hu (by rw [toggledUser_id]; exact huid)
  have hp1 : findPostById (bookmarkPost db reqUser id).1.posts id = some post := by
    rw [b1]
    exact hp
  have b2 := bookmarkPost_of_found reqUser hp1 g1
  have g2 : findUserById (bookmarkPost (bookmarkPost db reqUser id).1 reqUser id).1.users
      reqUser._id = some (toggledUser (toggledUser user id) id) := by
    rw [b2]
    exact findUserById_replaceUser g1 (by rw [toggledUser_id, toggledUser_id]; exact huid)
  refine ⟨⟨_, if post.likedBy.contains reqUser._id then "Post unliked" else "Post liked",
      f1, ?_⟩,
    ⟨_, f2, toggledPost_twice_likes post _, ?_⟩,
    ⟨_, if user.bookmarks.contains id then "Bookmark removed" else "Post bookmarked", g1, ?_⟩,
    ⟨_, g2, ?_⟩⟩
  · rw [e1, toggledPost_likedBy, toggleMember_contains]
  · intro v
    rw [toggledPost_likedBy, toggledPost_likedBy]
    exact mem_toggleMember_twice _ _ _
  · rw [b1, toggledUser_bookmarks, toggleMember_contains]
  · intro b
    rw [toggledUser_bookmarks, toggledUser_bookmarks]
    exact mem_toggleMember_twice _ _ _

set_option maxRecDepth 100000 in
/-- C10, at the post 1 and the user `ann`. -/
theorem double_toggle_restores_witness :
    (∃ post1 message,
        findPostById (likePost sampleTables toggleDb (sampleUser 1 "ann") 1).1.posts 1
          = some post1
        ∧ (likePost sampleTables toggleDb (sampleUser 1 "ann") 1).2
          = success 200 message
              (.likeState post1.likes (post1.likedBy.contains (sampleUser 1 "ann")._id)))
      ∧ (∃ post2,
          findPostById (likePost sampleTables
            (likePost sampleTables toggleDb (sampleUser 1 "ann") 1).1
            (sampleUser 1 "ann") 1).1.posts 1 = some post2
        ∧ post2.likes = (samplePost 1 "Foo" "foo" "text").likes
        ∧ ∀ v, v ∈ post2.likedBy ↔ v ∈ (samplePost 1 "Foo" "foo" "text").likedBy)
      ∧ (∃ user1 message,
          findUserById (bookmarkPost toggleDb (sampleUser 1 "ann") 1).1.users
            (sampleUser 1 "ann")._id = some user1
        ∧ (bookmarkPost toggleDb (sampleUser 1 "ann") 1).2
          = success 200 message (.bookmarkState (user1.bookmarks.contains 1)))
      ∧ (∃ user2,
          findUserById (bookmarkPost (bookmarkPost toggleDb (sampleUser 1 "ann") 1).1
            (sampleUser 1 "ann") 1).1.users (sampleUser 1 "ann")._id = some user2
        ∧ ∀ b, b ∈ user2.bookmarks ↔ b ∈ (sampleUser 1 "ann").bookmarks) :=
  double_toggle_restores sampleTables toggleDb (sampleUser 1 "ann") 1
    (samplePost 1 "Foo" "foo" "text") (sampleUser 1 "ann") (by decide) (by decide)

/-! ## Deleting a comment: lemmas -/

theorem deleteCommentCascade_eq (comments : List Comment) (c : Comment) :
    deleteCommentCascade comments c
      = comments.filter (fun q => q._id != c._id && q.parent != some c._id) := by
  unfold deleteCommentCascade
  rw [List.filter_filter]

theorem comment_eq_of_id_eq {comments : List Comment} (h : CommentIdsDistinct comments)
    {a b : Comment} (ha : a ∈ comments) (hb : b ∈ comments) (hid : a._id = b._id) : a = b := by
  unfold CommentIdsDistinct at h
  induction comments with
  | nil => simp at ha
  | cons x xs ih =>
    rw [List.pairwise_cons] at h
    rcases List.mem_cons.mp ha with rfl | ha'
    · rcases List.mem_cons.mp hb with rfl | hb'
      · rfl
      · exact absurd hid (h.1 b hb')
    · rcases List.mem_cons.mp hb with rfl | hb'
      · exact absurd hid.symm (h.1 a ha')
      · exact ih h.2 ha' hb'

theorem countP_or_add_countP_and {α : Type} (p q : α → Bool) (l : List α) :
    l.countP (fun x => p x || q x) + l.countP (fun x => p x && q x)
      = l.countP p + l.countP q := by
  induction l with
  | nil => simp
  | cons x xs ih =>
    simp only [List.countP_cons]
    cases p x <;> cases q x <;> simp <;> omega

theorem countP_id_eq_one {comments : List Comment} (h : CommentIdsDistinct comments)
    {c : Comment} (hc : c ∈ comments) :
    comments.countP (fun q => q._id == c._id) = 1 := by
  unfold CommentIdsDistinct at h
  induction comments with
  | nil => simp at hc
  | cons x xs ih =>
    rw [List.pairwise_cons] at h
    rw [List.countP_cons]
    rcases List.mem_cons.mp hc with rfl | hc'
    · have : xs.countP (fun q => q._id == c._id) = 0 := by
        rw [List.countP_eq_zero]
        intro q hq
        simpa using fun hcon => h.1 q hq hcon.symm
      simp [this]
    · have hx : x._id ≠ c._id := h.1 c hc'
      rw [ih h.2 hc']
      simp [hx]

/-- What the two delete handlers do on a stored comment when the requester may delete it. -/
theorem deleteComment_of_found {db : Db} (reqUser : User) {id : ObjectId} {c : Comment}
    (hc : findCommentById db.comments id = some c)
    (hauth : c.author = reqUser._id ∨ reqUser.role = Role.admin) :
    deleteComment db reqUser id
        = ({ db with comments :=
              db.comments.filter (fun q => q._id != id && q.parent != some id) },
            successNoData 200 "Comment deleted successfully")
      ∧ adminDeleteComment db id
        = ({ db with comments :=
              db.comments.filter (fun q => q._id != id && q.parent != some id) },
            successNoData 200 "Comment deleted successfully") := by
  have hid := findCommentById_id hc
  have hgate : (c.author != reqUser._id && reqUser.role != Role.admin) = false := by
    rcases hauth with h | h <;> simp [h]
  constructor
  · unfold deleteComment
    simp only [hc, hgate, Bool.false_eq_true, if_false, deleteCommentCascade_eq, hid]
  · unfold adminDeleteComment
    simp only [hc, deleteCommentCascade_eq, hid]

/-! ## Deleting a comment: claims -/

/-- C11: an authorised `DELETE /comments/:id`, and the admin variant, remove exactly the
comment and the comments whose parent it is, and leave every other comment, the posts and
the users unchanged; a reply to a removed reply stays, with a parent that is no longer
stored; with two direct replies exactly three comments are removed. -/
theorem delete_comment_removes_one_level (db : Db) (reqUser : User) (id : ObjectId)
    (c : Comment) (hc : findCommentById db.comments id = some c)
    (hauth : c.author = reqUser._id ∨ reqUser.role = Role.admin)
    (hids : CommentIdsDistinct db.comments) :
    (deleteComment db reqUser id).2 = successNoData 200 "Comment deleted successfully"
      ∧ adminDeleteComment db id = deleteComment db reqUser id
      ∧ (deleteComment db reqUser id).1.posts = db.posts
      ∧ (deleteComment db reqUser id).1.users = db.users
      ∧ (deleteComment db reqUser id).1.comments.Sublist db.comments
      ∧ (∀ q, q ∈ (deleteComment db reqUser id).1.comments
          ↔ q ∈ db.comments ∧ q ≠ c ∧ q.parent ≠ some c._id)
      ∧ (∀ r g, r ∈ db.comments → g ∈ db.comments → r ≠ c → r.parent = some c._id →
          g ≠ c → g.parent = some r._id →
          g ∈ (deleteComment db reqUser id).1.comments
            ∧ findCommentById (deleteComment db reqUser id).1.comments r._id = none)
      ∧ ((db.comments.filter (fun q => q.parent == some c._id)).length = 2 →
          c.parent ≠ some c._id →
          db.comments.length = (deleteComment db reqUser id).1.comments.length + 3) := by
  have hid := findCommentById_id hc
  have hmem : c ∈ db.comments := List.mem_of_find?_eq_some hc
  obtain ⟨h1, h2⟩ := deleteComment_of_found reqUser hc hauth
  have hiff : ∀ q, q ∈ db.comments.filter (fun q => q._id != id && q.parent != some id)
      ↔ q ∈ db.comments ∧ q ≠ c ∧ q.parent ≠ some c._id := by
    intro q
    simp only [List.mem_filter, Bool.and_eq_true, bne_iff_ne, ne_eq, hid]
    constructor
    · rintro ⟨hq, hqid, hqp⟩
      exact ⟨hq, fun h => hqid (by rw [h, hid]), hqp⟩
    · rintro ⟨hq, hqc, hqp⟩
      exact ⟨hq, fun h => hqc (comment_eq_of_id_eq hids hq hmem (by rw [h, hid])), hqp⟩
  rw [h1]
  refine ⟨rfl, h2, rfl, rfl, List.filter_sublist _, hiff, ?_, ?_⟩
  · intro r g hr hg hrc hrp hgc hgp
    have hrid : r._id ≠ c._id := fun h => hrc (comment_eq_of_id_eq hids hr hmem h)
    refine ⟨(hiff g).mpr ⟨hg, hgc, ?_⟩, ?_⟩
    · rw [hgp]
      exact fun h => hrid (Option.some.inj h)
    · unfold findCommentById
      rw [List.find?_eq_none]
      intro q hq
      obtain ⟨hq1, hq2, hq3⟩ := (hiff q).mp hq
      simp only [beq_iff_eq]
      intro hqr
      have : q = r := comment_eq_of_id_eq hids hq1 hr hqr
      rw [this] at hq3
      exact hq3 hrp
  · intro htwo hself
    simp only []
    have hsplit := List.length_eq_length_filter_add
      (l := db.comments) (fun q => q._id != id && q.parent != some id)
    have hrem : (db.comments.filter
        (fun q => !(q._id != id && q.parent != some id))).length = 3 := by
      rw [← List.countP_eq_length_filter]
      have hcongr : db.comments.countP (fun q => !(q._id != id && q.parent != some id))
          = db.comments.countP (fun q => q._id == c._id || q.parent == some c._id) := by
        apply List.countP_congr
        intro q _
        simp only [hid]
        cases h1 : (q._id == id) <;> cases h2 : (q.parent == some id) <;>
          simp [bne, h1, h2]
      have hor := countP_or_add_countP_and (fun q : Comment => q._id == c._id)
        (fun q => q.parent == some c._id) db.comments
      have hone := countP_id_eq_one hids hmem
      have hand : db.comments.countP (fun q => q._id == c._id && q.parent == some c._id)
          = 0 := by
        rw [List.countP_eq_zero]
        intro q hq
        simp only [Bool.and_eq_true, beq_iff_eq, not_and]
        intro hqid hqp
        have : q = c := comment_eq_of_id_eq hids hq hmem hqid
        rw [this] at hqp
        exact hself hqp
      have htwo' : db.comments.countP (fun q => q.parent == some c._id) = 2 := by
        rw [List.countP_eq_length_filter]
        exact htwo
      rw [hcongr]
      omega
    omega

set_option maxRecDepth 100000 in
/-- C11, at a comment with two replies, one of which has a reply of its own. -/
theorem delete_comment_removes_one_level_witness :
    (deleteComment threadDb (sampleUser 1 "ann") 4).2
        = successNoData 200 "Comment deleted successfully"
      ∧ adminDeleteComment threadDb 4 = deleteComment threadDb (sampleUser 1 "ann") 4
      ∧ (deleteComment threadDb (sampleUser 1 "ann") 4).1.posts = threadDb.posts
      ∧ (deleteComment threadDb (sampleUser 1 "ann") 4).1.users = threadDb.users
      ∧ (deleteComment threadDb (sampleUser 1 "ann") 4).1.comments.Sublist threadDb.comments
      ∧ (∀ q, q ∈ (deleteComment threadDb (sampleUser 1 "ann") 4).1.comments
          ↔ q ∈ threadDb.comments ∧ q ≠ sampleComment 4 1 "top"
            ∧ q.parent ≠ some (sampleComment 4 1 "top")._id)
      ∧ (∀ r g, r ∈ threadDb.comments → g ∈ threadDb.comments → r ≠ sampleComment 4 1 "top" →
          r.parent = some (sampleComment 4 1 "top")._id →
          g ≠ sampleComment 4 1 "top" → g.parent = some r._id →
          g ∈ (deleteComment threadDb (sampleUser 1 "ann") 4).1.comments
            ∧ findCommentById (deleteComment threadDb (sampleUser 1 "ann") 4).1.comments r._id
              = none)
      ∧ ((threadDb.comments.filter
            (fun q => q.parent == some (sampleComment 4 1 "top")._id)).length = 2 →
          (sampleComment 4 1 "top").parent ≠ some (sampleComment 4 1 "top")._id →
          threadDb.comments.length
            = (deleteComment threadDb (sampleUser 1 "ann") 4).1.comments.length + 3) :=
  delete_comment_removes_one_level threadDb (sampleUser 1 "ann") 4 (sampleComment 4 1 "top")
    (by decide) (Or.inl (by decide)) (by decide)

/-! ## Creating a comment: claims -/

set_option maxRecDepth 100000 in
/-- C12 (counterexample): a reply on post 2 whose parent is a comment on post 1 is accepted
and stored. -/
theorem reply_to_comment_of_another_post :
    createComment twoPostsDb (sampleUser 2 "bob") (sampleCommentBody "hi" 2 (some 4)) 5 7
        = ({ twoPostsDb with comments :=
              [sampleComment 4 1 "nice",
                { sampleReply 5 2 4 "hi" 7 with author := 2 }] },
            success 201 "Comment created successfully"
              (.comment { sampleReply 5 2 4 "hi" 7 with author := 2 }))
      ∧ (findCommentById twoPostsDb.comments 4).map (fun c => c.post) = some 1
      ∧ ({ sampleReply 5 2 4 "hi" 7 with author := 2 } : Comment).post = 2 := by
  decide

/-- C12 (amended): a `POST /comments` request that succeeds with a `parentId` names a stored
comment as parent, and the reply is stored on the post of the request; a request whose
`parentId` names no stored comment is answered 404 and creates nothing; a request whose
parent is stored is accepted whatever the post of the parent. -/
theorem reply_parent_is_stored (db : Db) (reqUser : User) (body vbody : CommentBody)
    (newId now : Nat) (postId pid : ObjectId) (post : Post)
    (hv : validateComment body = some vbody)
    (hpost : body.postId = some postId) (hfind : findPostById db.posts postId = some post)
    (henabled : post.commentsEnabled = true)
    (hpid : body.parentId = some pid) :
    (findCommentById db.comments pid = none →
        createComment db reqUser body newId now = (db, failure 404 "Parent comment not found"))
      ∧ (∀ r, (createComment db reqUser body newId now).2 = .reply r → r.status = 201 →
          ∃ parent c, findCommentById db.comments pid = some parent
            ∧ r.data = some (.comment c) ∧ c.parent = some pid ∧ c.post = postId
            ∧ (createComment db reqUser body newId now).1.comments = db.comments ++ [c])
      ∧ (∀ parent, findCommentById db.comments pid = some parent →
          validateCommentDoc
            (newCommentDoc (vbody.content.getD []) reqUser._id postId (some pid) newId now)
            = true →
          (∀ q ∈ db.comments, q._id ≠ newId) →
          ∃ c, createComment db reqUser body newId now
              = ({ db with comments := db.comments ++ [c] },
                  success 201 "Comment created successfully" (.comment c))
            ∧ c.parent = some pid ∧ c.post = postId) := by
  have hvb : vbody = { body with content := some (trim (body.content.getD [])) } := by
    simp only [validateComment] at hv
    split at hv
    · exact (Option.some.inj hv).symm
    · exact absurd hv (by simp)
  have hvpost : vbody.postId = some postId := by rw [hvb]; exact hpost
  have hvpid : vbody.parentId = some pid := by rw [hvb]; exact hpid
  have hstart : createComment db reqUser body newId now
      = if (findCommentById db.comments pid).isNone then
          (db, failure 404 "Parent comment not found")
        else
          if !validateCommentDoc
              (newCommentDoc (vbody.content.getD []) reqUser._id postId (some pid) newId now)
          then (db, .forward .validation)
          else if db.comments.any (fun q => q._id == newId) then (db, .forward .duplicateKey)
          else
            ({ db with comments := db.comments ++
                [newCommentDoc (vbody.content.getD []) reqUser._id postId (some pid) newId now] },
              success 201 "Comment created successfully"
                (.comment
                  (newCommentDoc (vbody.content.getD []) reqUser._id postId (some pid) newId
                    now))) := by
    unfold createComment
    simp only [hv, hvpost, hvpid, Option.some_bind, hfind, Option.map_some', henabled,
      Bool.not_true, Bool.false_eq_true, if_false]
  refine ⟨?_, ?_, ?_⟩
  · intro hnone
    rw [hstart, hnone]
    rfl
  · intro r hr hstatus
    rw [hstart] at hr ⊢
    cases hp : findCommentById db.comments pid with
    | none =>
      rw [hp] at hr
      simp only [Option.isNone_none, if_true, failure, Outcome.reply.injEq] at hr
      rw [← hr] at hstatus
      exact absurd hstatus (by decide)
    | some parent =>
      rw [hp] at hr
      simp only [Option.isNone_some, Bool.false_eq_true, if_false] at hr ⊢
      split at hr
      · exact absurd hr (by simp)
      · split at hr
        · exact absurd hr (by simp)
        · rename_i h1 h2
          simp only [success, Outcome.reply.injEq] at hr
          refine ⟨parent,
            newCommentDoc (vbody.content.getD []) reqUser._id postId (some pid) newId now,
            rfl, ?_, rfl, rfl, ?_⟩
          · rw [← hr]
          · rw [if_neg h1, if_neg h2]
  · intro parent hp hvalid hfresh
    have hany : db.comments.any (fun q => q._id == newId) = false := by
      rw [List.any_eq_false]
      intro q hq
      simpa using hfresh q hq
    refine ⟨newCommentDoc (vbody.content.getD []) reqUser._id postId (some pid) newId now,
      ?_, rfl, rfl⟩
    rw [hstart, hp, hvalid, hany]
    rfl

set_option maxRecDepth 100000 in
/-- C12 (amended), at a reply on post 1 to the comment 4 of post 1. -/
theorem reply_parent_is_stored_witness :
    (findCommentById twoPostsDb.comments 4 = none →
        createComment twoPostsDb (sampleUser 2 "bob") (sampleCommentBody " hi " 1 (some 4)) 5 7
          = (twoPostsDb, failure 404 "Parent comment not found"))
      ∧ (∀ r, (createComment twoPostsDb (sampleUser 2 "bob")
            (sampleCommentBody " hi " 1 (some 4)) 5 7).2 = .reply r → r.status = 201 →
          ∃ parent c, findCommentById twoPostsDb.comments 4 = some parent
            ∧ r.data = some (.comment c) ∧ c.parent = some 4 ∧ c.post = 1
            ∧ (createComment twoPostsDb (sampleUser 2 "bob")
                (sampleCommentBody " hi " 1 (some 4)) 5 7).1.comments
              = twoPostsDb.comments ++ [c])
      ∧ (∀ parent, findCommentById twoPostsDb.comments 4 = some parent →
          validateCommentDoc
            (newCommentDoc ((sampleCommentBody "hi" 1 (some 4)).content.getD [])
              (sampleUser 2 "bob")._id 1 (some 4) 5 7)
            = true →
          (∀ q ∈ twoPostsDb.comments, q._id ≠ 5) →
          ∃ c, createComment twoPostsDb (sampleUser 2 "bob")
                (sampleCommentBody " hi " 1 (some 4)) 5 7
              = ({ twoPostsDb with comments := twoPostsDb.comments ++ [c] },
                  success 201 "Comment created successfully" (.comment c))
            ∧ c.parent = some 4 ∧ c.post = 1) :=
  reply_parent_is_stored twoPostsDb (sampleUser 2 "bob") (sampleCommentBody " hi " 1 (some 4))
    (sampleCommentBody "hi" 1 (some 4)) 5 7 1 4 (samplePost 1 "Foo" "foo" "text")
    (by decide) rfl (by decide) rfl rfl

/-! ## Pages: lemmas -/

theorem nat_ceil_div (n L : Nat) (hL : 1 ≤ L) : ⌈(n : ℚ) / L⌉₊ = (n + L - 1) / L := by
  have hLq : (0 : ℚ) < L := by exact_mod_cast hL
  have hmod := Nat.div_add_mod (n + L - 1) L
  have hlt := Nat.mod_lt (n + L - 1) (by omega : L > 0)
  apply le_antisymm
  · rw [Nat.ceil_le, div_le_iff₀ hLq]
    have h : n ≤ (n + L - 1) / L * L := by
      rw [Nat.mul_comm]
      omega
    exact_mod_cast h
  · rcases Nat.eq_zero_or_pos ((n + L - 1) / L) with h0 | hpos
    · rw [h0]; exact Nat.zero_le _
    · obtain ⟨m, hm⟩ : ∃ m, (n + L - 1) / L = m + 1 := ⟨(n + L - 1) / L - 1, by omega⟩
      rw [hm, Nat.succ_le_iff, Nat.lt_ceil, lt_div_iff₀ hLq]
      have h : m * L < n := by
        rw [hm] at hmod
        have : L * (m + 1) = m * L + L := by ring
        omega
      exact_mod_cast h

/-- The integer formula of `ceilDiv` is the ceiling of the exact quotient, for a positive
limit. -/
theorem ceilDiv_eq_ceil (total L : Nat) (hL : 1 ≤ L) :
    ceilDiv total (L : Int) = ((⌈(total : ℚ) / L⌉₊ : Nat) : Int) := by
  rw [nat_ceil_div total L hL]
  unfold ceilDiv
  have hpos : (0 : Int) < (L : Int) := by exact_mod_cast hL
  rw [if_pos hpos]
  have : (total : Int) + (L : Int) - 1 = ((total + L - 1 : Nat) : Int) := by
    omega
  rw [this]
  norm_cast

theorem skipOf_nat (p L : Nat) (hp : 1 ≤ p) :
    skipOf (p : Int) (L : Int) = (((p - 1) * L : Nat) : Int) := by
  unfold skipOf
  have : ((p : Int) - 1) = ((p - 1 : Nat) : Int) := by omega
  rw [this]
  norm_cast

theorem window_nat {α : Type} (l : List α) (p L : Nat) (hp : 1 ≤ p) :
    window l (skipOf (p : Int) (L : Int)) (L : Int) = (l.drop ((p - 1) * L)).take L := by
  unfold window
  rw [skipOf_nat p L hp, Int.toNat_natCast, Int.natAbs_ofNat]

theorem natCast_eq_finite (n : Nat) : (n : JsNumber) = .finite (n : Int) :=
  rfl

theorem readPage_nat {α : Type} (l : List α) (p L : Nat) (hp : 1 ≤ p) :
    readPage l (skipNumber (p : JsNumber) (L : JsNumber)) (L : JsNumber)
      = some (window l (skipOf (p : Int) (L : Int)) (L : Int)) := by
  have hskip : ¬ skipOf (p : Int) (L : Int) < 0 := by
    rw [skipOf_nat p L hp]
    exact not_lt.mpr (Int.natCast_nonneg _)
  simp only [natCast_eq_finite, skipNumber, readPage, hskip, if_false]

theorem totalPagesOf_nat (total L : Nat) (hL : 1 ≤ L) :
    totalPagesOf total (L : JsNumber) = ((⌈(total : ℚ) / L⌉₊ : Nat) : Int) := by
  rw [← ceilDiv_eq_ceil total L hL]
  rfl

theorem sortCommentsNewestFirst_sorted (l : List Comment) :
    (sortCommentsNewestFirst l).Sorted (fun a b => b.createdAt ≤ a.createdAt) :=
  List.sorted_insertionSort _ l

theorem sortCommentsNewestFirst_perm (l : List Comment) :
    (sortCommentsNewestFirst l).Perm l :=
  List.perm_insertionSort _ l

theorem mem_window {α : Type} {l : List α} {skip limit : Int} {x : α}
    (h : x ∈ window l skip limit) : x ∈ l :=
  List.mem_of_mem_drop (List.mem_of_mem_take h)

theorem mem_readPage {α : Type} {l r : List α} {skip limit : JsNumber} {x : α}
    (hr : readPage l skip limit = some r) (h : x ∈ r) : x ∈ l := by
  unfold readPage at hr
  split at hr
  · split at hr
    · cases hr
    · cases hr
      exact mem_window h
  · split at hr
    · cases hr
    · cases hr
      exact List.mem_of_mem_drop h
  · cases hr
  · cases hr
    cases h
  · cases hr
    exact mem_window h
  · cases hr
    exact h

/-! ## Listing comments: claims -/

/-- C13: for a page `p ≥ 1` and a limit `L ≥ 1`, `GET /comments/post/:postId` returns the
window `[(p-1)L, (p-1)L + L)` of the comments of the post with no parent and status approved,
sorted by `createdAt` descending, with `total` their number and `totalPages = ceil(total/L)`;
every top-level comment returned belongs to the post, has no parent and is approved. -/
theorem top_level_comments_window (db : Db) (postId : ObjectId) (pageQ limitQ : Option Str)
    (p L : Nat) (hp : pageOf pageQ = p) (hl : limitOf limitQ = L) (hp1 : 1 ≤ p)
    (hL1 : 1 ≤ L) :
    ∃ (sorted : List Comment) (views : List CommentView),
      sorted.Perm (db.comments.filter
          (fun c => c.post == postId && c.parent == none && c.status == CommentStatus.approved))
        ∧ sorted.Sorted (fun a b => b.createdAt ≤ a.createdAt)
        ∧ getComments db postId pageQ limitQ
          = .reply {
              status := 200, success := true, message := none,
              data := some (.comments views),
              pagination := some {
                page := p, limit := L, total := sorted.length,
                totalPages := ((⌈(sorted.length : ℚ) / L⌉₊ : Nat) : Int),
                hasNext := none, hasPrev := none } }
        ∧ views.map (fun v => v.comment) = (sorted.drop ((p - 1) * L)).take L
        ∧ ∀ v ∈ views, v.comment ∈ db.comments ∧ v.comment.post = postId
            ∧ v.comment.parent = none ∧ v.comment.status = CommentStatus.approved := by
  have hperm := sortCommentsNewestFirst_perm (db.comments.filter (isTopLevelOf postId))
  refine ⟨sortCommentsNewestFirst (db.comments.filter (isTopLevelOf postId)),
    (window (sortCommentsNewestFirst (db.comments.filter (isTopLevelOf postId)))
      (skipOf p L) L).map (fun c => ⟨c, repliesOf db.comments c⟩),
    hperm, sortCommentsNewestFirst_sorted _, ?_, ?_, ?_⟩
  · unfold getComments
    simp only [hp, hl, readPage_nat _ p L hp1, totalPagesOf_nat _ L hL1, hperm.length_eq]
  · rw [List.map_map, window_nat _ p L hp1]
    exact List.map_id _
  · intro v hv
    obtain ⟨c, hc, rfl⟩ := List.mem_map.mp hv
    have hmem := (hperm.mem_iff).mp (mem_window hc)
    obtain ⟨h1, h2⟩ := List.mem_filter.mp hmem
    simp only [isTopLevelOf, Bool.and_eq_true, beq_iff_eq] at h2
    exact ⟨h1, h2.1.1, h2.1.2, h2.2⟩

set_option maxRecDepth 100000 in
/-- C13, at the thread of post 1 with `page=1` and `limit=2`. -/
theorem top_level_comments_window_witness :
    ∃ (sorted : List Comment) (views : List CommentView),
      sorted.Perm (threadDb.comments.filter
          (fun c => c.post == 1 && c.parent == none && c.status == CommentStatus.approved))
        ∧ sorted.Sorted (fun a b => b.createdAt ≤ a.createdAt)
        ∧ getComments threadDb 1 (some "1".toList) (some "2".toList)
          = .reply {
              status := 200, success := true, message := none,
              data := some (.comments views),
              pagination := some {
                page := (1 : Nat), limit := (2 : Nat), total := sorted.length,
                totalPages := ((⌈(sorted.length : ℚ) / (2 : Nat)⌉₊ : Nat) : Int),
                hasNext := none, hasPrev := none } }
        ∧ views.map (fun v => v.comment) = (sorted.drop ((1 - 1) * 2)).take 2
        ∧ ∀ v ∈ views, v.comment ∈ threadDb.comments ∧ v.comment.post = 1
            ∧ v.comment.parent = none ∧ v.comment.status = CommentStatus.approved :=
  top_level_comments_window threadDb 1 (some "1".toList) (some "2".toList) 1 2
    (by decide) (by decide) (by decide) (by decide)

set_option maxRecDepth 100000 in
/-- C14 (counterexample): the replies 5 and 6 of the comment 4, created at times 1 and 2, are
attached in their stored order, the older one first. -/
theorem replies_attached_oldest_first :
    getComments threadDb 1 none none
        = .reply {
            status := 200, success := true, message := none,
            data := some (.comments
              [⟨sampleComment 4 1 "top",
                [sampleReply 5 1 4 "first" 1, sampleReply 6 1 4 "second" 2]⟩]),
            pagination := some {
              page := 1, limit := 10, total := 1, totalPages := 1,
              hasNext := none, hasPrev := none } }
      ∧ ¬ ([sampleReply 5 1 4 "first" 1, sampleReply 6 1 4 "second" 2].Sorted
            (fun a b => b.createdAt ≤ a.createdAt)) := by
  decide

/-- C14 (amended): `GET /comments/post/:postId` either is refused for a negative skip or
answers with top-level comments whose attached replies are exactly the approved comments
whose parent is that comment, in their stored order; no reply to a reply is attached. -/
theorem replies_are_direct_approved_children (db : Db) (postId : ObjectId)
    (pageQ limitQ : Option Str) :
    getComments db postId pageQ limitQ = .forward .badValue
      ∨ ∃ (views : List CommentView) (pagination : Pagination),
          getComments db postId pageQ limitQ
            = .reply { status := 200, success := true, message := none,
                       data := some (.comments views), pagination := some pagination }
          ∧ ∀ v ∈ views,
              v.replies.Sublist db.comments
              ∧ (∀ r, r ∈ v.replies
                  ↔ r ∈ db.comments ∧ r.parent = some v.comment._id
                    ∧ r.status = CommentStatus.approved)
              ∧ (∀ r g, r ∈ v.replies → r._id ≠ v.comment._id → g.parent = some r._id →
                  g ∉ v.replies) := by
  unfold getComments
  simp only []
  cases readPage (sortCommentsNewestFirst (db.comments.filter (isTopLevelOf postId)))
      (skipNumber (pageOf pageQ) (limitOf limitQ)) (limitOf limitQ) with
  | none => exact Or.inl rfl
  | some comments =>
    right
    refine ⟨_, _, rfl, ?_⟩
    intro v hv
    obtain ⟨c, -, rfl⟩ := List.mem_map.mp hv
    have hiff : ∀ r, r ∈ repliesOf db.comments c
        ↔ r ∈ db.comments ∧ r.parent = some c._id ∧ r.status = CommentStatus.approved := by
      intro r
      simp [repliesOf, List.mem_filter]
    refine ⟨List.filter_sublist _, hiff, ?_⟩
    intro r g _ hrid hgp hg
    have := ((hiff g).mp hg).2.1
    rw [hgp] at this
    exact hrid (Option.some.inj this)

/-- C14 (amended), at the thread of post 1. -/
theorem replies_are_direct_approved_children_witness :
    getComments threadDb 1 none none = .forward .badValue
      ∨ ∃ (views : List CommentView) (pagination : Pagination),
          getComments threadDb 1 none none
            = .reply { status := 200, success := true, message := none,
                       data := some (.comments views), pagination := some pagination }
          ∧ ∀ v ∈ views,
              v.replies.Sublist threadDb.comments
              ∧ (∀ r, r ∈ v.replies
                  ↔ r ∈ threadDb.comments ∧ r.parent = some v.comment._id
                    ∧ r.status = CommentStatus.approved)
              ∧ (∀ r g, r ∈ v.replies → r._id ≠ v.comment._id → g.parent = some r._id →
                  g ∉ v.replies) :=
  replies_are_direct_approved_children threadDb 1 none none

/-! ## Listing posts: lemmas -/

theorem sortPostsBy_perm (E : QueryEngine) (key : Str) (l : List Post) :
    (sortPostsBy E key l).Perm l := by
  unfold sortPostsBy
  split
  · exact List.perm_insertionSort _ l
  · exact E.sortPosts_perm key l

/-- The response of `GET /posts` when the pattern is accepted, the page and the limit are
finite and the skip is not negative. -/
theorem getPosts_of_matcher (E : QueryEngine) (db : Db) (reqUser : Option User)
    (q : PostsQuery) (matcher : Str → Bool) (p l : Int) (hm : searchMatcher E q = some matcher)
    (hp : pageOf q.page = .finite p) (hl : limitOf q.limit = .finite l)
    (hskip : ¬ skipOf p l < 0) :
    getPosts E db reqUser q
      = .reply {
          status := 200, success := true, message := none,
          data := some (.posts
            ((window (sortPostsBy E (q.sort.getD "-createdAt".toList)
                (db.posts.filter (postsFilter E db q matcher))) (skipOf p l) l).map
              (postView db reqUser))),
          pagination := some {
            page := .finite p, limit := .finite l,
            total := (db.posts.filter (postsFilter E db q matcher)).length,
            totalPages := ceilDiv (db.posts.filter (postsFilter E db q matcher)).length l,
            hasNext := some (decide
              (p < ceilDiv (db.posts.filter (postsFilter E db q matcher)).length l)),
            hasPrev := some (decide (p > 1)) } } := by
  unfold getPosts
  simp only [hm, hp, hl, skipNumber, readPage, hskip, if_false, totalPagesOf, pageBefore,
    pageAfterFirst]

/-! ## Listing posts: claims -/

/-- C15: when `N` posts match the query, for a page `p ≥ 1` and a limit `L ≥ 1`, `GET /posts`
returns `min(L, max(0, N - (p-1)L))` posts and the pagination `total = N`,
`totalPages = ceil(N/L)`, `hasNext = (p < totalPages)`, `hasPrev = (p > 1)`; with `N = 25`,
`L = 10`, `p = 3`: 5 posts, 3 pages, no next page, a previous page. -/
theorem posts_page_counts (E : QueryEngine) (db : Db) (reqUser : Option User) (q : PostsQuery)
    (matcher : Str → Bool) (p L N : Nat) (hm : searchMatcher E q = some matcher)
    (hp : pageOf q.page = p) (hl : limitOf q.limit = L) (hp1 : 1 ≤ p) (hL1 : 1 ≤ L)
    (hN : (db.posts.filter (postsFilter E db q matcher)).length = N) :
    ∃ views : List PostView,
      getPosts E db reqUser q
          = .reply {
              status := 200, success := true, message := none,
              data := some (.posts views),
              pagination := some {
                page := p, limit := L, total := N,
                totalPages := ((⌈(N : ℚ) / L⌉₊ : Nat) : Int),
                hasNext := some (decide (p < ⌈(N : ℚ) / L⌉₊)),
                hasPrev := some (decide (p > 1)) } }
        ∧ views.length = min L (N - (p - 1) * L)
        ∧ (N = 25 → L = 10 → p = 3 →
            views.length = 5 ∧ ⌈(N : ℚ) / L⌉₊ = 3 ∧ decide (p < ⌈(N : ℚ) / L⌉₊) = false
              ∧ decide (p > 1) = true) := by
  have hskip : ¬ skipOf (p : Int) (L : Int) < 0 := by
    rw [skipOf_nat p L hp1]
    exact not_lt.mpr (Int.natCast_nonneg _)
  have hlen : (window (sortPostsBy E (q.sort.getD "-createdAt".toList)
      (db.posts.filter (postsFilter E db q matcher)))
      (skipOf (p : Int) (L : Int)) (L : Int)).length
      = min L (N - (p - 1) * L) := by
    rw [window_nat _ p L hp1, List.length_take, List.length_drop,
      (sortPostsBy_perm E _ _).length_eq, hN]
  refine ⟨(window (sortPostsBy E (q.sort.getD "-createdAt".toList)
      (db.posts.filter (postsFilter E db q matcher)))
      (skipOf (p : Int) (L : Int)) (L : Int)).map (postView db reqUser),
    ?_, ?_, ?_⟩
  · rw [getPosts_of_matcher E db reqUser q matcher p L hm (hp.trans (natCast_eq_finite p))
      (hl.trans (natCast_eq_finite L)) hskip]
    simp only [hN, ceilDiv_eq_ceil N L hL1, Nat.cast_lt, gt_iff_lt, Nat.one_lt_cast,
      natCast_eq_finite]
  · rw [List.length_map]
    exact hlen
  · intro h25 h10 h3
    subst h25 h10 h3
    rw [List.length_map, hlen, nat_ceil_div 25 10 (by norm_num)]
    decide

set_option maxRecDepth 1000000 in
/-- C15, at 25 stored posts with `page=3` and `limit=10`. -/
theorem posts_page_counts_witness :
    ∃ views : List PostView,
      getPosts sampleEngine manyPostsDb none
            { emptyQuery with page := some "3".toList, limit := some "10".toList }
          = .reply {
              status := 200, success := true, message := none,
              data := some (.posts views),
              pagination := some {
                page := (3 : Nat), limit := (10 : Nat), total := 25,
                totalPages := ((⌈((25 : Nat) : ℚ) / (10 : Nat)⌉₊ : Nat) : Int),
                hasNext := some (decide (3 < ⌈((25 : Nat) : ℚ) / (10 : Nat)⌉₊)),
                hasPrev := some (decide (3 > 1)) } }
        ∧ views.length = min 10 (25 - (3 - 1) * 10)
        ∧ (25 = 25 → 10 = 10 → 3 = 3 →
            views.length = 5 ∧ ⌈((25 : Nat) : ℚ) / (10 : Nat)⌉₊ = 3
              ∧ decide (3 < ⌈((25 : Nat) : ℚ) / (10 : Nat)⌉₊) = false
              ∧ decide (3 > 1) = true) :=
  posts_page_counts sampleEngine manyPostsDb none
    { emptyQuery with page := some "3".toList, limit := some "10".toList }
    (fun _ => true) 3 10 25 rfl (by decide) (by decide) (by decide) (by decide) (by decide)

/-! ## Page and limit: lemmas -/

theorem digitValue_digitChar {d : Nat} (h : d < 10) :
    digitValue 10 (Nat.digitChar d) = some d := by
  interval_cases d <;> decide

theorem parseDigits_digits (l : List Nat) (h : ∀ d ∈ l, d < 10) :
    ∀ acc : Option Nat, parseDigits 10 (l.map Nat.digitChar) acc
      = if l = [] then acc else some (l.foldl (fun a d => a * 10 + d) (acc.getD 0)) := by
  induction l with
  | nil => intro acc; rfl
  | cons d ds ih =>
    intro acc
    have hd := h d (List.mem_cons_self _ _)
    simp only [List.map_cons, parseDigits, digitValue_digitChar hd, List.foldl_cons]
    rw [ih (fun x hx => h x (List.mem_cons_of_mem _ hx))]
    by_cases hds : ds = []
    · simp [hds]
    · simp [hds]

theorem foldr_eq_ofDigits (l : List Nat) :
    l.foldr (fun d a => a * 10 + d) 0 = Nat.ofDigits 10 l := by
  induction l with
  | nil => rfl
  | cons d ds ih =>
    simp only [List.foldr_cons, Nat.ofDigits_cons, ih]
    ring

theorem parseDigits_natToStr (n : Nat) : parseDigits 10 (natToStr n) none = some n := by
  rw [natToStr_eq]
  split
  · rename_i h
    subst h
    decide
  · rename_i h
    rw [← List.map_reverse, parseDigits_digits]
    · have hne : (Nat.digits 10 n).reverse ≠ [] := by
        simpa [Nat.digits_ne_nil_iff_ne_zero] using h
      rw [if_neg hne, List.foldl_reverse]
      simp only [Option.getD_none]
      rw [foldr_eq_ofDigits, Nat.ofDigits_digits]
    · intro d hd
      exact Nat.digits_lt_base (by norm_num) (List.mem_reverse.mp hd)

theorem roundToDouble_small {n : Nat} (h : n < 2 ^ 53) : roundToDouble n = some n := by
  unfold roundToDouble
  rw [if_pos h]

theorem toDouble_small (negative : Bool) {n : Nat} (h : n < 2 ^ 53) :
    toDouble negative n = .finite (if negative then -(n : Int) else (n : Int)) := by
  unfold toDouble
  rw [roundToDouble_small h]

/-- With enough fuel, the number of dropped bits leaves a significand of 53 bits. -/
theorem dropBits_spec :
    ∀ (fuel n : Nat), n < 2 ^ 53 * 2 ^ fuel →
      n / 2 ^ dropBits fuel n < 2 ^ 53
      ∧ (2 ^ 53 ≤ n → 2 ^ 52 ≤ n / 2 ^ dropBits fuel n ∧ 1 ≤ dropBits fuel n) := by
  intro fuel
  induction fuel with
  | zero =>
    intro n hn
    simp only [dropBits, pow_zero, Nat.div_one, mul_one] at hn ⊢
    exact ⟨hn, fun h => absurd hn (by omega)⟩
  | succ fuel ih =>
    intro n hn
    unfold dropBits
    by_cases hsmall : n < 2 ^ 53
    · rw [if_pos hsmall]
      simp only [pow_zero, Nat.div_one]
      exact ⟨hsmall, fun h => absurd hsmall (by omega)⟩
    · rw [if_neg hsmall]
      have hhalf : n / 2 < 2 ^ 53 * 2 ^ fuel := by
        rw [pow_succ] at hn
        omega
      obtain ⟨h1, h2⟩ := ih (n / 2) hhalf
      have hdiv : n / 2 ^ (dropBits fuel (n / 2) + 1) = n / 2 / 2 ^ dropBits fuel (n / 2) := by
        rw [pow_succ, Nat.mul_comm, Nat.div_div_eq_div_mul]
      rw [hdiv]
      refine ⟨h1, fun _ => ⟨?_, by omega⟩⟩
      by_cases hbig : 2 ^ 53 ≤ n / 2
      · exact (h2 hbig).1
      · have hzero : dropBits fuel (n / 2) = 0 := by
          cases fuel with
          | zero => rfl
          | succ f =>
            unfold dropBits
            rw [if_pos (by omega)]
        rw [hzero]
        simp only [pow_zero, Nat.div_one]
        omega

/-- A number from `2^53` on is rounded to a double from `2^53` on, or to `Infinity`. -/
theorem roundToDouble_large {n m : Nat} (h : 2 ^ 53 ≤ n) (hm : roundToDouble n = some m) :
    2 ^ 53 ≤ m := by
  have hfuel : n < 2 ^ 53 * 2 ^ n :=
    lt_of_lt_of_le (Nat.lt_two_pow n) (Nat.le_mul_of_pos_left _ (by positivity))
  obtain ⟨_, h2⟩ := dropBits_spec n n hfuel
  obtain ⟨hq, he⟩ := h2 h
  unfold roundToDouble at hm
  rw [if_neg (by omega)] at hm
  simp only [] at hm
  split_ifs at hm with hr hfin
  all_goals
    cases hm
    calc 2 ^ 53 = 2 ^ 52 * 2 ^ 1 := by norm_num
      _ ≤ _ := Nat.mul_le_mul (by omega) (Nat.pow_le_pow_right (by norm_num) he)

/-- The first character of the decimal digits of a number is a digit, and their text has no
radix prefix. -/
theorem natToStr_head (n : Nat) :
    ∃ c rest, natToStr n = c :: rest ∧ isWhitespace c = false ∧ c ≠ '-' ∧ c ≠ '+'
      ∧ readRadix (c :: rest) = (10, c :: rest) := by
  obtain ⟨c, rest, hc⟩ := List.exists_cons_of_ne_nil (natToStr_ne_nil n)
  have hmem : ∀ x ∈ natToStr n, 48 ≤ x.toNat ∧ x.toNat ≤ 57 := fun x hx => mem_natToStr hx
  rw [hc] at hmem
  have hcd := hmem c (List.mem_cons_self _ _)
  have hws : isWhitespace c = false := by
    simp only [isWhitespace, Bool.or_eq_false_iff, beq_eq_false_iff_ne, ne_eq,
      Bool.and_eq_false_imp, decide_eq_true_eq, decide_eq_false_iff_not]
    refine ⟨⟨⟨⟨⟨⟨⟨⟨⟨⟨⟨⟨⟨⟨?_, ?_⟩, ?_⟩, ?_⟩, ?_⟩, ?_⟩, ?_⟩, ?_⟩, ?_⟩, ?_⟩, ?_⟩, ?_⟩, ?_⟩, ?_⟩, ?_⟩ <;>
      first
        | omega
        | (rintro rfl; revert hcd; decide)
  have hminus : c ≠ '-' := by rintro rfl; revert hcd; decide
  have hplus : c ≠ '+' := by rintro rfl; revert hcd; decide
  have hx : ∀ r, rest ≠ 'x' :: r := by
    rintro r rfl
    have := hmem 'x' (by simp)
    revert this
    decide
  have hX : ∀ r, rest ≠ 'X' :: r := by
    rintro r rfl
    have := hmem 'X' (by simp)
    revert this
    decide
  have hradix : readRadix (c :: rest) = (10, c :: rest) := by
    unfold readRadix
    split
    · rename_i r hr
      exact absurd (List.cons.inj hr).2 (hx r)
    · rename_i r hr
      exact absurd (List.cons.inj hr).2 (hX r)
    · rfl
  exact ⟨c, rest, hc, hws, hminus, hplus, hradix⟩

/-- A parameter written as the decimal digits of `n` parses to the double that holds `n`. -/
theorem parseInt_natToStr (n : Nat) : parseInt (some (natToStr n)) = toDouble false n := by
  have hdig := parseDigits_natToStr n
  obtain ⟨c, rest, hc, hws, hminus, hplus, hradix⟩ := natToStr_head n
  rw [hc] at hdig
  have hsign : readSign (c :: rest) = (false, c :: rest) := by
    unfold readSign
    split
    · rename_i r hr
      exact absurd (List.cons.inj hr).1 hminus
    · rename_i r hr
      exact absurd (List.cons.inj hr).1 hplus
    · rfl
  rw [hc]
  unfold parseInt
  simp only [List.dropWhile_cons, hws, Bool.false_eq_true, if_false, hsign, hradix, hdig]

/-- A parameter written as `-` and the decimal digits of `n` parses to the double that holds
`-n`. -/
theorem parseInt_neg_natToStr (n : Nat) :
    parseInt (some ('-' :: natToStr n)) = toDouble true n := by
  have hdig := parseDigits_natToStr n
  obtain ⟨c, rest, hc, _, _, _, hradix⟩ := natToStr_head n
  rw [hc] at hdig
  have hws : isWhitespace '-' = false := by decide
  rw [hc]
  unfold parseInt
  simp only [List.dropWhile_cons, hws, Bool.false_eq_true, if_false, readSign, hradix, hdig]

/-- A parameter that starts with no whitespace, sign or decimal digit parses to `NaN`. -/
theorem parseInt_not_numeric {s : Str}
    (h : ∀ c rest, s = c :: rest →
      isWhitespace c = false ∧ c ≠ '-' ∧ c ≠ '+' ∧ digitValue 10 c = none) :
    parseInt (some s) = .nan := by
  cases s with
  | nil => rfl
  | cons c rest =>
    obtain ⟨hws, hminus, hplus, hdigit⟩ := h c rest rfl
    have hsign : readSign (c :: rest) = (false, c :: rest) := by
      unfold readSign
      split
      · rename_i r hr
        exact absurd (List.cons.inj hr).1 hminus
      · rename_i r hr
        exact absurd (List.cons.inj hr).1 hplus
      · rfl
    have hzero : c ≠ '0' := by
      rintro rfl
      exact absurd hdigit (by decide)
    have hradix : readRadix (c :: rest) = (10, c :: rest) := by
      unfold readRadix
      split
      · rename_i r hr
        exact absurd (List.cons.inj hr).1 hzero
      · rename_i r hr
        exact absurd (List.cons.inj hr).1 hzero
      · rfl
    unfold parseInt
    simp only [List.dropWhile_cons, hws, Bool.false_eq_true, if_false, hsign, hradix,
      parseDigits, hdigit]

/-- The value of `parseInt(v) || fallback` in the three cases of the result of `parseInt`. -/
theorem parseIntOr_cases (v : Option Str) (fallback : Int) (hf : fallback ≠ 0) :
    (parseInt v = .nan ∨ parseInt v = .finite 0 → parseIntOr v fallback = .finite fallback)
      ∧ (∀ n : Int, parseInt v = .finite n → n ≠ 0 → parseIntOr v fallback = .finite n)
      ∧ (∀ negative, parseInt v = .infinite negative →
          parseIntOr v fallback = .infinite negative)
      ∧ parseIntOr v fallback ≠ .finite 0 ∧ parseIntOr v fallback ≠ .nan := by
  unfold parseIntOr
  cases h : parseInt v with
  | nan => simp [hf]
  | finite n =>
    by_cases hn : n = 0
    · simp [hn, hf]
    · simp [hn]
  | infinite negative => simp

/-- The double that holds a positive integer is not zero and not `NaN`, so that
`parseInt(v) || fallback` is `parseInt(v)`. -/
theorem parseIntOr_of_toDouble (w : Option Str) (fallback : Int) (negative : Bool) {n : Nat}
    (hn : 0 < n) (hw : parseInt w = toDouble negative n) :
    parseIntOr w fallback = toDouble negative n := by
  unfold parseIntOr
  rw [hw]
  unfold toDouble
  cases hr : roundToDouble n with
  | none => rfl
  | some m =>
    have hm : 0 < m := by
      by_cases hsmall : n < 2 ^ 53
      · rw [roundToDouble_small hsmall] at hr
        cases hr
        exact hn
      · have := roundToDouble_large (by omega) hr
        have h53 : 0 < 2 ^ 53 := by norm_num
        omega
    have hne : (if negative = true then -(m : Int) else (m : Int)) ≠ 0 := by
      cases negative <;> simp <;> omega
    simp only [hne, if_false]

/-! ## Page and limit: claims -/

set_option maxRecDepth 100000 in
/-- C16 (counterexample): the parameter `page=-3` gives the effective page -3 and, with the
default limit, the skip -40, which the database refuses. -/
theorem negative_page_is_kept :
    pageOf (some "-3".toList) = .finite (-3)
      ∧ skipNumber (pageOf (some "-3".toList)) (limitOf none) = .finite (-40)
      ∧ getPosts sampleEngine manyPostsDb none { emptyQuery with page := some "-3".toList }
          = .forward .badValue
      ∧ getComments manyPostsDb 1 (some "-3".toList) none = .forward .badValue := by
  decide

set_option maxRecDepth 100000 in
/-- C16 (amended): a page or limit parameter that is absent, starts with no number, or is zero
gives the effective page 1 and the effective limit 10 (so do `-0`, `000`, the empty text, `-`
and `0x`). Any other parameter gives the integer it parses to (`12` for ` +12abc`, `2` for
`2.9`, `1` for `1e3`, `31` for `0x1F`) as the double that holds it: exactly that integer below `2^53`, so that a positive
parameter gives a page `≥ 1` and a negative one a negative page, the nearest double from
`2^53` on (`9007199254740993` gives `9007199254740992`), and an infinity beyond the doubles.
The effective page and limit are never 0 nor `NaN`; `skip = (page - 1) * limit` is `≥ 0`, and
not refused by the database, whenever the page is `≥ 1` and the limit is not negative, and is
negative, which the database refuses, for a page `≤ 0` and a positive limit. -/
theorem effective_page_and_limit (v : Option Str) :
    (pageOf none = 1 ∧ limitOf none = 10)
      ∧ (∀ s : Str, (∀ c rest, s = c :: rest →
            isWhitespace c = false ∧ c ≠ '-' ∧ c ≠ '+' ∧ digitValue 10 c = none) →
          pageOf (some s) = 1 ∧ limitOf (some s) = 10)
      ∧ (pageOf (some (natToStr 0)) = 1 ∧ limitOf (some (natToStr 0)) = 10
          ∧ pageOf (some "-0".toList) = 1 ∧ limitOf (some "000".toList) = 10
          ∧ pageOf (some "".toList) = 1 ∧ pageOf (some "-".toList) = 1
          ∧ pageOf (some " +12abc".toList) = 12 ∧ limitOf (some "2.9".toList) = 2
          ∧ limitOf (some "1e3".toList) = 1 ∧ pageOf (some "0x1F".toList) = 31
          ∧ pageOf (some "0x".toList) = 1)
      ∧ (∀ n : Nat, 0 < n → n < 2 ^ 53 →
          pageOf (some (natToStr n)) = n ∧ limitOf (some (natToStr n)) = n
          ∧ pageOf (some ('-' :: natToStr n)) = .finite (-(n : Int))
          ∧ limitOf (some ('-' :: natToStr n)) = .finite (-(n : Int)))
      ∧ (∀ n : Nat, 0 < n →
          pageOf (some (natToStr n)) = toDouble false n
          ∧ limitOf (some (natToStr n)) = toDouble false n
          ∧ pageOf (some ('-' :: natToStr n)) = toDouble true n
          ∧ limitOf (some ('-' :: natToStr n)) = toDouble true n)
      ∧ pageOf (some "9007199254740993".toList) = .finite 9007199254740992
      ∧ (parseInt v = .nan ∨ parseInt v = .finite 0 → pageOf v = 1 ∧ limitOf v = 10)
      ∧ (∀ n : Int, parseInt v = .finite n → n ≠ 0 →
          pageOf v = .finite n ∧ limitOf v = .finite n)
      ∧ (∀ negative, parseInt v = .infinite negative →
          pageOf v = .infinite negative ∧ limitOf v = .infinite negative)
      ∧ (pageOf v ≠ .finite 0 ∧ pageOf v ≠ .nan ∧ limitOf v ≠ .finite 0 ∧ limitOf v ≠ .nan)
      ∧ (∀ (page limit : Int) (l : List Post), 1 ≤ page → 0 ≤ limit →
          0 ≤ (page - 1) * limit
          ∧ readPage l (skipNumber (.finite page) (.finite limit)) (.finite limit) ≠ none
          ∧ ((page - 1) * limit < 2 ^ 53 →
              skipNumber (.finite page) (.finite limit) = .finite ((page - 1) * limit)))
      ∧ (∀ (page limit : Int) (l : List Post), page ≤ 0 → 0 < limit →
          (page - 1) * limit < 0
          ∧ readPage l (skipNumber (.finite page) (.finite limit)) (.finite limit) = none) := by
  obtain ⟨p1, p2, p3, p4, p5⟩ := parseIntOr_cases v 1 (by decide)
  obtain ⟨l1, l2, l3, l4, l5⟩ := parseIntOr_cases v 10 (by decide)
  have hpos : ∀ n : Nat, 0 < n →
      pageOf (some (natToStr n)) = toDouble false n
      ∧ limitOf (some (natToStr n)) = toDouble false n
      ∧ pageOf (some ('-' :: natToStr n)) = toDouble true n
      ∧ limitOf (some ('-' :: natToStr n)) = toDouble true n := fun n hn =>
    ⟨parseIntOr_of_toDouble _ 1 false hn (parseInt_natToStr n),
      parseIntOr_of_toDouble _ 10 false hn (parseInt_natToStr n),
      parseIntOr_of_toDouble _ 1 true hn (parseInt_neg_natToStr n),
      parseIntOr_of_toDouble _ 10 true hn (parseInt_neg_natToStr n)⟩
  refine ⟨⟨rfl, rfl⟩, ?_, by decide, ?_, hpos, by decide, fun h => ⟨p1 h, l1 h⟩,
    fun n h hn => ⟨p2 n h hn, l2 n h hn⟩, fun negative h => ⟨p3 negative h, l3 negative h⟩,
    ⟨p4, p5, l4, l5⟩, ?_, ?_⟩
  · intro s hs
    have hnan := parseInt_not_numeric hs
    exact ⟨(parseIntOr_cases (some s) 1 (by decide)).1 (Or.inl hnan),
      (parseIntOr_cases (some s) 10 (by decide)).1 (Or.inl hnan)⟩
  · intro n hn hsmall
    obtain ⟨h1, h2, h3, h4⟩ := hpos n hn
    rw [toDouble_small false hsmall] at h1 h2
    rw [toDouble_small true hsmall] at h3 h4
    exact ⟨h1, h2, h3, h4⟩
  · intro page limit l hp hl
    have hnn : 0 ≤ (page - 1) * limit := Int.mul_nonneg (by omega) hl
    refine ⟨hnn, ?_, fun _ => rfl⟩
    simp only [skipNumber, skipOf, readPage, not_lt.mpr hnn, if_false, ne_eq,
      not_false_eq_true, reduceCtorEq]
  · intro page limit l hp hl
    have hneg : (page - 1) * limit < 0 := Int.mul_neg_of_neg_of_pos (by omega) hl
    refine ⟨hneg, ?_⟩
    simp only [skipNumber, skipOf, readPage, hneg, if_true]

set_option maxRecDepth 100000 in
/-- C16 (amended), at the parameters `abc`, `7`, `-7` and `-2` with the limit 5. -/
theorem effective_page_and_limit_witness :
    (pageOf (some "abc".toList) = 1 ∧ limitOf (some "abc".toList) = 10)
      ∧ (pageOf (some (natToStr 7)) = (7 : Nat) ∧ limitOf (some (natToStr 7)) = (7 : Nat)
          ∧ pageOf (some ('-' :: natToStr 7)) = .finite (-((7 : Nat) : Int))
          ∧ limitOf (some ('-' :: natToStr 7)) = .finite (-((7 : Nat) : Int)))
      ∧ (pageOf (some "7".toList) = .finite 7 ∧ limitOf (some "7".toList) = .finite 7)
      ∧ ((-2 - 1) * 5 < (0 : Int)
          ∧ readPage manyPostsDb.posts (skipNumber (.finite (-2)) (.finite 5)) (.finite 5)
            = none) :=
  ⟨(effective_page_and_limit none).2.1 "abc".toList (by
      intro c rest h
      cases h
      decide),
    (effective_page_and_limit none).2.2.2.1 7 (by decide) (by norm_num),
    (effective_page_and_limit (some "7".toList)).2.2.2.2.2.2.2.1 7 (by decide) (by decide),
    (effective_page_and_limit none).2.2.2.2.2.2.2.2.2.2.2 (-2) 5 manyPostsDb.posts (by decide)
      (by decide)⟩

/-! ## Filters: claims -/

set_option maxRecDepth 100000 in
/-- C17 (counterexample): no user is named `nobody`, and `GET /posts?author=nobody` returns
the post of `ann`. -/
theorem unknown_author_is_not_filtered :
    findUserByUsername toggleDb.users "nobody".toList = none
      ∧ getPosts sampleEngine toggleDb none { emptyQuery with author := some "nobody".toList }
        = .reply {
            status := 200, success := true, message := none,
            data := some (.posts [postView toggleDb none (samplePost 1 "Foo" "foo" "text")]),
            pagination := some {
              page := 1, limit := 10, total := 1, totalPages := 1,
              hasNext := some false, hasPrev := some false } } := by
  decide

/-- C17 (amended): `GET /posts` is refused for a rejected pattern or a negative skip, and
otherwise every returned post satisfies all the filters at once: its status is the requested
one (`published` when absent), it carries the requested tag, lower-cased and trimmed as the
schema casts it, when one is given, and it is authored by the user whose username is the
requested name, trimmed, when an author is given and names a stored user. -/
theorem returned_posts_satisfy_filters (E : QueryEngine) (db : Db) (reqUser : Option User)
    (q : PostsQuery) :
    getPosts E db reqUser q = .forward .invalidRegex
      ∨ getPosts E db reqUser q = .forward .badValue
      ∨ ∃ (views : List PostView) (pagination : Pagination),
          getPosts E db reqUser q
            = .reply { status := 200, success := true, message := none,
                       data := some (.posts views), pagination := some pagination }
          ∧ ∀ v ∈ views,
              v.post ∈ db.posts
              ∧ statusName v.post.status = q.status.getD "published".toList
              ∧ (∀ tag, q.tag = some tag → tag ≠ [] → trim (E.lower tag) ∈ v.post.tags)
              ∧ (∀ name user, q.author = some name → name ≠ [] →
                    db.users.find? (fun u => u.username == trim name) = some user →
                    v.post.author = user._id) := by
  cases hm : searchMatcher E q with
  | none =>
    left
    unfold getPosts
    simp only [hm]
  | some matcher =>
    right
    unfold getPosts
    simp only [hm]
    split
    · exact Or.inl rfl
    · rename_i posts hread
      right
      refine ⟨_, _, rfl, ?_⟩
      intro v hv
      obtain ⟨p, hp, rfl⟩ := List.mem_map.mp hv
      have hmem := ((sortPostsBy_perm E _ _).mem_iff).mp (mem_readPage hread hp)
      obtain ⟨h1, h2⟩ := List.mem_filter.mp hmem
      simp only [postsFilter, Bool.and_eq_true, beq_iff_eq] at h2
      obtain ⟨⟨⟨hs, -⟩, ht⟩, ha⟩ := h2
      refine ⟨h1, hs, ?_, ?_⟩
      · intro tag htag hne
        have : truthy q.tag = some tag := by
          simp [truthy, htag, Option.filter, hne]
        rw [this] at ht
        simpa [castTag] using ht
      · intro name user hname hne hfind
        have : truthy q.author = some name := by
          simp [truthy, hname, Option.filter, hne]
        rw [this] at ha
        simp only [Option.some_bind, findUserByUsername, hfind] at ha
        simpa [postView] using ha

set_option maxRecDepth 100000 in
/-- C17 (amended), at a request for the posts of ` ann ` tagged `LEAN`, which returns the post
of `ann` tagged `lean`. -/
theorem returned_posts_satisfy_filters_witness :
    getPosts sampleEngine taggedDb none shoutedQuery
        = .reply { status := 200, success := true, message := none,
                   data := some (.posts [postView taggedDb none
                     { samplePost 1 "Foo" "foo" "text" with tags := ["lean".toList] }]),
                   pagination := some {
                     page := 1, limit := 10, total := 1, totalPages := 1,
                     hasNext := some false, hasPrev := some false } }
      ∧ (getPosts sampleEngine taggedDb none shoutedQuery = .forward .invalidRegex
        ∨ getPosts sampleEngine taggedDb none shoutedQuery = .forward .badValue
        ∨ ∃ (views : List PostView) (pagination : Pagination),
          getPosts sampleEngine taggedDb none shoutedQuery
            = .reply { status := 200, success := true, message := none,
                       data := some (.posts views), pagination := some pagination }
          ∧ ∀ v ∈ views,
              v.post ∈ taggedDb.posts
              ∧ statusName v.post.status = shoutedQuery.status.getD "published".toList
              ∧ (∀ tag, shoutedQuery.tag = some tag → tag ≠ [] →
                    trim (sampleEngine.lower tag) ∈ v.post.tags)
              ∧ (∀ name user, shoutedQuery.author = some name → name ≠ [] →
                    taggedDb.users.find? (fun u => u.username == trim name) = some user →
                    v.post.author = user._id)) :=
  ⟨by decide, returned_posts_satisfy_filters sampleEngine taggedDb none shoutedQuery⟩

/-! ## Follow: lemmas -/

theorem findUserById_replaceUser_ne {users : List User} {id : ObjectId} {u' : User}
    (hid : u'._id ≠ id) :
    findUserById (replaceUser users u') id = findUserById users id := by
  unfold findUserById replaceUser
  induction users with
  | nil => rfl
  | cons q qs ih =>
    simp only [List.map_cons, List.find?_cons]
    by_cases hq : q._id = u'._id
    · have h1 : (u'._id == id) = false := by simpa using hid
      have h2 : (q._id == id) = false := by rw [hq]; exact h1
      simp only [hq, beq_self_eq_true, if_true, h1, h2]
      exact ih
    · have hq' : (q._id == u'._id) = false := by simpa using hq
      simp only [hq', Bool.false_eq_true, if_false]
      cases (q._id == id)
      · exact ih
      · rfl

theorem followedBy_id (a : User) (id : ObjectId) : (followedBy a id)._id = a._id := by
  unfold followedBy
  split <;> rfl

theorem followedUser_id (a b : User) : (followedUser a b)._id = b._id := by
  unfold followedUser
  split <;> rfl

theorem mem_followedBy (a : User) (id : ObjectId) :
    id ∈ (followedBy a id).following ↔ id ∉ a.following := by
  unfold followedBy
  by_cases h : id ∈ a.following
  · simp [h]
  · simp [h]

theorem mem_followedUser (a b : User) :
    a._id ∈ (followedUser a b).followers ↔ b._id ∉ a.following := by
  unfold followedUser
  by_cases h : b._id ∈ a.following
  · simp [h]
  · simp [h]

/-- What `POST /users/:id/follow` does for two stored users. -/
theorem followUser_of_found {db : Db} (reqUser : User) {id : ObjectId} {a b : User}
    (ha : findUserById db.users reqUser._id = some a) (hb : findUserById db.users id = some b)
    (hne : id ≠ reqUser._id) :
    followUser db reqUser id
        = ({ db with users :=
              replaceUser (replaceUser db.users (followedBy a id)) (followedUser a b) },
            success 200 (if a.following.contains id then "User unfollowed" else "User followed")
              (.followState (!a.following.contains id) (followedUser a b).followers.length))
      ∧ findUserById (followUser db reqUser id).1.users reqUser._id = some (followedBy a id)
      ∧ findUserById (followUser db reqUser id).1.users id = some (followedUser a b) := by
  have hbid := findUserById_id hb
  have haid := findUserById_id ha
  subst hbid
  have hgate : (b._id == reqUser._id) = false := by simpa using hne
  have heq : followUser db reqUser b._id
      = ({ db with users :=
            replaceUser (replaceUser db.users (followedBy a b._id)) (followedUser a b) },
          success 200
            (if a.following.contains b._id then "User unfollowed" else "User followed")
            (.followState (!a.following.contains b._id)
              (followedUser a b).followers.length)) := by
    unfold followUser followedBy followedUser
    simp only [hb, hgate, Bool.false_eq_true, if_false, ha]
  refine ⟨heq, ?_, ?_⟩
  · rw [heq]
    simp only []
    rw [findUserById_replaceUser_ne (by rw [followedUser_id]; exact hne)]
    exact findUserById_replaceUser ha (by rw [followedBy_id]; exact haid)
  · rw [heq]
    simp only []
    apply findUserById_replaceUser (u := b)
    · rw [findUserById_replaceUser_ne (by rw [followedBy_id, haid]; exact fun h => hne h.symm)]
      exact hb
    · rw [followedUser_id]

/-! ## Follow: claims -/

/-- C18: when A calls `POST /users/B/follow` for another stored user B, afterwards B is in
A's `following` exactly when A is in B's `followers`; if before neither edge was there, both
are there after the first call and neither after the second. -/
theorem follow_toggle_is_symmetric (db : Db) (reqUser : User) (id : ObjectId) (a b : User)
    (ha : findUserById db.users reqUser._id = some a) (hb : findUserById db.users id = some b)
    (hne : id ≠ reqUser._id) :
    ∃ a1 b1,
      findUserById (followUser db reqUser id).1.users reqUser._id = some a1
        ∧ findUserById (followUser db reqUser id).1.users id = some b1
        ∧ (id ∈ a1.following ↔ reqUser._id ∈ b1.followers)
        ∧ (id ∉ a.following → reqUser._id ∉ b.followers →
            id ∈ a1.following ∧ reqUser._id ∈ b1.followers
              ∧ ∃ a2 b2,
                  findUserById (followUser (followUser db reqUser id).1 reqUser id).1.users
                      reqUser._id = some a2
                    ∧ findUserById (followUser (followUser db reqUser id).1 reqUser id).1.users
                      id = some b2
                    ∧ id ∉ a2.following ∧ reqUser._id ∉ b2.followers) := by
  have hbid := findUserById_id hb
  have haid := findUserById_id ha
  obtain ⟨-, f1, g1⟩ := followUser_of_found reqUser ha hb hne
  obtain ⟨-, f2, g2⟩ := followUser_of_found reqUser f1 g1 hne
  have m1 := mem_followedBy a id
  have m2 := mem_followedUser a b
  rw [hbid, haid] at m2
  refine ⟨_, _, f1, g1, ?_, ?_⟩
  · rw [m1, m2]
  · intro hna _
    refine ⟨m1.mpr hna, m2.mpr hna, _, _, f2, g2, ?_, ?_⟩
    · rw [mem_followedBy]
      exact not_not.mpr (m1.mpr hna)
    · have m3 := mem_followedUser (followedBy a id) (followedUser a b)
      rw [followedBy_id, followedUser_id, hbid, haid] at m3
      rw [m3]
      exact not_not.mpr (m1.mpr hna)

set_option maxRecDepth 100000 in
/-- C18, at `ann` following `bob`. -/
theorem follow_toggle_is_symmetric_witness :
    ∃ a1 b1,
      findUserById (followUser toggleDb (sampleUser 1 "ann") 2).1.users (sampleUser 1 "ann")._id
          = some a1
        ∧ findUserById (followUser toggleDb (sampleUser 1 "ann") 2).1.users 2 = some b1
        ∧ (2 ∈ a1.following ↔ (sampleUser 1 "ann")._id ∈ b1.followers)
        ∧ (2 ∉ (sampleUser 1 "ann").following →
            (sampleUser 1 "ann")._id ∉ (sampleUser 2 "bob").followers →
            2 ∈ a1.following ∧ (sampleUser 1 "ann")._id ∈ b1.followers
              ∧ ∃ a2 b2,
                  findUserById (followUser (followUser toggleDb (sampleUser 1 "ann") 2).1
                      (sampleUser 1 "ann") 2).1.users (sampleUser 1 "ann")._id = some a2
                    ∧ findUserById (followUser (followUser toggleDb (sampleUser 1 "ann") 2).1
                      (sampleUser 1 "ann") 2).1.users 2 = some b2
                    ∧ 2 ∉ a2.following ∧ (sampleUser 1 "ann")._id ∉ b2.followers) :=
  follow_toggle_is_symmetric toggleDb (sampleUser 1 "ann") 2 (sampleUser 1 "ann")
    (sampleUser 2 "bob") (by decide) (by decide) (by decide)

/-! ## Deleting a post: lemmas -/

theorem post_eq_of_id_eq {posts : List Post} (h : IdsDistinct posts)
    {a b : Post} (ha : a ∈ posts) (hb : b ∈ posts) (hid : a._id = b._id) : a = b := by
  unfold IdsDistinct at h
  induction posts with
  | nil => simp at ha
  | cons x xs ih =>
    rw [List.pairwise_cons] at h
    rcases List.mem_cons.mp ha with rfl | ha'
    · rcases List.mem_cons.mp hb with rfl | hb'
      · rfl
      · exact absurd hid (h.1 b hb')
    · rcases List.mem_cons.mp hb with rfl | hb'
      · exact absurd hid.symm (h.1 a ha')
      · exact ih h.2 ha' hb'

theorem pullBookmark_eq (u : User) (id : ObjectId) :
    (if u.bookmarks.contains id then
        { u with bookmarks := u.bookmarks.filter (fun b => b != id) }
      else u)
      = { u with bookmarks := u.bookmarks.filter (fun b => b != id) } := by
  split
  · rfl
  · rename_i h
    have hself : u.bookmarks.filter (fun b => b != id) = u.bookmarks := by
      rw [List.filter_eq_self]
      intro b hb
      have : b ≠ id := fun hcon => h (by simpa [hcon] using hb)
      simpa using this
    rw [hself]

/-- What the two delete handlers do on a stored post when the requester may delete it. -/
theorem deletePost_of_found {db : Db} (reqUser : User) {id : ObjectId} {post : Post}
    (hp : findPostById db.posts id = some post)
    (hauth : post.author = reqUser._id ∨ reqUser.role = Role.admin) :
    deletePost db reqUser id
        = ({ posts := db.posts.filter (fun q => q._id != id)
             comments := db.comments.filter (fun c => c.post != id)
             users := db.users.map (fun u =>
               { u with bookmarks := u.bookmarks.filter (fun b => b != id) }) },
            successNoData 200 "Post deleted successfully")
      ∧ adminDeletePost db id = deletePost db reqUser id := by
  have hid := findPostById_id hp
  have hgate : (post.author != reqUser._id && reqUser.role != Role.admin) = false := by
    rcases hauth with h | h <;> simp [h]
  have hcascade : deletePostCascade db post
      = { posts := db.posts.filter (fun q => q._id != id)
          comments := db.comments.filter (fun c => c.post != id)
          users := db.users.map (fun u =>
            { u with bookmarks := u.bookmarks.filter (fun b => b != id) }) } := by
    unfold deletePostCascade
    rw [hid]
    congr 1
    apply List.map_congr_left
    intro u _
    exact pullBookmark_eq u id
  constructor
  · unfold deletePost
    simp only [hp, hgate, Bool.false_eq_true, if_false, hcascade]
  · unfold adminDeletePost deletePost
    simp only [hp, hgate, Bool.false_eq_true, if_false]

/-! ## Deleting a post: claims -/

/-- C19: after an authorised `DELETE /posts/:id`, or the admin variant, the post is absent,
no stored comment is on it and no user has it bookmarked; the other posts, the comments on
other posts and the other bookmarks are unchanged. -/
theorem delete_post_cascades (db : Db) (reqUser : User) (id : ObjectId) (post : Post)
    (hp : findPostById db.posts id = some post)
    (hauth : post.author = reqUser._id ∨ reqUser.role = Role.admin)
    (hids : IdsDistinct db.posts) :
    (deletePost db reqUser id).2 = successNoData 200 "Post deleted successfully"
      ∧ adminDeletePost db id = deletePost db reqUser id
      ∧ findPostById (deletePost db reqUser id).1.posts id = none
      ∧ (∀ c ∈ (deletePost db reqUser id).1.comments, c.post ≠ id)
      ∧ (∀ u ∈ (deletePost db reqUser id).1.users, id ∉ u.bookmarks)
      ∧ (deletePost db reqUser id).1.posts.Sublist db.posts
      ∧ (∀ q, q ∈ (deletePost db reqUser id).1.posts ↔ q ∈ db.posts ∧ q ≠ post)
      ∧ (deletePost db reqUser id).1.comments.Sublist db.comments
      ∧ (∀ c, c ∈ (deletePost db reqUser id).1.comments ↔ c ∈ db.comments ∧ c.post ≠ id)
      ∧ (deletePost db reqUser id).1.users
          = db.users.map (fun u =>
              { u with bookmarks := u.bookmarks.filter (fun b => b != id) })
      ∧ (∀ (u : User) (b : ObjectId), b ≠ id →
          (b ∈ u.bookmarks.filter (fun b => b != id) ↔ b ∈ u.bookmarks)) := by
  have hid := findPostById_id hp
  have hmem : post ∈ db.posts := List.mem_of_find?_eq_some hp
  obtain ⟨h1, h2⟩ := deletePost_of_found reqUser hp hauth
  rw [h1]
  refine ⟨rfl, h2.trans h1, ?_, ?_, ?_, List.filter_sublist _, ?_, List.filter_sublist _, ?_,
    rfl, ?_⟩
  · unfold findPostById
    rw [List.find?_eq_none]
    intro q hq
    have := (List.mem_filter.mp hq).2
    simpa using this
  · intro c hc
    have := (List.mem_filter.mp hc).2
    simpa using this
  · intro u hu
    obtain ⟨u0, -, rfl⟩ := List.mem_map.mp hu
    simp
  · intro q
    simp only [List.mem_filter, bne_iff_ne, ne_eq]
    constructor
    · rintro ⟨hq, hqid⟩
      exact ⟨hq, fun h => hqid (by rw [h, hid])⟩
    · rintro ⟨hq, hqp⟩
      exact ⟨hq, fun h => hqp (post_eq_of_id_eq hids hq hmem (by rw [h, hid]))⟩
  · intro c
    simp [List.mem_filter]
  · intro u b hb
    simp [List.mem_filter, hb]

set_option maxRecDepth 100000 in
/-- C19, at the deletion of post 1 by its author. -/
theorem delete_post_cascades_witness :
    (deletePost bookmarkedDb (sampleUser 1 "ann") 1).2
        = successNoData 200 "Post deleted successfully"
      ∧ adminDeletePost bookmarkedDb 1 = deletePost bookmarkedDb (sampleUser 1 "ann") 1
      ∧ findPostById (deletePost bookmarkedDb (sampleUser 1 "ann") 1).1.posts 1 = none
      ∧ (∀ c ∈ (deletePost bookmarkedDb (sampleUser 1 "ann") 1).1.comments, c.post ≠ 1)
      ∧ (∀ u ∈ (deletePost bookmarkedDb (sampleUser 1 "ann") 1).1.users, 1 ∉ u.bookmarks)
      ∧ (deletePost bookmarkedDb (sampleUser 1 "ann") 1).1.posts.Sublist bookmarkedDb.posts
      ∧ (∀ q, q ∈ (deletePost bookmarkedDb (sampleUser 1 "ann") 1).1.posts
          ↔ q ∈ bookmarkedDb.posts ∧ q ≠ samplePost 1 "Foo" "foo" "text")
      ∧ (deletePost bookmarkedDb (sampleUser 1 "ann") 1).1.comments.Sublist
          bookmarkedDb.comments
      ∧ (∀ c, c ∈ (deletePost bookmarkedDb (sampleUser 1 "ann") 1).1.comments
          ↔ c ∈ bookmarkedDb.comments ∧ c.post ≠ 1)
      ∧ (deletePost bookmarkedDb (sampleUser 1 "ann") 1).1.users
          = bookmarkedDb.users.map (fun u =>
              { u with bookmarks := u.bookmarks.filter (fun b => b != 1) })
      ∧ (∀ (u : User) (b : ObjectId), b ≠ 1 →
          (b ∈ u.bookmarks.filter (fun b => b != 1) ↔ b ∈ u.bookmarks)) :=
  delete_post_cascades bookmarkedDb (sampleUser 1 "ann") 1 (samplePost 1 "Foo" "foo" "text")
    (by decide) (Or.inl (by decide)) (by decide)

/-! ## Ownership: lemmas -/

theorem findByIdAndUpdate_of_found {posts : List Post} {id : ObjectId} {post : Post}
    (body : PostBody) (hp : findPostById posts id = some post) :
    (∃ e, findByIdAndUpdate posts id body = .error e)
      ∨ ∃ posts' p, findByIdAndUpdate posts id body = .ok (posts', some p) := by
  unfold findByIdAndUpdate
  simp only [hp]
  split
  · exact Or.inl ⟨_, rfl⟩
  · split
    · exact Or.inl ⟨_, rfl⟩
    · split
      · exact Or.inl ⟨_, rfl⟩
      · exact Or.inr ⟨_, _, rfl⟩

/-! ## Ownership: claims -/

set_option maxRecDepth 100000 in
/-- C20 (counterexample): an admin who is not the author of the comment 4 is answered 403 by
`PUT /comments/4`. -/
theorem admin_cannot_update_comment :
    updateComment threadDb { sampleUser 2 "bob" with role := Role.admin } 4
        (sampleCommentBody "edited" 1 none) 9
      = (threadDb, failure 403 "Not authorized to update this comment") := by
  decide

/-- C20 (amended): for requests that pass the validation middleware of their route, each of
`PUT /posts/:id`, `DELETE /posts/:id`, `PUT /comments/:id` and `DELETE /comments/:id` answers
404 and leaves the store unchanged on a missing entity; on a stored entity it is carried out
for the author, and for an admin on the first, second and fourth route, and otherwise
answers 403 and leaves the store unchanged; `PUT /comments/:id` by an admin who is not the
author is answered 403. -/
theorem ownership_is_enforced (db : Db) (reqUser : User) (pid cid : ObjectId)
    (pbody vpbody : PostBody) (cbody vcbody : CommentBody) (now : Nat)
    (hvp : validatePost pbody = some vpbody) (hvc : validateComment cbody = some vcbody) :
    (findPostById db.posts pid = none →
        updatePost db reqUser pid pbody = (db, failure 404 "Post not found")
          ∧ deletePost db reqUser pid = (db, failure 404 "Post not found"))
      ∧ (findCommentById db.comments cid = none →
        updateComment db reqUser cid cbody now = (db, failure 404 "Comment not found")
          ∧ deleteComment db reqUser cid = (db, failure 404 "Comment not found"))
      ∧ (∀ post, findPostById db.posts pid = some post →
          post.author ≠ reqUser._id → reqUser.role ≠ Role.admin →
          updatePost db reqUser pid pbody
              = (db, failure 403 "Not authorized to update this post")
            ∧ deletePost db reqUser pid
              = (db, failure 403 "Not authorized to delete this post"))
      ∧ (∀ comment, findCommentById db.comments cid = some comment →
          comment.author ≠ reqUser._id →
          updateComment db reqUser cid cbody now
              = (db, failure 403 "Not authorized to update this comment")
            ∧ (reqUser.role ≠ Role.admin →
                deleteComment db reqUser cid
                  = (db, failure 403 "Not authorized to delete this comment")))
      ∧ (∀ post, findPostById db.posts pid = some post →
          post.author = reqUser._id ∨ reqUser.role = Role.admin →
          deletePost db reqUser pid
              = (deletePostCascade db post, successNoData 200 "Post deleted successfully")
            ∧ ((∃ e, findByIdAndUpdate db.posts pid vpbody = .error e
                  ∧ updatePost db reqUser pid pbody = (db, .forward e))
                ∨ ∃ posts' p, findByIdAndUpdate db.posts pid vpbody = .ok (posts', some p)
                  ∧ updatePost db reqUser pid pbody
                    = ({ db with posts := posts' },
                        success 200 "Post updated successfully" (.post p))))
      ∧ (∀ comment, findCommentById db.comments cid = some comment →
          comment.author = reqUser._id ∨ reqUser.role = Role.admin →
          deleteComment db reqUser cid
            = ({ db with comments := deleteCommentCascade db.comments comment },
                successNoData 200 "Comment deleted successfully"))
      ∧ (∀ comment, findCommentById db.comments cid = some comment →
          comment.author = reqUser._id →
          updateComment db reqUser cid cbody now
            = if validateCommentDoc (editedComment comment (vcbody.content.getD []) now) then
                ({ db with
                    comments := replaceComment db.comments
                      (editedComment comment (vcbody.content.getD []) now) },
                  success 200 "Comment updated successfully"
                    (.comment (editedComment comment (vcbody.content.getD []) now)))
              else (db, .forward .validation)) := by
  refine ⟨?_, ?_, ?_, ?_, ?_, ?_, ?_⟩
  · intro h
    constructor
    · unfold updatePost
      simp only [hvp, h]
    · unfold deletePost
      simp only [h]
  · intro h
    constructor
    · unfold updateComment
      simp only [hvc, h]
    · unfold deleteComment
      simp only [h]
  · intro post h ha hr
    have hgate : (post.author != reqUser._id && reqUser.role != Role.admin) = true := by
      simp [ha, hr]
    constructor
    · unfold updatePost
      simp only [hvp, h, hgate, if_true]
    · unfold deletePost
      simp only [h, hgate, if_true]
  · intro comment h ha
    constructor
    · have hgate : (comment.author != reqUser._id) = true := by simpa using ha
      unfold updateComment
      simp only [hvc, h, hgate, if_true]
    · intro hr
      have hgate : (comment.author != reqUser._id && reqUser.role != Role.admin) = true := by
        simp [ha, hr]
      unfold deleteComment
      simp only [h, hgate, if_true]
  · intro post h hauth
    have hgate : (post.author != reqUser._id && reqUser.role != Role.admin) = false := by
      rcases hauth with h' | h' <;> simp [h']
    constructor
    · unfold deletePost
      simp only [h, hgate, Bool.false_eq_true, if_false]
    · rcases findByIdAndUpdate_of_found vpbody h with ⟨e, he⟩ | ⟨posts', p, hok⟩
      · left
        refine ⟨e, he, ?_⟩
        unfold updatePost
        simp only [hvp, h, hgate, Bool.false_eq_true, if_false, he]
      · right
        refine ⟨posts', p, hok, ?_⟩
        unfold updatePost
        simp only [hvp, h, hgate, Bool.false_eq_true, if_false, hok]
  · intro comment h hauth
    have hgate : (comment.author != reqUser._id && reqUser.role != Role.admin) = false := by
      rcases hauth with h' | h' <;> simp [h']
    unfold deleteComment
    simp only [h, hgate, Bool.false_eq_true, if_false]
  · intro comment h ha
    have hgate : (comment.author != reqUser._id) = false := by simpa using ha
    unfold updateComment
    simp only [hvc, h, hgate, Bool.false_eq_true, if_false]
    split <;> simp_all

set_option maxRecDepth 100000 in
/-- C20 (amended), at the post 1 and the comment 4 of `ann` and a request of `ann`. -/
theorem ownership_is_enforced_witness :
    ∃ vpbody vcbody,
      validatePost (sampleBody " Bar " "text") = some vpbody
        ∧ validateComment (sampleCommentBody " edited " 1 none) = some vcbody
        ∧ updateComment threadDb (sampleUser 1 "ann") 4 (sampleCommentBody " edited " 1 none) 9
          = (if validateCommentDoc
                (editedComment (sampleComment 4 1 "top") (vcbody.content.getD []) 9) then
              ({ threadDb with
                  comments := replaceComment threadDb.comments
                    (editedComment (sampleComment 4 1 "top") (vcbody.content.getD []) 9) },
                success 200 "Comment updated successfully"
                  (.comment (editedComment (sampleComment 4 1 "top") (vcbody.content.getD []) 9)))
            else (threadDb, .forward .validation)) :=
  ⟨sampleBody "Bar" "text", sampleCommentBody "edited" 1 none, by decide, by decide,
    (ownership_is_enforced threadDb (sampleUser 1 "ann") 1 4 (sampleBody " Bar " "text")
      (sampleBody "Bar" "text") (sampleCommentBody " edited " 1 none)
      (sampleCommentBody "edited" 1 none) 9 (by decide) (by decide)).2.2.2.2.2.2
      (sampleComment 4 1 "top") (by decide) (by decide)⟩

/-! ## Reading a post: lemmas -/

theorem findPostBySlug_mem {E : QueryEngine} {posts : List Post} {slug : Str} {p : Post}
    (h : findPostBySlug E posts slug = some p) : p ∈ posts ∧ p.slug = E.lower slug := by
  unfold findPostBySlug at h
  refine ⟨List.mem_of_find?_eq_some h, ?_⟩
  have := List.find?_some h
  simpa using this

theorem findPostBySlug_eq_none {E : QueryEngine} {posts : List Post} {slug : Str}
    (h : ∀ q ∈ posts, q.slug ≠ E.lower slug) : findPostBySlug E posts slug = none := by
  unfold findPostBySlug
  rw [List.find?_eq_none]
  intro q hq
  simpa using h q hq

/-- In a store with distinct slugs, the query by slug finds the post that has the slug. -/
theorem findPostBySlug_of_mem {E : QueryEngine} {posts : List Post} {slug : Str} {p : Post}
    (hd : SlugsDistinct posts) (hp : p ∈ posts) (hs : p.slug = E.lower slug) :
    findPostBySlug E posts slug = some p := by
  unfold findPostBySlug
  unfold SlugsDistinct at hd
  induction posts with
  | nil => cases hp
  | cons x xs ih =>
    rw [List.pairwise_cons] at hd
    rw [List.find?_cons]
    rcases List.mem_cons.mp hp with rfl | hp'
    · simp [hs]
    · have hne : x.slug ≠ E.lower slug := by
        rw [← hs]
        exact hd.1 p hp'
      have hx : (x.slug == E.lower slug) = false := by simpa using hne
      rw [hx]
      exact ih hd.2 hp'

theorem findPostById_isSome_of_mem {posts : List Post} {p : Post} (h : p ∈ posts) :
    ∃ p0, findPostById posts p._id = some p0 := by
  unfold findPostById
  cases hf : posts.find? (fun q => q._id == p._id) with
  | some p0 => exact ⟨p0, rfl⟩
  | none =>
    rw [List.find?_eq_none] at hf
    have := hf p h
    simp at this

theorem mem_replacePost_of_ne {posts : List Post} {p q : Post} (hq : q ∈ posts)
    (hne : q._id ≠ p._id) : q ∈ replacePost posts p := by
  unfold replacePost
  rw [List.mem_map]
  refine ⟨q, hq, ?_⟩
  have : (q._id == p._id) = false := by simpa using hne
  simp [this]

/-- The answer of `GET /posts/:slug` when the query finds the post `post`. -/
theorem getPostBySlug_of_found (T : SlugifyTables) (E : QueryEngine) (db : Db)
    (reqUser : Option User) (slug : Str) (post : Post)
    (h : findPostBySlug E db.posts slug = some post) :
    getPostBySlug T E db reqUser slug
      = ({ db with posts := replacePost db.posts { post with views := post.views + 1 } },
          .reply { status := 200, success := true, message := none,
                   data := some (.postDetail
                     (postView db reqUser { post with views := post.views + 1 })) })
    ∧ findPostById (replacePost db.posts { post with views := post.views + 1 }) post._id
        = some { post with views := post.views + 1 } := by
  obtain ⟨hmem, _⟩ := findPostBySlug_mem h
  obtain ⟨p0, hp0⟩ := findPostById_isSome_of_mem hmem
  constructor
  · unfold getPostBySlug
    rw [h]
    simp only [savePost_noneModified T { post with views := post.views + 1 } hp0 rfl]
  · exact findPostById_replacePost hp0 rfl

/-! ## Reading a post: claims -/

/-- C21: `GET /posts/:slug` looks for the post whose slug is the requested one, lower-cased as
the schema casts it. When no post has it, the answer is 404 and nothing changes. When a post
has it (in a store with distinct slugs, the post that has it), the handler writes that post
back with `views` increased by exactly 1 and with the same slug, reading time, title, content,
likes and likedBy, the save recomputing nothing, and it leaves every other post, the comments
and the users as they were. -/
theorem get_post_counts_one_view (T : SlugifyTables) (E : QueryEngine) (db : Db)
    (reqUser : Option User) (slug : Str) :
    ((∀ q ∈ db.posts, q.slug ≠ E.lower slug) →
      getPostBySlug T E db reqUser slug = (db, failure 404 "Post not found")) ∧
    (∀ post, (db.posts.find? (fun q => q.slug == E.lower slug) = some post
        ∨ (SlugsDistinct db.posts ∧ post ∈ db.posts ∧ post.slug = E.lower slug)) →
      ∃ stored : Post,
        getPostBySlug T E db reqUser slug
          = ({ posts := replacePost db.posts stored, comments := db.comments,
               users := db.users },
              .reply { status := 200, success := true, message := none,
                       data := some (.postDetail (postView db reqUser stored)) })
        ∧ findPostById (replacePost db.posts stored) post._id = some stored
        ∧ stored._id = post._id
        ∧ stored.views = post.views + 1
        ∧ stored.slug = post.slug ∧ stored.readingTime = post.readingTime
        ∧ stored.title = post.title ∧ stored.content = post.content
        ∧ stored.likes = post.likes ∧ stored.likedBy = post.likedBy
        ∧ ∀ q ∈ db.posts, q._id ≠ post._id → q ∈ replacePost db.posts stored) := by
  constructor
  · intro h
    unfold getPostBySlug
    rw [findPostBySlug_eq_none h]
  · intro post h
    have hfound : findPostBySlug E db.posts slug = some post := by
      rcases h with h | ⟨hd, hp, hs⟩
      · exact h
      · exact findPostBySlug_of_mem hd hp hs
    obtain ⟨h1, h2⟩ := getPostBySlug_of_found T E db reqUser slug post hfound
    refine ⟨{ post with views := post.views + 1 }, h1, h2, rfl, rfl, rfl, rfl, rfl, rfl, rfl,
      rfl, ?_⟩
    intro q hq hne
    exact mem_replacePost_of_ne hq hne

set_option maxRecDepth 100000 in
/-- C21, at a store of two posts: an unknown slug, and the slug of the second post, requested
in capitals. -/
theorem get_post_counts_one_view_witness :
    ((∀ q ∈ twoPostsDb.posts, q.slug ≠ sampleEngine.lower "nothing".toList)
      ∧ getPostBySlug sampleTables sampleEngine twoPostsDb none "nothing".toList
          = (twoPostsDb, failure 404 "Post not found")) ∧
    (getPostBySlug sampleTables sampleEngine twoPostsDb none "BAR".toList
        = ({ twoPostsDb with posts :=
              [samplePost 1 "Foo" "foo" "text", { samplePost 2 "Bar" "bar" "text" with views := 1 }] },
            .reply { status := 200, success := true, message := none,
                     data := some (.postDetail (postView twoPostsDb none
                       { samplePost 2 "Bar" "bar" "text" with views := 1 })) })
      ∧ ∃ stored : Post,
        getPostBySlug sampleTables sampleEngine twoPostsDb none "BAR".toList
          = ({ posts := replacePost twoPostsDb.posts stored, comments := twoPostsDb.comments,
               users := twoPostsDb.users },
              .reply { status := 200, success := true, message := none,
                       data := some (.postDetail (postView twoPostsDb none stored)) })
        ∧ findPostById (replacePost twoPostsDb.posts stored) (samplePost 2 "Bar" "bar" "text")._id
            = some stored
        ∧ stored._id = (samplePost 2 "Bar" "bar" "text")._id
        ∧ stored.views = (samplePost 2 "Bar" "bar" "text").views + 1
        ∧ stored.slug = (samplePost 2 "Bar" "bar" "text").slug
        ∧ stored.readingTime = (samplePost 2 "Bar" "bar" "text").readingTime
        ∧ stored.title = (samplePost 2 "Bar" "bar" "text").title
        ∧ stored.content = (samplePost 2 "Bar" "bar" "text").content
        ∧ stored.likes = (samplePost 2 "Bar" "bar" "text").likes
        ∧ stored.likedBy = (samplePost 2 "Bar" "bar" "text").likedBy
        ∧ ∀ q ∈ twoPostsDb.posts, q._id ≠ (samplePost 2 "Bar" "bar" "text")._id →
            q ∈ replacePost twoPostsDb.posts stored) :=
  ⟨⟨by decide,
      (get_post_counts_one_view sampleTables sampleEngine twoPostsDb none "nothing".toList).1
        (by decide)⟩,
    by decide,
    (get_post_counts_one_view sampleTables sampleEngine twoPostsDb none "BAR".toList).2 _
      (Or.inr ⟨by decide, by decide, by decide⟩)⟩

/-! ## Administration of users: lemmas -/

theorem findUserById_mem {users : List User} {id : ObjectId} {u : User}
    (h : findUserById users id = some u) : u ∈ users ∧ u._id = id := by
  unfold findUserById at h
  refine ⟨List.mem_of_find?_eq_some h, ?_⟩
  have := List.find?_some h
  simpa using this

theorem adminDeleteUser_of_found {db : Db} {id : ObjectId} {user : User}
    (h : findUserById db.users id = some user) :
    adminDeleteUser db id
      = if user.role == Role.admin && adminCount db.users ≤ 1 then
          (db, failure 400 "Cannot delete the last admin user")
        else (deleteUserCascade db user, successNoData 200 "User deleted successfully") := by
  unfold adminDeleteUser
  rw [h]

theorem adminCount_pos_iff {users : List User} :
    0 < adminCount users ↔ ∃ u ∈ users, u.role = Role.admin := by
  unfold adminCount
  rw [List.length_pos_iff_exists_mem]
  constructor
  · rintro ⟨u, hu⟩
    rw [List.mem_filter] at hu
    exact ⟨u, hu.1, by simpa using hu.2⟩
  · rintro ⟨u, hu, hr⟩
    exact ⟨u, List.mem_filter.mpr ⟨hu, by simpa using hr⟩⟩

/-- Two administrators with the same id are the same document. -/
theorem user_eq_of_id_eq {users : List User} (h : UserIdsDistinct users)
    {a b : User} (ha : a ∈ users) (hb : b ∈ users) (hid : a._id = b._id) : a = b := by
  unfold UserIdsDistinct at h
  induction users with
  | nil => cases ha
  | cons x xs ih =>
    rw [List.pairwise_cons] at h
    rcases List.mem_cons.mp ha with rfl | ha'
    · rcases List.mem_cons.mp hb with rfl | hb'
      · rfl
      · exact absurd hid (h.1 b hb')
    · rcases List.mem_cons.mp hb with rfl | hb'
      · exact absurd hid.symm (h.1 a ha')
      · exact ih h.2 ha' hb'

theorem length_le_one_of_all_eq {α : Type} {l : List α} (hn : l.Nodup) (a : α)
    (h : ∀ x ∈ l, x = a) : l.length ≤ 1 := by
  match l, hn, h with
  | [], _, _ => simp
  | [_], _, _ => simp
  | x :: y :: t, hn, h =>
    have hx := h x (by simp)
    have hy := h y (by simp)
    rw [List.nodup_cons] at hn
    exact absurd (by rw [hx, hy]; simp) hn.1

theorem nodup_of_userIdsDistinct {users : List User} (h : UserIdsDistinct users) :
    users.Nodup := by
  unfold UserIdsDistinct at h
  exact h.imp (fun hab heq => hab (by rw [heq]))

/-- When the store holds two administrators or more, one of them is not the user `user`. -/
theorem exists_other_admin {users : List User} (hd : UserIdsDistinct users) (user : User)
    (h : 1 < adminCount users) : ∃ u ∈ users, u.role = Role.admin ∧ u ≠ user := by
  unfold adminCount at h
  by_contra hno
  push_neg at hno
  have hall : ∀ u ∈ users.filter (fun u => u.role == Role.admin), u = user := by
    intro u hu
    rw [List.mem_filter] at hu
    exact hno u hu.1 (by simpa using hu.2)
  have := length_le_one_of_all_eq ((nodup_of_userIdsDistinct hd).filter _) user hall
  omega

/-- The handler `DELETE /admin/users/:id` leaves an administrator in a store that has one. -/
theorem adminDeleteUser_keeps_an_admin (db : Db) (id : ObjectId)
    (hd : UserIdsDistinct db.users) (h : 0 < adminCount db.users) :
    0 < adminCount (adminDeleteUser db id).1.users := by
  cases hf : findUserById db.users id with
  | none =>
    unfold adminDeleteUser
    rw [hf]
    exact h
  | some user =>
    rw [adminDeleteUser_of_found hf]
    obtain ⟨hmem, _⟩ := findUserById_mem hf
    by_cases hg : (user.role == Role.admin && decide (adminCount db.users ≤ 1)) = true
    · rw [if_pos hg]
      exact h
    · rw [if_neg hg]
      rw [adminCount_pos_iff]
      have hother : ∃ u ∈ db.users, u.role = Role.admin ∧ u ≠ user := by
        by_cases hr : user.role = Role.admin
        · apply exists_other_admin hd user
          simp only [hr, beq_self_eq_true, Bool.true_and, decide_eq_true_eq] at hg
          omega
        · obtain ⟨u, hu, hur⟩ := adminCount_pos_iff.mp h
          exact ⟨u, hu, hur, fun heq => hr (heq ▸ hur)⟩
      obtain ⟨u, hu, hur, hne⟩ := hother
      refine ⟨u, ?_, hur⟩
      simp only [deleteUserCascade, List.mem_filter, bne_iff_ne, ne_eq]
      exact ⟨hu, fun hid => hne (user_eq_of_id_eq hd hu hmem hid)⟩

/-! ## Administration of users: claims -/

/-- C23: `DELETE /admin/users/:id` on a stored user who is an administrator, when the store
holds at most one administrator, answers 400 and leaves users, posts and comments unchanged;
on any other stored user it removes the user together with every post and every comment whose
author is that user, and nothing else. -/
theorem admin_delete_user_guarded (db : Db) (id : ObjectId) (user : User)
    (h : findUserById db.users id = some user) :
    (user.role = Role.admin ∧ adminCount db.users ≤ 1 →
      adminDeleteUser db id = (db, failure 400 "Cannot delete the last admin user")) ∧
    (¬ (user.role = Role.admin ∧ adminCount db.users ≤ 1) →
      ∃ db' : Db,
        adminDeleteUser db id = (db', successNoData 200 "User deleted successfully")
        ∧ (∀ u, u ∈ db'.users ↔ u ∈ db.users ∧ u._id ≠ id)
        ∧ (∀ p, p ∈ db'.posts ↔ p ∈ db.posts ∧ p.author ≠ id)
        ∧ (∀ c, c ∈ db'.comments ↔ c ∈ db.comments ∧ c.author ≠ id)) := by
  obtain ⟨_, hid⟩ := findUserById_mem h
  rw [adminDeleteUser_of_found h]
  constructor
  · rintro ⟨hr, hc⟩
    rw [if_pos (by simp [hr, hc])]
  · intro hg
    have hg' : ¬ (user.role == Role.admin && decide (adminCount db.users ≤ 1)) = true := by
      simpa using hg
    rw [if_neg hg']
    refine ⟨deleteUserCascade db user, rfl, ?_, ?_, ?_⟩
    · intro u
      simp [deleteUserCascade, hid]
    · intro p
      simp [deleteUserCascade, hid]
    · intro c
      simp [deleteUserCascade, hid]

set_option maxRecDepth 100000 in
/-- C23, at the only administrator of a store, and at one of two administrators. -/
theorem admin_delete_user_guarded_witness :
    (findUserById oneAdminDb.users 1 = some (sampleAdmin 1 "root")
      ∧ ((sampleAdmin 1 "root").role = Role.admin ∧ adminCount oneAdminDb.users ≤ 1)
      ∧ adminDeleteUser oneAdminDb 1
          = (oneAdminDb, failure 400 "Cannot delete the last admin user")) ∧
    (findUserById twoAdminsDb.users 1 = some (sampleAdmin 1 "root")
      ∧ ¬ ((sampleAdmin 1 "root").role = Role.admin ∧ adminCount twoAdminsDb.users ≤ 1)
      ∧ ∃ db' : Db,
        adminDeleteUser twoAdminsDb 1 = (db', successNoData 200 "User deleted successfully")
        ∧ (∀ u, u ∈ db'.users ↔ u ∈ twoAdminsDb.users ∧ u._id ≠ 1)
        ∧ (∀ p, p ∈ db'.posts ↔ p ∈ twoAdminsDb.posts ∧ p.author ≠ 1)
        ∧ (∀ c, c ∈ db'.comments ↔ c ∈ twoAdminsDb.comments ∧ c.author ≠ 1)) :=
  ⟨⟨by decide, by decide,
      (admin_delete_user_guarded oneAdminDb 1 (sampleAdmin 1 "root") (by decide)).1
        (by decide)⟩,
    by decide, by decide,
      (admin_delete_user_guarded twoAdminsDb 1 (sampleAdmin 1 "root") (by decide)).2
        (by decide)⟩

set_option maxRecDepth 100000 in
/-- C30: in a store whose only administrator is the user 1, `PUT /admin/users/1/role` with the
role `user` answers 200 and leaves no administrator. -/
theorem role_update_demotes_last_admin :
    adminCount oneAdminDb.users = 1
    ∧ adminUpdateRole oneAdminDb 1 (some "user".toList)
        = ({ oneAdminDb with users := [sampleUser 1 "root", sampleUser 2 "bob"] },
            success 200 "User role updated successfully" (.user (sampleUser 1 "root")))
    ∧ adminCount (adminUpdateRole oneAdminDb 1 (some "user".toList)).1.users = 0 := by
  decide

/-! ## The users router: lemmas -/

theorem matchPattern_single_lit {s : Str} {path : List Str}
    (h : matchPattern [.lit s] path = true) :
    ∃ segment, path = [segment] ∧ toLowerCase s = toLowerCase segment := by
  match path, h with
  | [], h => simp [matchPattern] at h
  | [segment], h =>
    simp only [matchPattern, Bool.and_true, beq_iff_eq] at h
    exact ⟨segment, rfl, h⟩
  | _ :: _ :: _, h => simp [matchPattern] at h

theorem dispatchUsers_get_single {segment : Str} (h : segment ≠ []) :
    dispatchUsers .get [segment] = some .profile := by
  have hm : matchPattern [.param "username".toList] [segment] = true := by
    simp [matchPattern, h]
  simp only [dispatchUsers, usersRoutes, List.find?, hm, beq_self_eq_true, Bool.and_self,
    Option.map_some']

/-- No request reaches the search handler. -/
theorem dispatchUsers_ne_search (method : Method) (path : List Str) :
    dispatchUsers method path ≠ some .search := by
  intro h
  have h0 := h
  unfold dispatchUsers at h
  rw [Option.map_eq_some'] at h
  obtain ⟨r, hfind, hhandler⟩ := h
  have hmem := List.mem_of_find?_eq_some hfind
  have hmatch := List.find?_some hfind
  simp only [usersRoutes, List.mem_cons, List.mem_singleton, List.not_mem_nil, or_false]
    at hmem
  rcases hmem with rfl | rfl | rfl | rfl | rfl | rfl
  all_goals first
    | exact absurd hhandler (by decide)
    | skip
  simp only [Bool.and_eq_true, beq_iff_eq] at hmatch
  obtain ⟨hmethod, hpat⟩ := hmatch
  obtain ⟨segment, rfl, hlow⟩ := matchPattern_single_lit hpat
  have hne : segment ≠ [] := by
    rintro rfl
    exact absurd hlow (by decide)
  rw [← hmethod, dispatchUsers_get_single hne] at h0
  exact absurd h0 (by decide)

/-! ## The users router: claims -/

set_option maxRecDepth 100000 in
/-- C26: the users router hands `GET /api/users/search` to the profile handler, registered
first with the path `/:username`, whatever the query string: the request is answered as the
profile of a user named `search`, with 404 in a store that has no such user, and no request at
all reaches the search handler. -/
theorem search_route_is_shadowed :
    dispatchUsers .get ["search".toList] = some .profile
    ∧ (∀ (method : Method) (path : List Str), dispatchUsers method path ≠ some .search)
    ∧ getUserProfile twoPostsDb "search".toList = failure 404 "User not found" :=
  ⟨by decide, dispatchUsers_ne_search, by decide⟩

/-! ## The uniqueness loop with its counters: lemmas -/

/-- The loop with its counters: it stops at the first free candidate `k`, with the counter
`k + 1`, after one query for each candidate it tried. -/
theorem uniqueSlugRun_spec (posts : List Post) (id : ObjectId) (base : Str) :
    ∀ (fuel j queries : Nat),
      (∃ k, j ≤ k ∧ k < j + fuel ∧ slugTaken posts id (candidate base k) = false) →
      ∃ k, j ≤ k ∧ k < j + fuel
        ∧ uniqueSlugRun posts id base fuel (candidate base j) (j + 1) queries
            = some (candidate base k, k + 1, queries + (k - j) + 1)
        ∧ slugTaken posts id (candidate base k) = false
        ∧ ∀ i, j ≤ i → i < k → slugTaken posts id (candidate base i) = true := by
  intro fuel
  induction fuel with
  | zero =>
    rintro j queries ⟨k, h1, h2, -⟩
    omega
  | succ fuel ih =>
    rintro j queries ⟨k, h1, h2, h3⟩
    by_cases ht : slugTaken posts id (candidate base j) = true
    · have hkj : k ≠ j := by
        rintro rfl
        rw [ht] at h3
        exact absurd h3 (by decide)
      obtain ⟨k', g1, g2, g3, g4, g5⟩ :=
        ih (j + 1) (queries + 1) ⟨k, by omega, by omega, h3⟩
      refine ⟨k', by omega, by omega, ?_, g4, ?_⟩
      · rw [uniqueSlugRun, if_pos ht]
        have hc : base ++ '-' :: natToStr (j + 1) = candidate base (j + 1) := by
          simp [candidate]
        rw [hc, g3]
        have : queries + 1 + (k' - (j + 1)) + 1 = queries + (k' - j) + 1 := by omega
        rw [this]
      · intro i hi1 hi2
        by_cases hij : i = j
        · rw [hij]; exact ht
        · exact g5 i (by omega) hi2
    · refine ⟨j, le_refl _, by omega, ?_, by simpa using ht, ?_⟩
      · rw [uniqueSlugRun, if_neg ht]
        simp
      · intro i hi1 hi2
        omega

/-- The loop with its counters ends with the slug of `uniqueSlugLoop`. -/
theorem uniqueSlugRun_slug (posts : List Post) (id : ObjectId) (base : Str) :
    ∀ (fuel : Nat) (slug : Str) (counter queries : Nat),
      (uniqueSlugRun posts id base fuel slug counter queries).map (fun r => r.1)
        = uniqueSlugLoop posts id base fuel slug counter := by
  intro fuel
  induction fuel with
  | zero => intro slug counter queries; rfl
  | succ fuel ih =>
    intro slug counter queries
    rw [uniqueSlugRun, uniqueSlugLoop]
    by_cases ht : slugTaken posts id slug = true
    · rw [if_pos ht, if_pos ht, ih]
    · rw [if_neg ht, if_neg ht]
      rfl

/-! ## The uniqueness loop: claims -/

/-- C27: on a modified title with the derived slug `b`, the hooks store `b` when no other post
has the slug `b`, and otherwise `b-k` for the least `k ≥ 1` such that no other post has the
slug `b-k`; the post being saved is left out of the check by its id, so that `b` is stored
when every stored post with the slug `b` is the post itself. -/
theorem unique_slug_least_suffix (T : SlugifyTables) (posts : List Post) (c e : Bool)
    (p : Post) :
    ∃ saved : Post,
      preSaveUniqueSlug posts ⟨true, c, e⟩ (preSaveDerive T ⟨true, c, e⟩ p) = some saved
      ∧ (slugTaken posts p._id (slugify T p.title) = false → saved.slug = slugify T p.title)
      ∧ (slugTaken posts p._id (slugify T p.title) = true →
          ∃ k, 1 ≤ k ∧ saved.slug = slugify T p.title ++ '-' :: natToStr k
            ∧ slugTaken posts p._id (slugify T p.title ++ '-' :: natToStr k) = false
            ∧ ∀ j, 1 ≤ j → j < k →
                slugTaken posts p._id (slugify T p.title ++ '-' :: natToStr j) = true)
      ∧ ((∀ q ∈ posts, q.slug = slugify T p.title → q._id = p._id) →
          saved.slug = slugify T p.title) := by
  obtain ⟨k, _, hsave, hfree, hleast, _⟩ := preSave_title_modified T posts c e p
  have hzero : slugTaken posts p._id (slugify T p.title) = false →
      (savedPost T c e p k).slug = slugify T p.title := by
    intro h0
    have hk : k = 0 := by
      by_contra hk
      have := hleast 0 (Nat.pos_of_ne_zero hk)
      rw [show candidate (slugify T p.title) 0 = slugify T p.title from rfl, h0] at this
      exact absurd this (by decide)
    rw [savedPost_slug, hk]
    rfl
  refine ⟨savedPost T c e p k, hsave, hzero, ?_, ?_⟩
  · intro h1
    have hk : k ≠ 0 := by
      rintro rfl
      rw [show candidate (slugify T p.title) 0 = slugify T p.title from rfl, h1] at hfree
      exact absurd hfree (by decide)
    have hcand : ∀ j, 1 ≤ j →
        candidate (slugify T p.title) j = slugify T p.title ++ '-' :: natToStr j := by
      intro j hj
      unfold candidate
      rw [if_neg (by omega)]
    refine ⟨k, Nat.pos_of_ne_zero hk, ?_, ?_, ?_⟩
    · rw [savedPost_slug, hcand k (Nat.pos_of_ne_zero hk)]
    · rw [← hcand k (Nat.pos_of_ne_zero hk)]
      exact hfree
    · intro j hj1 hjk
      rw [← hcand j hj1]
      exact hleast j hjk
  · intro hself
    apply hzero
    unfold slugTaken
    rw [List.any_eq_false]
    intro q hq
    by_cases hs : q.slug = slugify T p.title
    · simp [hself q hq hs]
    · simp [hs]

set_option maxRecDepth 100000 in
/-- C27, at a store of two posts with the slugs `foo` and `bar`: a new post titled `Foo` is
stored as `foo-1`, and the stored post `foo`, saved again with the title `Foo`, keeps `foo`. -/
theorem unique_slug_least_suffix_witness :
    (∃ saved : Post,
      preSaveUniqueSlug twoPostsDb.posts ⟨true, true, true⟩
          (preSaveDerive sampleTables ⟨true, true, true⟩ (samplePost 3 "Foo" "" "text"))
        = some saved
      ∧ slugTaken twoPostsDb.posts 3 "foo".toList = true
      ∧ saved.slug = "foo-1".toList) ∧
    (∃ saved : Post,
      preSaveUniqueSlug twoPostsDb.posts ⟨true, false, false⟩
          (preSaveDerive sampleTables ⟨true, false, false⟩ (samplePost 1 "Foo" "foo" "text"))
        = some saved
      ∧ (∀ q ∈ twoPostsDb.posts, q.slug = "foo".toList → q._id = 1)
      ∧ saved.slug = "foo".toList) := by
  constructor
  · obtain ⟨saved, h, _, h2, _⟩ :=
      unique_slug_least_suffix sampleTables twoPostsDb.posts true true
        (samplePost 3 "Foo" "" "text")
    obtain ⟨k, hk1, hslug, _, hleast⟩ := h2 (by decide)
    have hk : k = 1 := by
      by_contra hne
      exact absurd (hleast 1 (le_refl 1) (by omega)) (by decide)
    rw [hk] at hslug
    exact ⟨saved, h, by decide, hslug.trans (by decide)⟩
  · obtain ⟨saved, h, _, _, h3⟩ :=
      unique_slug_least_suffix sampleTables twoPostsDb.posts false false
        (samplePost 1 "Foo" "foo" "text")
    exact ⟨saved, h, by decide, h3 (by decide)⟩

/-- C28: for a collection of `n` stored posts the uniqueness loop ends, whatever the base slug
and the post being saved: it makes at most `n + 1` existence queries, the counter it reaches
is at most `n + 1`, and more fuel than `n + 1` changes nothing. -/
theorem unique_slug_loop_terminates (posts : List Post) (id : ObjectId) (base : Str) :
    ∃ (slug : Str) (counter queries : Nat),
      uniqueSlugRun posts id base (posts.length + 1) base 1 0 = some (slug, counter, queries)
      ∧ queries ≤ posts.length + 1
      ∧ 1 ≤ queries
      ∧ counter ≤ posts.length + 1
      ∧ uniqueSlug posts id base = some slug
      ∧ ∀ fuel, posts.length + 1 ≤ fuel →
          uniqueSlugRun posts id base fuel base 1 0 = some (slug, counter, queries) := by
  obtain ⟨k0, hk0, hfree0⟩ := exists_free_candidate posts id base
  obtain ⟨k, _, hk, hrun, hfree, hleast⟩ :=
    uniqueSlugRun_spec posts id base (posts.length + 1) 0 0 ⟨k0, by omega, by omega, hfree0⟩
  have hkn : k ≤ posts.length := by omega
  refine ⟨candidate base k, k + 1, 0 + (k - 0) + 1, hrun, by omega, by omega, by omega, ?_, ?_⟩
  · unfold uniqueSlug
    rw [← uniqueSlugRun_slug posts id base (posts.length + 1) base 1 0]
    exact congrArg (Option.map (fun r => r.1)) hrun
  · intro fuel hfuel
    obtain ⟨k', _, _, hrun', hfree', hleast'⟩ :=
      uniqueSlugRun_spec posts id base fuel 0 0 ⟨k0, by omega, by omega, hfree0⟩
    have hkk : k' = k := by
      rcases Nat.lt_trichotomy k' k with hlt | heq | hgt
      · have := hleast k' (Nat.zero_le _) hlt
        rw [hfree'] at this
        exact absurd this (by decide)
      · exact heq
      · have := hleast' k (Nat.zero_le _) hgt
        rw [hfree] at this
        exact absurd this (by decide)
    rw [hkk] at hrun'
    exact hrun'

/-! ## The pages of a listing: lemmas -/

theorem flatMap_windows {α : Type} (L : Nat) :
    ∀ (n : Nat) (l : List α), l.length ≤ n * L →
      (List.range n).flatMap (fun i => (l.drop (i * L)).take L) = l := by
  intro n
  induction n with
  | zero =>
    intro l hl
    have : l = [] := List.eq_nil_of_length_eq_zero (by omega)
    simp [this]
  | succ n ih =>
    intro l hl
    rw [List.range_succ_eq_map, List.flatMap_cons, List.flatMap_map]
    have hrest : (List.range n).flatMap (fun i => (l.drop ((i + 1) * L)).take L)
        = l.drop L := by
      have := ih (l.drop L) (by rw [List.length_drop]; rw [Nat.succ_mul] at hl; omega)
      rw [← this]
      congr 1
      funext i
      rw [List.drop_drop]
      congr 2
      ring
    simp only [Function.comp_def, Nat.succ_eq_add_one]
    rw [hrest]
    simp

theorem pageOf_natToStr {p : Nat} (hp : 1 ≤ p) (hsmall : p < 2 ^ 53) :
    pageOf (some (natToStr p)) = .finite (p : Int) := by
  have h := parseIntOr_of_toDouble (some (natToStr p)) 1 false hp (parseInt_natToStr p)
  rw [toDouble_small false hsmall] at h
  exact h

/-- A page number from `2^53` on is read as a double from `2^53` on, or as `Infinity`. -/
theorem pageOf_natToStr_large {p : Nat} (hlarge : 2 ^ 53 ≤ p) :
    (∃ m : Nat, 2 ^ 53 ≤ m ∧ pageOf (some (natToStr p)) = .finite (m : Int))
      ∨ pageOf (some (natToStr p)) = .infinite false := by
  have hp : 0 < p := lt_of_lt_of_le (by norm_num) hlarge
  have h := parseIntOr_of_toDouble (some (natToStr p)) 1 false hp (parseInt_natToStr p)
  unfold pageOf
  rw [h]
  unfold toDouble
  cases hr : roundToDouble p with
  | none => exact Or.inr rfl
  | some m => exact Or.inl ⟨m, roundToDouble_large hlarge hr, rfl⟩

theorem lt_ceil_iff_mul_lt (p N L : Nat) (hL : 1 ≤ L) :
    p < ⌈(N : ℚ) / L⌉₊ ↔ p * L < N := by
  rw [nat_ceil_div N L hL, Nat.lt_iff_add_one_le, Nat.le_div_iff_mul_le (by omega)]
  constructor
  · intro h
    rw [Nat.add_mul] at h
    omega
  · intro h
    rw [Nat.add_mul]
    omega

theorem ceil_le_self (N L : Nat) (hL : 1 ≤ L) : ⌈(N : ℚ) / L⌉₊ ≤ N := by
  by_contra h
  have h1 := (lt_ceil_iff_mul_lt N N L hL).mp (not_le.mp h)
  have h2 : N * 1 ≤ N * L := Nat.mul_le_mul_left N hL
  omega

theorem sortPostsBy_sorted (E : QueryEngine) (l : List Post) :
    (sortPostsBy E "-createdAt".toList l).Sorted (fun a b => b.createdAt ≤ a.createdAt) := by
  unfold sortPostsBy
  rw [if_pos rfl]
  exact List.sorted_insertionSort _ l

/-- The page `p` of a listing, for a page number below `2^53`: the window of the sorted
matches that starts after the first `(p - 1) * L` of them. -/
theorem getPosts_atPage (E : QueryEngine) (db : Db) (reqUser : Option User) (q : PostsQuery)
    (matcher : Str → Bool) (p L : Nat) (hm : searchMatcher E q = some matcher)
    (hl : limitOf q.limit = L) (hp : 1 ≤ p) (hL : 1 ≤ L) (hsmall : p < 2 ^ 53) :
    getPosts E db reqUser (atPage q p)
      = .reply {
          status := 200, success := true, message := none,
          data := some (.posts
            ((((sortPostsBy E (q.sort.getD "-createdAt".toList)
              (db.posts.filter (postsFilter E db q matcher))).drop ((p - 1) * L)).take L).map
              (postView db reqUser))),
          pagination := some {
            page := p, limit := L,
            total := (db.posts.filter (postsFilter E db q matcher)).length,
            totalPages :=
              ((⌈((db.posts.filter (postsFilter E db q matcher)).length : ℚ) / L⌉₊ : Nat) : Int),
            hasNext := some (decide
              (p * L < (db.posts.filter (postsFilter E db q matcher)).length)),
            hasPrev := some (decide (p > 1)) } } := by
  have hm' : searchMatcher E (atPage q p) = some matcher := hm
  have hpage : pageOf (atPage q p).page = .finite (p : Int) := pageOf_natToStr hp hsmall
  have hlim : limitOf (atPage q p).limit = .finite (L : Int) := hl
  have hskip : ¬ skipOf (p : Int) (L : Int) < 0 := by
    rw [skipOf_nat p L hp]
    exact not_lt.mpr (Int.natCast_nonneg _)
  rw [getPosts_of_matcher E db reqUser (atPage q p) matcher p L hm' hpage hlim hskip,
    window_nat _ p L hp, ceilDiv_eq_ceil _ L hL]
  have hfilter : postsFilter E db (atPage q p) matcher = postsFilter E db q matcher := rfl
  have hsort : (atPage q p).sort = q.sort := rfl
  rw [hfilter, hsort]
  simp only [Nat.cast_lt, gt_iff_lt, Nat.one_lt_cast, lt_ceil_iff_mul_lt _ _ L hL,
    natCast_eq_finite]

/-- A page number from `2^53` on, with fewer than `2^53` matching posts: the page is empty and
has no next page. -/
theorem getPosts_atPage_large (E : QueryEngine) (db : Db) (reqUser : Option User)
    (q : PostsQuery) (matcher : Str → Bool) (p L : Nat) (hm : searchMatcher E q = some matcher)
    (hl : limitOf q.limit = L) (hL : 1 ≤ L) (hlarge : 2 ^ 53 ≤ p)
    (hN : (db.posts.filter (postsFilter E db q matcher)).length < 2 ^ 53) :
    ∃ page : JsNumber,
      getPosts E db reqUser (atPage q p)
        = .reply {
            status := 200, success := true, message := none,
            data := some (.posts []),
            pagination := some {
              page := page, limit := L,
              total := (db.posts.filter (postsFilter E db q matcher)).length,
              totalPages :=
                ((⌈((db.posts.filter (postsFilter E db q matcher)).length : ℚ) / L⌉₊ : Nat) :
                  Int),
              hasNext := some false, hasPrev := some true } } := by
  have hm' : searchMatcher E (atPage q p) = some matcher := hm
  have hlim : limitOf (atPage q p).limit = .finite (L : Int) := hl
  have hfilter : postsFilter E db (atPage q p) matcher = postsFilter E db q matcher := rfl
  have hsort : (atPage q p).sort = q.sort := rfl
  have h53 : (2 : Nat) ^ 53 = 9007199254740992 := by norm_num
  rcases pageOf_natToStr_large hlarge with ⟨m, hm53, hpage⟩ | hpage
  · have hm1 : 1 ≤ m := by omega
    have hskip : ¬ skipOf (m : Int) (L : Int) < 0 := by
      rw [skipOf_nat m L hm1]
      exact not_lt.mpr (Int.natCast_nonneg _)
    refine ⟨.finite (m : Int), ?_⟩
    rw [getPosts_of_matcher E db reqUser (atPage q p) matcher m L hm' hpage hlim hskip,
      window_nat _ m L hm1, ceilDiv_eq_ceil _ L hL, hfilter, hsort]
    have hdrop : (sortPostsBy E (q.sort.getD "-createdAt".toList)
        (db.posts.filter (postsFilter E db q matcher))).drop ((m - 1) * L) = [] := by
      apply List.drop_eq_nil_of_le
      rw [(sortPostsBy_perm E _ _).length_eq]
      have : (m - 1) * 1 ≤ (m - 1) * L := Nat.mul_le_mul_left _ hL
      omega
    have hceil := ceil_le_self (db.posts.filter (postsFilter E db q matcher)).length L hL
    have hnext : ¬ ((m : Int)
        < ((⌈((db.posts.filter (postsFilter E db q matcher)).length : ℚ) / L⌉₊ : Nat) : Int)) := by
      rw [Nat.cast_lt]
      omega
    have hprev : (m : Int) > 1 := by
      have : 1 < m := by omega
      exact_mod_cast this
    simp only [hdrop, List.take_nil, List.map_nil, hnext, hprev, decide_False, decide_True,
      natCast_eq_finite]
  · refine ⟨.infinite false, ?_⟩
    have hpage' : pageOf (atPage q p).page = .infinite false := hpage
    have hL0 : (L : Int) ≠ 0 := by omega
    have hLneg : ¬ (L : Int) < 0 := by omega
    unfold getPosts
    simp only [hm', hpage', hlim, skipNumber, hL0, if_false, hLneg, decide_False, bne_self_eq_false,
      readPage, totalPagesOf, pageBefore, pageAfterFirst, Bool.not_false, List.map_nil,
      ceilDiv_eq_ceil _ L hL, hfilter, natCast_eq_finite]

/-! ## The pages of a listing: claims -/

/-- C29: for a fixed store, query and limit `L ≥ 1`, with `N < 2^53` matching posts, the pages
`1, ..., totalPages` of `GET /posts`, concatenated in order, are the sorted list of the
matching posts: a rearrangement of the matching posts in the order of the sort key, which for
the default key is `createdAt` descending; every page before the last has exactly `L` posts,
every page beyond `totalPages` is empty, and on every page `total = N`,
`totalPages = ceil(N/L)` and `hasNext` is true exactly when `page * L < N`. -/
theorem pages_partition_the_matches (E : QueryEngine) (db : Db) (reqUser : Option User)
    (q : PostsQuery) (matcher : Str → Bool) (L N : Nat)
    (hm : searchMatcher E q = some matcher) (hl : limitOf q.limit = L) (hL : 1 ≤ L)
    (hN : (db.posts.filter (postsFilter E db q matcher)).length = N) (hN53 : N < 2 ^ 53) :
    (List.range ⌈(N : ℚ) / L⌉₊).flatMap
        (fun i => postsOf (getPosts E db reqUser (atPage q (i + 1))))
      = (sortPostsBy E (q.sort.getD "-createdAt".toList)
          (db.posts.filter (postsFilter E db q matcher))).map (postView db reqUser)
    ∧ (sortPostsBy E (q.sort.getD "-createdAt".toList)
          (db.posts.filter (postsFilter E db q matcher))).Perm
        (db.posts.filter (postsFilter E db q matcher))
    ∧ (q.sort.getD "-createdAt".toList = "-createdAt".toList →
        (((List.range ⌈(N : ℚ) / L⌉₊).flatMap
          (fun i => postsOf (getPosts E db reqUser (atPage q (i + 1))))).map
            (fun v => v.post)).Sorted (fun a b => b.createdAt ≤ a.createdAt))
    ∧ (∀ p, 1 ≤ p → p < ⌈(N : ℚ) / L⌉₊ →
        (postsOf (getPosts E db reqUser (atPage q p))).length = L)
    ∧ (∀ p, ⌈(N : ℚ) / L⌉₊ < p → postsOf (getPosts E db reqUser (atPage q p)) = [])
    ∧ (∀ p, 1 ≤ p → ∃ pg : Pagination,
        paginationOf (getPosts E db reqUser (atPage q p)) = some pg
        ∧ pg.limit = L ∧ pg.total = N
        ∧ pg.totalPages = ((⌈(N : ℚ) / L⌉₊ : Nat) : Int)
        ∧ (pg.hasNext = some true ↔ p * L < N)
        ∧ (p < 2 ^ 53 → pg.page = p)) := by
  have hlen : (sortPostsBy E (q.sort.getD "-createdAt".toList)
      (db.posts.filter (postsFilter E db q matcher))).length = N := by
    rw [(sortPostsBy_perm E _ _).length_eq, hN]
  have hceil := ceil_le_self N L hL
  have hpage : ∀ p, 1 ≤ p → p < 2 ^ 53 → postsOf (getPosts E db reqUser (atPage q p))
      = (((sortPostsBy E (q.sort.getD "-createdAt".toList)
          (db.posts.filter (postsFilter E db q matcher))).drop ((p - 1) * L)).take L).map
          (postView db reqUser) := by
    intro p hp hsmall
    rw [getPosts_atPage E db reqUser q matcher p L hm hl hp hL hsmall]
    rfl
  have hcover : N ≤ ⌈(N : ℚ) / L⌉₊ * L := by
    by_contra hlt
    exact absurd ((lt_ceil_iff_mul_lt _ N L hL).mpr (not_le.mp hlt)) (lt_irrefl _)
  have hconcat : (List.range ⌈(N : ℚ) / L⌉₊).flatMap
        (fun i => postsOf (getPosts E db reqUser (atPage q (i + 1))))
      = (sortPostsBy E (q.sort.getD "-createdAt".toList)
          (db.posts.filter (postsFilter E db q matcher))).map (postView db reqUser) := by
    have hfun : ∀ i ∈ List.range ⌈(N : ℚ) / L⌉₊,
        postsOf (getPosts E db reqUser (atPage q (i + 1)))
        = (((sortPostsBy E (q.sort.getD "-createdAt".toList)
          (db.posts.filter (postsFilter E db q matcher))).drop (i * L)).take L).map
          (postView db reqUser) := by
      intro i hi
      have hi' := List.mem_range.mp hi
      rw [hpage (i + 1) (by omega) (by omega), Nat.add_sub_cancel]
    rw [List.flatMap_congr hfun, ← List.map_flatMap,
      flatMap_windows L _ _ (by rw [hlen]; exact hcover)]
  refine ⟨hconcat, sortPostsBy_perm E _ _, ?_, ?_, ?_, ?_⟩
  · intro hkey
    rw [hconcat, List.map_map, hkey]
    have hid : ((fun v : PostView => v.post) ∘ postView db reqUser) = id := by
      funext x
      rfl
    rw [hid, List.map_id]
    exact sortPostsBy_sorted E _
  · intro p hp1 hp
    rw [hpage p hp1 (by omega), List.length_map, List.length_take, List.length_drop, hlen]
    have h1 := (lt_ceil_iff_mul_lt p N L hL).mp hp
    have h2 : (p - 1) * L + L = p * L := by
      rw [← Nat.succ_mul]
      congr 1
      omega
    omega
  · intro p hp
    have hp1 : 1 ≤ p := by omega
    by_cases hsmall : p < 2 ^ 53
    · rw [hpage p hp1 hsmall]
      have h1 : ⌈(N : ℚ) / L⌉₊ * L ≤ (p - 1) * L := Nat.mul_le_mul_right L (by omega)
      rw [List.drop_eq_nil_of_le (by rw [hlen]; omega), List.take_nil, List.map_nil]
    · obtain ⟨page, hreply⟩ := getPosts_atPage_large E db reqUser q matcher p L hm hl hL
        (by omega) (by rw [hN]; exact hN53)
      rw [hreply]
      rfl
  · intro p hp
    by_cases hsmall : p < 2 ^ 53
    · rw [getPosts_atPage E db reqUser q matcher p L hm hl hp hL hsmall]
      refine ⟨_, rfl, rfl, hN, by simp only [hN], ?_, fun _ => rfl⟩
      simp only [hN, Option.some.injEq, decide_eq_true_eq]
    · obtain ⟨page, hreply⟩ := getPosts_atPage_large E db reqUser q matcher p L hm hl hL
        (by omega) (by rw [hN]; exact hN53)
      rw [hreply]
      refine ⟨_, rfl, rfl, hN, by simp only [hN], ?_, fun h => absurd h hsmall⟩
      have hbig : ¬ p * L < N := by
        have : p * 1 ≤ p * L := Nat.mul_le_mul_left p hL
        omega
      simp [hbig]

set_option maxRecDepth 1000000 in
/-- C29, at 25 stored posts with `limit=10`. -/
theorem pages_partition_the_matches_witness :
    (List.range ⌈((25 : Nat) : ℚ) / (10 : Nat)⌉₊).flatMap
        (fun i => postsOf (getPosts sampleEngine manyPostsDb none
          (atPage { emptyQuery with limit := some "10".toList } (i + 1))))
      = (sortPostsBy sampleEngine
          (({ emptyQuery with limit := some "10".toList } : PostsQuery).sort.getD
            "-createdAt".toList)
          (manyPostsDb.posts.filter
            (postsFilter sampleEngine manyPostsDb { emptyQuery with limit := some "10".toList }
              (fun _ => true)))).map (postView manyPostsDb none)
    ∧ (sortPostsBy sampleEngine
          (({ emptyQuery with limit := some "10".toList } : PostsQuery).sort.getD
            "-createdAt".toList)
          (manyPostsDb.posts.filter
            (postsFilter sampleEngine manyPostsDb { emptyQuery with limit := some "10".toList }
              (fun _ => true)))).Perm
        (manyPostsDb.posts.filter
          (postsFilter sampleEngine manyPostsDb { emptyQuery with limit := some "10".toList }
            (fun _ => true)))
    ∧ ((({ emptyQuery with limit := some "10".toList } : PostsQuery).sort.getD
          "-createdAt".toList = "-createdAt".toList →
        (((List.range ⌈((25 : Nat) : ℚ) / (10 : Nat)⌉₊).flatMap
          (fun i => postsOf (getPosts sampleEngine manyPostsDb none
            (atPage { emptyQuery with limit := some "10".toList } (i + 1))))).map
            (fun v => v.post)).Sorted (fun a b => b.createdAt ≤ a.createdAt)))
    ∧ (∀ p, 1 ≤ p → p < ⌈((25 : Nat) : ℚ) / (10 : Nat)⌉₊ →
        (postsOf (getPosts sampleEngine manyPostsDb none
          (atPage { emptyQuery with limit := some "10".toList } p))).length = 10)
    ∧ (∀ p, ⌈((25 : Nat) : ℚ) / (10 : Nat)⌉₊ < p →
        postsOf (getPosts sampleEngine manyPostsDb none
          (atPage { emptyQuery with limit := some "10".toList } p)) = [])
    ∧ (∀ p, 1 ≤ p → ∃ pg : Pagination,
        paginationOf (getPosts sampleEngine manyPostsDb none
          (atPage { emptyQuery with limit := some "10".toList } p)) = some pg
        ∧ pg.limit = (10 : Nat) ∧ pg.total = 25
        ∧ pg.totalPages = ((⌈((25 : Nat) : ℚ) / (10 : Nat)⌉₊ : Nat) : Int)
        ∧ (pg.hasNext = some true ↔ p * 10 < 25)
        ∧ (p < 2 ^ 53 → pg.page = p)) :=
  pages_partition_the_matches sampleEngine manyPostsDb none
    { emptyQuery with limit := some "10".toList } (fun _ => true) 10 25 rfl (by decide)
    (by decide) (by decide) (by norm_num)

/-! ## Separators in the slug: lemmas -/

theorem isWhitespace_range {c : Char} (h : isWhitespace c = true) :
    c.toNat ≤ 32 ∨ 160 ≤ c.toNat := by
  simp only [isWhitespace, Bool.or_eq_true, beq_iff_eq, Bool.and_eq_true, decide_eq_true_eq,
    or_assoc] at h
  rcases h with h | h | h | h | h | h | h | h | h | h | h | h | h | h | h
  all_goals first
    | omega
    | (subst h; decide)

theorem isWhitespace_of_alnum {c : Char} (h : isAsciiAlnum c = true) :
    isWhitespace c = false := by
  by_contra hw
  have := isWhitespace_range (by simpa using hw)
  simp only [isAsciiAlnum, Bool.or_eq_true, Bool.and_eq_true, decide_eq_true_eq] at h
  omega

theorem denylist_range {c : Char} (h : removeDenylist.contains c = true) :
    33 ≤ c.toNat ∧ c.toNat ≤ 126 ∧ isAsciiAlnum c = false := by
  simp only [removeDenylist, List.contains_eq_any_beq, List.any_cons, List.any_nil,
    Bool.or_false, Bool.or_eq_true, beq_iff_eq, or_assoc] at h
  rcases h with h | h | h | h | h | h | h | h | h | h | h
  all_goals (subst h; decide)

/-- What `strict` keeps of the text appended for a letter or a digit: the character. -/
theorem step_alnum (T : SlugifyTables) {c : Char} (h : isAsciiAlnum c = true) :
    (slugifyChar T c).filter (fun c => isAsciiAlnum c || isWhitespace c) = [c] := by
  have hd : removeDenylist.contains c = false := by
    by_contra hd
    have := (denylist_range (by simpa using hd)).2.2
    rw [h] at this
    exact absurd this (by decide)
  have hne : ([c] : Str) ≠ ['-'] := by
    intro heq
    exact isAsciiAlnum_ne_hyphen h (List.cons.inj heq).1
  simp only [slugifyChar, T.charMap_alnum c h, Option.getD_none, if_neg hne, List.filter_cons,
    List.filter_nil, hd, h, Bool.not_false, Bool.true_or, if_true]

/-- What `strict` keeps of the text appended for a separator without a character-map entry:
a space for `'-'`, the character when it is whitespace, nothing otherwise. -/
theorem step_sep (T : SlugifyTables) {c : Char} (h : isAsciiAlnum c = false)
    (hmap : T.charMap c = none) :
    (slugifyChar T c).filter (fun c => isAsciiAlnum c || isWhitespace c)
      = if c = '-' then [' '] else if isWhitespace c then [c] else [] := by
  by_cases hc : c = '-'
  · subst hc
    simp only [slugifyChar, hmap, Option.getD_none, if_true]
    decide
  · have hne : ([c] : Str) ≠ ['-'] := fun heq => hc (List.cons.inj heq).1
    simp only [slugifyChar, hmap, Option.getD_none, if_neg hne, if_neg hc]
    by_cases hw : isWhitespace c = true
    · have hd : removeDenylist.contains c = false := by
        by_contra hd
        have h1 := denylist_range (by simpa using hd)
        have h2 := isWhitespace_range hw
        omega
      simp only [List.filter_cons, List.filter_nil, hd, hw, Bool.not_false, Bool.or_true,
        if_true]
    · have hw' : isWhitespace c = false := by simpa using hw
      by_cases hd : removeDenylist.contains c = true
      · simp only [List.filter_cons, List.filter_nil, hd, hw', Bool.not_true,
          Bool.false_eq_true, if_false]
      · have hd' : removeDenylist.contains c = false := by simpa using hd
        simp only [List.filter_cons, List.filter_nil, hd', hw', h, Bool.not_false, Bool.or_false,
          Bool.false_eq_true, if_true, if_false]

theorem foldl_append_eq_flatMap {α β : Type} (f : α → List β) (l : List α) :
    ∀ init : List β, l.foldl (fun result ch => result ++ f ch) init = init ++ l.flatMap f := by
  induction l with
  | nil => intro init; simp
  | cons x xs ih =>
    intro init
    rw [List.foldl_cons, ih, List.flatMap_cons, List.append_assoc]

theorem filter_flatMap_eq {α β : Type} (f : α → List β) (p : β → Bool) (l : List α) :
    (l.flatMap f).filter p = l.flatMap (fun x => (f x).filter p) := by
  induction l with
  | nil => rfl
  | cons x xs ih => rw [List.flatMap_cons, List.filter_append, ih, List.flatMap_cons]

/-- The spaces `strict` keeps of a run of separators. -/
theorem kept_of_alnum (T : SlugifyTables) (a : Str) (h : ∀ c ∈ a, isAsciiAlnum c = true) :
    a.flatMap (fun c => (slugifyChar T c).filter (fun c => isAsciiAlnum c || isWhitespace c))
      = a := by
  induction a with
  | nil => rfl
  | cons x xs ih =>
    rw [List.flatMap_cons, step_alnum T (h x (List.mem_cons_self _ _)),
      ih (fun c hc => h c (List.mem_cons_of_mem _ hc))]
    rfl

theorem kept_of_sep (T : SlugifyTables) (sep : Str)
    (h : ∀ c ∈ sep, isAsciiAlnum c = false ∧ T.charMap c = none) :
    (∀ c ∈ sep.flatMap
        (fun c => (slugifyChar T c).filter (fun c => isAsciiAlnum c || isWhitespace c)),
      isWhitespace c = true)
    ∧ (sep.flatMap
        (fun c => (slugifyChar T c).filter (fun c => isAsciiAlnum c || isWhitespace c)) = []
        ↔ hyphenFor sep = []) := by
  induction sep with
  | nil => exact ⟨fun c hc => absurd hc (List.not_mem_nil c), by simp [hyphenFor]⟩
  | cons x xs ih =>
    obtain ⟨ih1, ih2⟩ := ih (fun c hc => h c (List.mem_cons_of_mem _ hc))
    obtain ⟨hx, hmap⟩ := h x (List.mem_cons_self _ _)
    rw [List.flatMap_cons, step_sep T hx hmap]
    by_cases hc : x = '-'
    · subst hc
      constructor
      · intro c hc
        rcases List.mem_append.mp hc with hc | hc
        · simp only [if_true, List.mem_singleton] at hc
          subst hc
          decide
        · exact ih1 c hc
      · simp [hyphenFor]
    · by_cases hw : isWhitespace x = true
      · constructor
        · intro c hc'
          rcases List.mem_append.mp hc' with hc' | hc'
          · simp only [if_neg hc, hw, if_true, List.mem_singleton] at hc'
            subst hc'
            exact hw
          · exact ih1 c hc'
        · simp [hyphenFor, hw, hc]
      · have hw' : isWhitespace x = false := by simpa using hw
        constructor
        · intro c hc'
          simp only [if_neg hc, hw', Bool.false_eq_true, if_false, List.nil_append] at hc'
          exact ih1 c hc'
        · simp only [if_neg hc, hw', Bool.false_eq_true, if_false, List.nil_append]
          rw [ih2]
          simp [hyphenFor, hw', hc]

theorem go_nonws_cons {c : Char} (h : isWhitespace c = false) (rest : Str) (inRun : Bool) :
    replaceWhitespaceRunsGo (c :: rest) inRun = c :: replaceWhitespaceRunsGo rest false := by
  simp [replaceWhitespaceRunsGo, h]

theorem go_block (a : Str) (ha : ∀ c ∈ a, isWhitespace c = false) (hne : a ≠ []) (rest : Str) :
    ∀ inRun : Bool,
      replaceWhitespaceRunsGo (a ++ rest) inRun = a ++ replaceWhitespaceRunsGo rest false := by
  induction a with
  | nil => exact absurd rfl hne
  | cons x xs ih =>
    intro inRun
    rw [List.cons_append, go_nonws_cons (ha x (List.mem_cons_self _ _))]
    by_cases hxs : xs = []
    · subst hxs
      rfl
    · rw [ih (fun c hc => ha c (List.mem_cons_of_mem _ hc)) hxs false]
      rfl

theorem go_spaces_inRun (w : Str) (hw : ∀ c ∈ w, isWhitespace c = true) (rest : Str) :
    replaceWhitespaceRunsGo (w ++ rest) true = replaceWhitespaceRunsGo rest true := by
  induction w with
  | nil => rfl
  | cons x xs ih =>
    rw [List.cons_append, replaceWhitespaceRunsGo, if_pos (hw x (List.mem_cons_self _ _)),
      if_pos rfl, ih (fun c hc => hw c (List.mem_cons_of_mem _ hc))]

theorem go_spaces (w : Str) (hw : ∀ c ∈ w, isWhitespace c = true) (hne : w ≠ []) (rest : Str) :
    replaceWhitespaceRunsGo (w ++ rest) false = '-' :: replaceWhitespaceRunsGo rest true := by
  cases w with
  | nil => exact absurd rfl hne
  | cons x xs =>
    rw [List.cons_append, replaceWhitespaceRunsGo, if_pos (hw x (List.mem_cons_self _ _)),
      if_neg (by decide), go_spaces_inRun xs (fun c hc => hw c (List.mem_cons_of_mem _ hc))]

theorem hyphenFor_cases (sep : Str) : hyphenFor sep = [] ∨ hyphenFor sep = ['-'] := by
  unfold hyphenFor
  split
  · exact Or.inr rfl
  · exact Or.inl rfl

/-- What `strict` keeps of a title made of blocks, with its whitespace runs replaced. -/
theorem go_titleOfBlocks (T : SlugifyTables) :
    ∀ (blocks : List (Str × Str)) (a : Str) (inRun : Bool),
      a ≠ [] → (∀ c ∈ a, isAsciiAlnum c = true) →
      (∀ b ∈ blocks, b.2 ≠ [] ∧ (∀ c ∈ b.2, isAsciiAlnum c = true)
        ∧ ∀ c ∈ b.1, isAsciiAlnum c = false ∧ T.charMap c = none) →
      replaceWhitespaceRunsGo ((titleOfBlocks a blocks).flatMap
          (fun c => (slugifyChar T c).filter (fun c => isAsciiAlnum c || isWhitespace c)))
          inRun
        = joinBlocks a blocks := by
  intro blocks
  induction blocks with
  | nil =>
    intro a inRun hne ha _
    have := go_block a (fun c hc => isWhitespace_of_alnum (ha c hc)) hne [] inRun
    rw [List.append_nil] at this
    rw [titleOfBlocks, kept_of_alnum T a ha, this, joinBlocks]
    simp [replaceWhitespaceRunsGo]
  | cons blk rest ih =>
    intro a inRun hne ha hblocks
    obtain ⟨sep, b⟩ := blk
    obtain ⟨hb, hbb, hsep⟩ := hblocks (sep, b) (List.mem_cons_self _ _)
    have hrest := fun x hx => hblocks x (List.mem_cons_of_mem _ hx)
    obtain ⟨hw, hnil⟩ := kept_of_sep T sep hsep
    rw [titleOfBlocks, List.flatMap_append, List.flatMap_append, kept_of_alnum T a ha,
      List.append_assoc, go_block a (fun c hc => isWhitespace_of_alnum (ha c hc)) hne, joinBlocks,
      List.append_assoc]
    congr 1
    by_cases hempty : sep.flatMap
        (fun c => (slugifyChar T c).filter (fun c => isAsciiAlnum c || isWhitespace c)) = []
    · rw [hempty, hnil.mp hempty, List.nil_append, List.nil_append, ih b false hb hbb hrest]
    · have hh : hyphenFor sep = ['-'] := by
        rcases hyphenFor_cases sep with h | h
        · exact absurd (hnil.mpr h) hempty
        · exact h
      rw [go_spaces _ hw hempty, hh, ih b true hb hbb hrest]
      rfl

theorem kept_titleOfBlocks_head (T : SlugifyTables) (blocks : List (Str × Str)) (a : Str)
    (hne : a ≠ []) (ha : ∀ c ∈ a, isAsciiAlnum c = true) :
    ((titleOfBlocks a blocks).flatMap
      (fun c => (slugifyChar T c).filter (fun c => isAsciiAlnum c || isWhitespace c))).head?
      = a.head? := by
  cases a with
  | nil => exact absurd rfl hne
  | cons x xs =>
    have hx := step_alnum T (ha x (List.mem_cons_self _ _))
    cases blocks with
    | nil => rw [titleOfBlocks, List.flatMap_cons, hx]; rfl
    | cons blk rest =>
      obtain ⟨sep, b⟩ := blk
      rw [titleOfBlocks, List.append_assoc, List.cons_append, List.flatMap_cons, hx]
      rfl

theorem kept_titleOfBlocks_getLast (T : SlugifyTables) :
    ∀ (blocks : List (Str × Str)) (a : Str),
      a ≠ [] → (∀ c ∈ a, isAsciiAlnum c = true) →
      (∀ b ∈ blocks, b.2 ≠ [] ∧ (∀ c ∈ b.2, isAsciiAlnum c = true)
        ∧ ∀ c ∈ b.1, isAsciiAlnum c = false ∧ T.charMap c = none) →
      ∃ c, ((titleOfBlocks a blocks).flatMap
          (fun c => (slugifyChar T c).filter
            (fun c => isAsciiAlnum c || isWhitespace c))).getLast? = some c
        ∧ isAsciiAlnum c = true := by
  intro blocks
  induction blocks with
  | nil =>
    intro a hne ha _
    rw [titleOfBlocks, kept_of_alnum T a ha]
    refine ⟨a.getLast hne, List.getLast?_eq_getLast _ hne, ha _ (List.getLast_mem hne)⟩
  | cons blk rest ih =>
    intro a hne ha hblocks
    obtain ⟨sep, b⟩ := blk
    obtain ⟨hb, hbb, hsep⟩ := hblocks (sep, b) (List.mem_cons_self _ _)
    obtain ⟨c, hc, hcc⟩ := ih b hb hbb (fun x hx => hblocks x (List.mem_cons_of_mem _ hx))
    refine ⟨c, ?_, hcc⟩
    rw [titleOfBlocks, List.flatMap_append, List.getLast?_append, hc]
    rfl

/-- The slug of a title made of blocks of letters and digits between runs of separators
without a character-map entry. -/
theorem slugify_titleOfBlocks (T : SlugifyTables) (a : Str) (blocks : List (Str × Str))
    (hne : a ≠ []) (ha : ∀ c ∈ a, isAsciiAlnum c = true)
    (hblocks : ∀ b ∈ blocks, b.2 ≠ [] ∧ (∀ c ∈ b.2, isAsciiAlnum c = true)
      ∧ ∀ c ∈ b.1, isAsciiAlnum c = false ∧ T.charMap c = none)
    (hn : T.normalize (titleOfBlocks a blocks) = titleOfBlocks a blocks) :
    slugify T (titleOfBlocks a blocks) = toLowerCase (joinBlocks a blocks) := by
  simp only [slugify]
  rw [hn, foldl_append_eq_flatMap, List.nil_append, filter_flatMap_eq]
  have htrim : trim ((titleOfBlocks a blocks).flatMap
      (fun c => (slugifyChar T c).filter (fun c => isAsciiAlnum c || isWhitespace c)))
      = (titleOfBlocks a blocks).flatMap
      (fun c => (slugifyChar T c).filter (fun c => isAsciiAlnum c || isWhitespace c)) := by
    unfold trim
    rw [dropWhile_of_head, dropWhile_of_head, List.reverse_reverse]
    · intro c hc
      rw [kept_titleOfBlocks_head T blocks a hne ha] at hc
      exact isWhitespace_of_alnum (ha c (List.mem_of_mem_head? hc))
    · intro c hc
      rw [dropWhile_of_head, List.head?_reverse] at hc
      · obtain ⟨c', hc', hcc⟩ := kept_titleOfBlocks_getLast T blocks a hne ha hblocks
        rw [hc'] at hc
        cases hc
        exact isWhitespace_of_alnum hcc
      · intro c hc
        rw [kept_titleOfBlocks_head T blocks a hne ha] at hc
        exact isWhitespace_of_alnum (ha c (List.mem_of_mem_head? hc))
  rw [htrim, replaceWhitespaceRuns, go_titleOfBlocks T blocks a false hne ha hblocks]

/-! ## Separators in the slug: claims -/

set_option maxRecDepth 100000 in
/-- C25 (counterexample): the titles `foo#bar` and `foo_bar` give the slug `foobar`, not
`foo-bar`. -/
theorem hash_and_underscore_are_stripped :
    slugify sampleTables "foo#bar".toList = "foobar".toList
    ∧ slugify sampleTables "foo_bar".toList = "foobar".toList
    ∧ slugify sampleTables "foo#bar".toList ≠ "foo-bar".toList := by
  decide

/-- C25 (amended): for a title made of blocks of letters and digits between runs of other
characters that have no character-map entry, the slug is the lower-cased blocks, a run between
two blocks appearing as exactly one hyphen when it holds a whitespace character or a `'-'`,
and being stripped otherwise, so for a run of `#`, `_` or denylisted punctuation only. -/
theorem separator_runs_in_slug (T : SlugifyTables) (a : Str) (blocks : List (Str × Str))
    (hne : a ≠ []) (ha : ∀ c ∈ a, isAsciiAlnum c = true)
    (hblocks : ∀ b ∈ blocks, b.2 ≠ [] ∧ (∀ c ∈ b.2, isAsciiAlnum c = true)
      ∧ ∀ c ∈ b.1, isAsciiAlnum c = false ∧ T.charMap c = none)
    (hn : T.normalize (titleOfBlocks a blocks) = titleOfBlocks a blocks) :
    slugify T (titleOfBlocks a blocks) = toLowerCase (joinBlocks a blocks)
    ∧ ∀ b ∈ blocks,
        ((∃ c ∈ b.1, isWhitespace c = true ∨ c = '-') → hyphenFor b.1 = ['-'])
        ∧ ((∀ c ∈ b.1, isWhitespace c = false ∧ c ≠ '-') → hyphenFor b.1 = []) := by
  refine ⟨slugify_titleOfBlocks T a blocks hne ha hblocks hn, ?_⟩
  intro b _
  constructor
  · rintro ⟨c, hc, hcc⟩
    unfold hyphenFor
    rw [if_pos]
    rw [List.any_eq_true]
    refine ⟨c, hc, ?_⟩
    rcases hcc with h | h
    · simp [h]
    · simp [h]
  · intro h
    unfold hyphenFor
    rw [if_neg]
    rw [List.any_eq_true]
    rintro ⟨c, hc, hcc⟩
    obtain ⟨h1, h2⟩ := h c hc
    simp [h1, h2] at hcc

set_option maxRecDepth 100000 in
/-- C25 (amended), at the title `Foo # bar_Baz!!x-y`, whose slug is `foo-barbazx-y`. -/
theorem separator_runs_in_slug_witness :
    titleOfBlocks "Foo".toList
        [(" # ".toList, "bar".toList), ("_".toList, "Baz".toList), ("!!".toList, "x".toList),
          ("-".toList, "y".toList)] = "Foo # bar_Baz!!x-y".toList
    ∧ toLowerCase (joinBlocks "Foo".toList
        [(" # ".toList, "bar".toList), ("_".toList, "Baz".toList), ("!!".toList, "x".toList),
          ("-".toList, "y".toList)]) = "foo-barbazx-y".toList
    ∧ slugify sampleTables (titleOfBlocks "Foo".toList
        [(" # ".toList, "bar".toList), ("_".toList, "Baz".toList), ("!!".toList, "x".toList),
          ("-".toList, "y".toList)])
      = toLowerCase (joinBlocks "Foo".toList
        [(" # ".toList, "bar".toList), ("_".toList, "Baz".toList), ("!!".toList, "x".toList),
          ("-".toList, "y".toList)])
    ∧ ∀ b ∈ [(" # ".toList, "bar".toList), ("_".toList, "Baz".toList),
          ("!!".toList, "x".toList), ("-".toList, "y".toList)],
        ((∃ c ∈ b.1, isWhitespace c = true ∨ c = '-') → hyphenFor b.1 = ['-'])
        ∧ ((∀ c ∈ b.1, isWhitespace c = false ∧ c ≠ '-') → hyphenFor b.1 = []) :=
  ⟨by decide, by decide,
    separator_runs_in_slug sampleTables "Foo".toList
      [(" # ".toList, "bar".toList), ("_".toList, "Baz".toList), ("!!".toList, "x".toList),
        ("-".toList, "y".toList)] (by decide) (by decide) (by decide) rfl⟩

/-! ## Blank titles and contents: lemmas -/

theorem trim_of_blank {s : Str} (h : ∀ c ∈ s, isWhitespace c = true) : trim s = [] := by
  unfold trim
  have : s.dropWhile isWhitespace = [] := by
    rw [List.dropWhile_eq_nil_iff]
    exact h
  rw [this]
  rfl

theorem validatePost_of_blank {body : PostBody} {title : Str} (htitle : body.title = some title)
    (hblank : ∀ c ∈ title, isWhitespace c = true) (hne : title ≠ [])
    (hlen : title.length ≤ 200) (hcontent : body.content.getD [] ≠ [])
    (hexcerpt : ∀ e, body.excerpt = some e → e.length ≤ 500) :
    validatePost body = some { body with title := some [] } := by
  have h1 : 1 ≤ title.length := List.length_pos.mpr hne
  have hc : (body.content.getD [] != []) = true := by simpa using hcontent
  unfold validatePost
  simp only [htitle, Option.getD_some, h1, hlen, decide_True, Bool.and_self, Bool.true_and, hc,
    trim_of_blank hblank]
  split
  · rfl
  · rename_i hfalse
    split at hfalse
    · exact absurd rfl hfalse
    · rename_i e he
      exact absurd (by simpa using hexcerpt e he) hfalse

theorem createPost_of_blank (T : SlugifyTables) (db : Db) (reqUser : User) {body : PostBody}
    (newId now : Nat) (h : validatePost body = some { body with title := some [] }) :
    createPost T db reqUser body newId now = (db, .forward .validation) := by
  unfold createPost
  rw [h]
  simp only []
  cases hd : newPostDoc { body with title := some [] } reqUser._id newId now with
  | none => rfl
  | some doc =>
    have htitle : doc.title = [] := by
      unfold newPostDoc at hd
      split at hd
      · cases hd
      · cases hd
        rfl
    have hv : validatePostDoc allModified doc = false := by
      simp [validatePostDoc, allModified, htitle]
    simp only [savePost, hv, Bool.not_false, if_true]

theorem validateComment_of_blank {body : CommentBody} {content : Str}
    (hcontent : body.content = some content) (hblank : ∀ c ∈ content, isWhitespace c = true)
    (hne : content ≠ []) (hlen : content.length ≤ 1000) :
    validateComment body = some { body with content := some [] } := by
  have h1 : 1 ≤ content.length := List.length_pos.mpr hne
  unfold validateComment
  simp only [hcontent, Option.getD_some, h1, hlen, decide_True, Bool.and_self, if_true,
    trim_of_blank hblank]

theorem createComment_of_blank (db : Db) (reqUser : User) {body : CommentBody}
    (newId now : Nat) (h : validateComment body = some { body with content := some [] }) :
    createComment db reqUser body newId now = (db, failure 404 "Post not found")
    ∨ createComment db reqUser body newId now
        = (db, failure 400 "Comments are disabled for this post")
    ∨ createComment db reqUser body newId now = (db, failure 404 "Parent comment not found")
    ∨ createComment db reqUser body newId now = (db, .forward .validation) := by
  unfold createComment
  rw [h]
  simp only []
  split
  · exact Or.inl rfl
  · split
    · exact Or.inr (Or.inl rfl)
    · split
      · exact Or.inr (Or.inr (Or.inl rfl))
      · refine Or.inr (Or.inr (Or.inr ?_))
        have hv : ∀ (a p : ObjectId) (parent : Option ObjectId),
            validateCommentDoc (newCommentDoc [] a p parent newId now) = false := by
          intro a p parent
          simp [validateCommentDoc, newCommentDoc, trim]
        simp only [Option.getD_some, hv, Bool.not_false, if_true]

/-! ## Blank titles and contents: claims -/

set_option maxRecDepth 100000 in
/-- C24 (counterexample): a title of three spaces passes `validatePost`, which hands the
trimmed, empty title to the handler; `POST /posts` then fails in the schema validation of the
save and is not answered by the middleware. A comment content of two spaces passes
`validateComment` likewise. -/
theorem whitespace_title_passes_the_middleware :
    validatePost (sampleBody "   " "text") = some (sampleBody "" "text")
    ∧ createPost sampleTables toggleDb (sampleUser 1 "ann") (sampleBody "   " "text") 9 0
        = (toggleDb, .forward .validation)
    ∧ validateComment (sampleCommentBody "  " 1 none) = some (sampleCommentBody "" 1 none)
    ∧ createComment toggleDb (sampleUser 1 "ann") (sampleCommentBody "  " 1 none) 9 0
        = (toggleDb, .forward .validation) := by
  decide

/-- C24 (amended): an empty title is rejected by `validatePost` with status 400 and the
`Validation failed` body before the handler runs; a title of 1 to 200 whitespace characters,
sent with a valid content and excerpt, passes the middleware with the title trimmed to the
empty string, and `POST /posts` then fails in the schema validation of the save, with nothing
stored. Likewise an empty comment content is rejected by `validateComment` with status 400,
and a content of 1 to 1000 whitespace characters passes the middleware and is never stored:
`POST /comments` ends with one of its three error answers or in the schema validation. -/
theorem blank_input_is_rejected (T : SlugifyTables) (db : Db) (reqUser : User)
    (body : PostBody) (cbody : CommentBody) (newId now : Nat) (title content : Str)
    (htitle : body.title = some title) (hcontent : cbody.content = some content)
    (hblank : ∀ c ∈ title, isWhitespace c = true)
    (hcblank : ∀ c ∈ content, isWhitespace c = true) :
    (title = [] →
      validatePost body = none
      ∧ createPost T db reqUser body newId now = (db, failure 400 "Validation failed"))
    ∧ (title ≠ [] → title.length ≤ 200 → body.content.getD [] ≠ [] →
        (∀ e, body.excerpt = some e → e.length ≤ 500) →
      validatePost body = some { body with title := some [] }
      ∧ createPost T db reqUser body newId now = (db, .forward .validation))
    ∧ (content = [] →
      validateComment cbody = none
      ∧ createComment db reqUser cbody newId now = (db, failure 400 "Validation failed"))
    ∧ (content ≠ [] → content.length ≤ 1000 →
      validateComment cbody = some { cbody with content := some [] }
      ∧ (createComment db reqUser cbody newId now = (db, failure 404 "Post not found")
        ∨ createComment db reqUser cbody newId now
            = (db, failure 400 "Comments are disabled for this post")
        ∨ createComment db reqUser cbody newId now
            = (db, failure 404 "Parent comment not found")
        ∨ createComment db reqUser cbody newId now = (db, .forward .validation))) := by
  refine ⟨?_, ?_, ?_, ?_⟩
  · intro h
    subst h
    have hv : validatePost body = none := by
      unfold validatePost
      simp [htitle]
    refine ⟨hv, ?_⟩
    unfold createPost
    rw [hv]
  · intro hne hlen hc hex
    have hv := validatePost_of_blank htitle hblank hne hlen hc hex
    exact ⟨hv, createPost_of_blank T db reqUser newId now hv⟩
  · intro h
    subst h
    have hv : validateComment cbody = none := by
      unfold validateComment
      simp [hcontent]
    refine ⟨hv, ?_⟩
    unfold createComment
    rw [hv]
  · intro hne hlen
    have hv := validateComment_of_blank hcontent hcblank hne hlen
    exact ⟨hv, createComment_of_blank db reqUser newId now hv⟩

set_option maxRecDepth 100000 in
/-- C24 (amended), at a title of three spaces and a comment content of two spaces. -/
theorem blank_input_is_rejected_witness :
    validatePost (sampleBody "   " "text") = some { sampleBody "   " "text" with title := some [] }
    ∧ createPost sampleTables toggleDb (sampleUser 1 "ann") (sampleBody "   " "text") 9 0
        = (toggleDb, .forward .validation)
    ∧ validateComment (sampleCommentBody "  " 1 none)
        = some { sampleCommentBody "  " 1 none with content := some [] } :=
  have h := blank_input_is_rejected sampleTables toggleDb (sampleUser 1 "ann")
    (sampleBody "   " "text") (sampleCommentBody "  " 1 none) 9 0 "   ".toList "  ".toList rfl rfl
    (by decide) (by decide)
  ⟨(h.2.1 (by decide) (by decide) (by decide) (by decide)).1,
    (h.2.1 (by decide) (by decide) (by decide) (by decide)).2,
    (h.2.2.2 (by decide) (by decide)).1⟩

/-! ## Response bodies: lemmas -/

theorem twoShapes_failure (status : Nat) (message : String) :
    TwoShapes (failure status message) :=
  Or.inl ⟨rfl, rfl⟩

theorem twoShapes_success (status : Nat) (message : String) (data : Payload) :
    TwoShapes (success status message data) :=
  Or.inr ⟨rfl, rfl⟩

theorem twoShapes_forward (e : ServerError) : TwoShapes (.forward e) :=
  trivial

theorem deleteShapes_failure (status : Nat) (message : String) :
    DeleteShapes (failure status message) :=
  Or.inl ⟨rfl, rfl⟩

theorem deleteShapes_successNoData (status : Nat) (message : String) :
    DeleteShapes (successNoData status message) :=
  Or.inr ⟨rfl, rfl, rfl⟩

theorem twoShapes_createPost (T : SlugifyTables) (db : Db) (reqUser : User) (body : PostBody)
    (newId now : Nat) : TwoShapes (createPost T db reqUser body newId now).2 := by
  unfold createPost
  try simp only []
  repeat' split
  all_goals first
    | exact twoShapes_failure _ _
    | exact twoShapes_success _ _ _
    | exact twoShapes_forward _

theorem twoShapes_updatePost (db : Db) (reqUser : User) (id : ObjectId) (body : PostBody) :
    TwoShapes (updatePost db reqUser id body).2 := by
  unfold updatePost
  cases validatePost body with
  | none => exact twoShapes_failure _ _
  | some body' =>
    simp only []
    cases hfound : findPostById db.posts id with
    | none => exact twoShapes_failure _ _
    | some post =>
      simp only []
      split
      · exact twoShapes_failure _ _
      · rcases findByIdAndUpdate_of_found body' hfound with ⟨e, he⟩ | ⟨posts, p, hp⟩
        · rw [he]
          exact twoShapes_forward _
        · rw [hp]
          exact twoShapes_success _ _ _

theorem twoShapes_likePost (T : SlugifyTables) (db : Db) (reqUser : User) (id : ObjectId) :
    TwoShapes (likePost T db reqUser id).2 := by
  unfold likePost
  try simp only []
  repeat' split
  all_goals first
    | exact twoShapes_failure _ _
    | exact twoShapes_success _ _ _
    | exact twoShapes_forward _

theorem twoShapes_bookmarkPost (db : Db) (reqUser : User) (id : ObjectId) :
    TwoShapes (bookmarkPost db reqUser id).2 := by
  unfold bookmarkPost
  try simp only []
  repeat' split
  all_goals first
    | exact twoShapes_failure _ _
    | exact twoShapes_success _ _ _
    | exact twoShapes_forward _

theorem twoShapes_getPostBySlug (T : SlugifyTables) (E : QueryEngine) (db : Db)
    (reqUser : Option User) (slug : Str) : TwoShapes (getPostBySlug T E db reqUser slug).2 := by
  unfold getPostBySlug
  try simp only []
  repeat' split
  all_goals first
    | exact twoShapes_failure _ _
    | exact twoShapes_forward _
    | exact Or.inr (And.intro rfl rfl)

theorem twoShapes_likeComment (db : Db) (reqUser : User) (id : ObjectId) :
    TwoShapes (likeComment db reqUser id).2 := by
  unfold likeComment
  try simp only []
  repeat' split
  all_goals first
    | exact twoShapes_failure _ _
    | exact twoShapes_success _ _ _

theorem twoShapes_createComment (db : Db) (reqUser : User) (body : CommentBody)
    (newId now : Nat) : TwoShapes (createComment db reqUser body newId now).2 := by
  unfold createComment
  try simp only []
  repeat' split
  all_goals first
    | exact twoShapes_failure _ _
    | exact twoShapes_success _ _ _
    | exact twoShapes_forward _

theorem twoShapes_updateComment (db : Db) (reqUser : User) (id : ObjectId) (body : CommentBody)
    (now : Nat) : TwoShapes (updateComment db reqUser id body now).2 := by
  unfold updateComment
  try simp only []
  repeat' split
  all_goals first
    | exact twoShapes_failure _ _
    | exact twoShapes_success _ _ _
    | exact twoShapes_forward _

theorem twoShapes_followUser (db : Db) (reqUser : User) (id : ObjectId) :
    TwoShapes (followUser db reqUser id).2 := by
  unfold followUser
  try simp only []
  repeat' split
  all_goals first
    | exact twoShapes_failure _ _
    | exact twoShapes_success _ _ _
    | exact twoShapes_forward _

theorem twoShapes_adminUpdateRole (db : Db) (id : ObjectId) (role : Option Str) :
    TwoShapes (adminUpdateRole db id role).2 := by
  unfold adminUpdateRole
  try simp only []
  repeat' split
  all_goals first
    | exact twoShapes_failure _ _
    | exact twoShapes_success _ _ _

theorem twoShapes_getUserProfile (db : Db) (username : Str) :
    TwoShapes (getUserProfile db username) := by
  unfold getUserProfile
  split
  · exact twoShapes_failure _ _
  · exact Or.inr ⟨rfl, rfl⟩

theorem listShapes_getPosts (E : QueryEngine) (db : Db) (reqUser : Option User)
    (q : PostsQuery) : ListShapes (getPosts E db reqUser q) := by
  unfold getPosts
  simp only []
  repeat' split
  all_goals first
    | trivial
    | exact Or.inr ⟨⟨rfl, rfl⟩, rfl⟩

theorem listShapes_getComments (db : Db) (postId : ObjectId) (pageQ limitQ : Option Str) :
    ListShapes (getComments db postId pageQ limitQ) := by
  unfold getComments
  simp only []
  repeat' split
  all_goals first
    | trivial
    | exact Or.inr ⟨⟨rfl, rfl⟩, rfl⟩

theorem listShapes_adminUsers (E : QueryEngine) (db : Db) (pageQ limitQ searchQ : Option Str) :
    ListShapes (adminUsers E db pageQ limitQ searchQ) := by
  unfold adminUsers
  simp only []
  repeat' split
  all_goals first
    | trivial
    | exact Or.inr ⟨⟨rfl, rfl⟩, rfl⟩

theorem listShapes_adminPosts (E : QueryEngine) (db : Db) (pageQ limitQ searchQ : Option Str) :
    ListShapes (adminPosts E db pageQ limitQ searchQ) := by
  unfold adminPosts
  simp only []
  repeat' split
  all_goals first
    | trivial
    | exact Or.inr ⟨⟨rfl, rfl⟩, rfl⟩

theorem listShapes_adminComments (E : QueryEngine) (db : Db)
    (pageQ limitQ searchQ : Option Str) :
    ListShapes (adminComments E db pageQ limitQ searchQ) := by
  unfold adminComments
  simp only []
  repeat' split
  all_goals first
    | trivial
    | exact Or.inr ⟨⟨rfl, rfl⟩, rfl⟩

theorem plainListShapes_getUserPosts (db : Db) (username : Str) :
    PlainListShapes (getUserPosts db username) := by
  unfold getUserPosts
  split
  · exact Or.inl ⟨rfl, rfl⟩
  · exact Or.inr ⟨⟨rfl, rfl⟩, rfl⟩

theorem plainListShapes_getBookmarks (db : Db) (reqUser : User) :
    PlainListShapes (getBookmarks db reqUser) := by
  unfold getBookmarks
  split
  · trivial
  · exact Or.inr ⟨⟨rfl, rfl⟩, rfl⟩

theorem plainListShapes_getFollowers (db : Db) (id : ObjectId) :
    PlainListShapes (getFollowers db id) := by
  unfold getFollowers
  split
  · exact Or.inl ⟨rfl, rfl⟩
  · exact Or.inr ⟨⟨rfl, rfl⟩, rfl⟩

theorem plainListShapes_getFollowing (db : Db) (id : ObjectId) :
    PlainListShapes (getFollowing db id) := by
  unfold getFollowing
  split
  · exact Or.inl ⟨rfl, rfl⟩
  · exact Or.inr ⟨⟨rfl, rfl⟩, rfl⟩

theorem twoShapes_adminStats (db : Db) (monthStart : Nat) :
    TwoShapes (adminStats db monthStart) :=
  Or.inr ⟨rfl, rfl⟩

theorem twoShapes_uploadImage (file : Bool) (uploaded : Option (Str × Str)) :
    TwoShapes (uploadImage file uploaded) := by
  unfold uploadImage
  repeat' split
  all_goals first
    | exact twoShapes_failure _ _
    | exact twoShapes_success _ _ _
    | exact twoShapes_forward _

theorem deleteShapes_deleteImage (destroyed : Bool) : DeleteShapes (deleteImage destroyed) := by
  unfold deleteImage
  split
  · exact deleteShapes_successNoData _ _
  · trivial

theorem deleteShapes_deletePost (db : Db) (reqUser : User) (id : ObjectId) :
    DeleteShapes (deletePost db reqUser id).2 := by
  unfold deletePost
  try simp only []
  repeat' split
  all_goals first
    | exact deleteShapes_failure _ _
    | exact deleteShapes_successNoData _ _

theorem deleteShapes_deleteComment (db : Db) (reqUser : User) (id : ObjectId) :
    DeleteShapes (deleteComment db reqUser id).2 := by
  unfold deleteComment
  try simp only []
  repeat' split
  all_goals first
    | exact deleteShapes_failure _ _
    | exact deleteShapes_successNoData _ _

theorem deleteShapes_adminDeletePost (db : Db) (id : ObjectId) :
    DeleteShapes (adminDeletePost db id).2 := by
  unfold adminDeletePost
  try simp only []
  repeat' split
  all_goals first
    | exact deleteShapes_failure _ _
    | exact deleteShapes_successNoData _ _

theorem deleteShapes_adminDeleteComment (db : Db) (id : ObjectId) :
    DeleteShapes (adminDeleteComment db id).2 := by
  unfold adminDeleteComment
  try simp only []
  repeat' split
  all_goals first
    | exact deleteShapes_failure _ _
    | exact deleteShapes_successNoData _ _

theorem deleteShapes_adminDeleteUser (db : Db) (id : ObjectId) :
    DeleteShapes (adminDeleteUser db id).2 := by
  unfold adminDeleteUser
  try simp only []
  repeat' split
  all_goals first
    | exact deleteShapes_failure _ _
    | exact deleteShapes_successNoData _ _

/-! ## Response bodies: claims -/

set_option maxRecDepth 100000 in
/-- C22 (counterexample): the author's `DELETE /posts/1` is answered 200 with
`success: true` and a message, and without a `data` field; and the list endpoint
`GET /posts/user/ann` is answered with `success: true` and the posts, and without
`pagination`. -/
theorem delete_reply_has_no_data :
    (deletePost toggleDb (sampleUser 1 "ann") 1).2
      = .reply { status := 200, success := true,
                 message := some "Post deleted successfully".toList, data := none }
    ∧ ¬ TwoShapes (deletePost toggleDb (sampleUser 1 "ann") 1).2
    ∧ getUserPosts toggleDb "ann".toList
      = .reply { status := 200, success := true, message := none,
                 data := some (.posts [postView toggleDb none (samplePost 1 "Foo" "foo" "text")]),
                 pagination := none }
    ∧ ¬ ListShapes (getUserPosts toggleDb "ann".toList) := by
  decide

/-- C22 (amended): every response of a route handler is an error body (`success = false` and a
message) or a success body. The success body carries a `data` field, the like, bookmark and
follow responses among them, except in the six delete handlers, where it carries a message and
no `data` field. Of the list handlers, `GET /posts`, `GET /comments/post/:postId` and the three
admin lists add `pagination` to the success body, and `GET /posts/user/:username`,
`GET /users/me/bookmarks`, `GET /users/:id/followers` and `GET /users/:id/following` send none.
The search handler of the users router is reached by no request. -/
theorem response_bodies_have_three_shapes :
    (∀ T db reqUser body newId now, TwoShapes (createPost T db reqUser body newId now).2)
    ∧ (∀ db reqUser id body, TwoShapes (updatePost db reqUser id body).2)
    ∧ (∀ T E db reqUser slug, TwoShapes (getPostBySlug T E db reqUser slug).2)
    ∧ (∀ T db reqUser id, TwoShapes (likePost T db reqUser id).2)
    ∧ (∀ db reqUser id, TwoShapes (bookmarkPost db reqUser id).2)
    ∧ (∀ db reqUser id, TwoShapes (likeComment db reqUser id).2)
    ∧ (∀ db reqUser body newId now, TwoShapes (createComment db reqUser body newId now).2)
    ∧ (∀ db reqUser id body now, TwoShapes (updateComment db reqUser id body now).2)
    ∧ (∀ db reqUser id, TwoShapes (followUser db reqUser id).2)
    ∧ (∀ db username, TwoShapes (getUserProfile db username))
    ∧ (∀ db id role, TwoShapes (adminUpdateRole db id role).2)
    ∧ (∀ db monthStart, TwoShapes (adminStats db monthStart))
    ∧ (∀ file uploaded, TwoShapes (uploadImage file uploaded))
    ∧ (∀ E db reqUser q, ListShapes (getPosts E db reqUser q))
    ∧ (∀ db postId pageQ limitQ, ListShapes (getComments db postId pageQ limitQ))
    ∧ (∀ E db pageQ limitQ searchQ, ListShapes (adminUsers E db pageQ limitQ searchQ))
    ∧ (∀ E db pageQ limitQ searchQ, ListShapes (adminPosts E db pageQ limitQ searchQ))
    ∧ (∀ E db pageQ limitQ searchQ, ListShapes (adminComments E db pageQ limitQ searchQ))
    ∧ (∀ db username, PlainListShapes (getUserPosts db username))
    ∧ (∀ db reqUser, PlainListShapes (getBookmarks db reqUser))
    ∧ (∀ db id, PlainListShapes (getFollowers db id))
    ∧ (∀ db id, PlainListShapes (getFollowing db id))
    ∧ (∀ db reqUser id, DeleteShapes (deletePost db reqUser id).2)
    ∧ (∀ db reqUser id, DeleteShapes (deleteComment db reqUser id).2)
    ∧ (∀ db id, DeleteShapes (adminDeletePost db id).2)
    ∧ (∀ db id, DeleteShapes (adminDeleteComment db id).2)
    ∧ (∀ db id, DeleteShapes (adminDeleteUser db id).2)
    ∧ (∀ destroyed, DeleteShapes (deleteImage destroyed))
    ∧ (∀ method path, dispatchUsers method path ≠ some .search) :=
  ⟨twoShapes_createPost, twoShapes_updatePost, twoShapes_getPostBySlug, twoShapes_likePost,
    twoShapes_bookmarkPost, twoShapes_likeComment, twoShapes_createComment,
    twoShapes_updateComment, twoShapes_followUser, twoShapes_getUserProfile,
    twoShapes_adminUpdateRole, twoShapes_adminStats, twoShapes_uploadImage,
    listShapes_getPosts, listShapes_getComments, listShapes_adminUsers, listShapes_adminPosts,
    listShapes_adminComments, plainListShapes_getUserPosts, plainListShapes_getBookmarks,
    plainListShapes_getFollowers, plainListShapes_getFollowing, deleteShapes_deletePost,
    deleteShapes_deleteComment, deleteShapes_adminDeletePost, deleteShapes_adminDeleteComment,
    deleteShapes_adminDeleteUser, deleteShapes_deleteImage, dispatchUsers_ne_search⟩

end Blogspace
